import Mathlib

/-!
# TWI protocol library (twip) and its circular buffer

A shallow embedding of `src/utility/cb.cpp` (the circular buffer) and of
`src/twip.cpp` (checksum, flag decoding, `rx_add`, `send`, `receive`).

Conventions of the embedding

* `uint8_t` and `uint16_t` values are natural numbers; every place where the C
  code truncates (an assignment to a `uint8_t`, a `uint16_t` cast) carries an
  explicit `% 256` or `% 65536`.  Inputs of type `uint8_t` are assumed below
  256 by the theorems that need it.
* Arithmetic that C performs in `int` after integer promotion is done in `Int`.
  On the AVR target `int` has 16 bits, so the intermediate results of
  `checksum` are wrapped to 16 bits by `int16`.
* A `uint8_t*` argument is a `List Nat`; `data[i]` is `List.getD data i 0`.
* Heap blocks are lists.  The initial content of a block returned by `malloc`
  is an explicit parameter (`mem`); a store outside the block is not recorded
  in the block.
-/

namespace Twip

/-! ## Constants of `twip.h` -/

def TWIP_MAX_TTL : Nat := 0x0F
def TWIP_HEADER_SIZE : Nat := 7
def TWIP_MAX_BUFFER_SIZE : Nat := 254

def TWIP_NOF : Nat := 0x00
def TWIP_SOF : Nat := 0x01
def TWIP_EOF : Nat := 0x03

def TWIP_FLAG_NFO : Nat := 0x00
def TWIP_FLAG_TTL : Nat := 0x01

/-- Modelled from the spec: the constant `TWI_BUFFER_LENGTH` comes from the bus
driver's header `utility/twi.h`, which is not part of the sources; the spec's
example fixes `max_chunk = TWI_BUFFER_LENGTH - TWIP_HEADER_SIZE = 25`. -/
def TWI_BUFFER_LENGTH : Nat := 32

/-! ## Machine integers -/

/-- Wrap of a mathematical integer into the 16-bit two's-complement `int` of
the AVR target. -/
def int16 (x : Int) : Int := (x + 32768) % 65536 - 32768

/-- Conversion of an `int` to `uint16_t`. -/
def uint16 (x : Int) : Nat := (x % 65536).toNat

/-- Conversion of an `int` to `uint8_t`. -/
def uint8 (x : Int) : Nat := (x % 256).toNat

/-- The element `data[i]` of a byte array. -/
def at8 (data : List Nat) (i : Nat) : Nat := data.getD i 0

/-! ## The circular buffer, `utility/cb.cpp` -/

/-- The fields of `class cb`. -/
structure cb where
  cb_size : Nat
  cb_start : Nat
  cb_end : Nat
  cb_buffer : List Nat
deriving DecidableEq, Repr

namespace cb

/-- `cb::init`: clamp the size to 254, reset both cursors, allocate zeroed
storage of `size + 1` slots (`calloc`). -/
def init (size : Nat) : cb :=
  let size := if size > 254 then 254 else size
  { cb_start := 0
    cb_end := 0
    cb_size := size + 1
    cb_buffer := List.replicate (size + 1) 0 }

/-- `cb::read`: the byte under the read cursor, and the buffer with the read
cursor advanced. -/
def read (b : cb) : Nat × cb :=
  let ret := at8 b.cb_buffer b.cb_start
  (ret, { b with cb_start := (b.cb_start + 1) % b.cb_size })

/-- `cb::write`: refuse when full, else store and advance the write cursor. -/
def write (b : cb) (byte : Nat) : Bool × cb :=
  if (b.cb_end + 1) % b.cb_size = b.cb_start then (false, b)
  else
    (true, { b with cb_buffer := b.cb_buffer.set b.cb_end byte
                    cb_end := (b.cb_end + 1) % b.cb_size })

/-- `cb::peek`. -/
def peek (b : cb) (offset : Nat) : Nat :=
  at8 b.cb_buffer ((b.cb_start + offset) % b.cb_size)

/-- `cb::empty`. -/
def empty (b : cb) : Bool := if b.cb_start = b.cb_end then true else false

/-- `cb::available`: the expression is evaluated in `int` and the result is
converted to `uint8_t`. -/
def available (b : cb) : Nat :=
  uint8 (((b.cb_size : Int) - 1) - ((b.cb_end : Int) - (b.cb_start : Int)))

end cb

/-! ## The protocol engine, `twip.cpp` -/

/-- The result record `struct twippacket`; `payload` is the heap block the
pointer field refers to. -/
structure twippacket where
  sender : Nat
  flag : Nat
  opcode : Nat
  id : Nat
  checksum : Nat
  size : Nat
  complete : Bool
  payload : List Nat
deriving DecidableEq, Repr

/-- The fields of `class twiprotocol`. -/
structure twiprotocol where
  rx_buffer : cb
  pkt_id : Nat
  twi_address : Nat
deriving DecidableEq, Repr

/-- The constructor `twiprotocol::twiprotocol(addr)`; the object has static
storage, so `pkt_id` starts at zero. -/
def twiprotocol.new (addr : Nat) : twiprotocol :=
  { twi_address := addr
    rx_buffer := cb.init TWIP_MAX_BUFFER_SIZE
    pkt_id := 0 }

/-- `twiprotocol::checksum`:
`~(((sender << 8) + opcode) + (((flag + len) << 8) + id))`, computed in `int`
and returned as `uint16_t`. -/
def checksum (sender flag opcode id len : Nat) : Nat :=
  uint16 (~~~ (int16 (int16 (int16 ((sender <<< 8 : Nat) : Int) + (opcode : Int))
    + int16 (int16 (((flag + len) <<< 8 : Nat) : Int) + (id : Int)))))

/-- `twiprotocol::flag_decode`: `ret` is a `uint8_t`, so the left shift is
truncated to eight bits before the right shift. -/
def flag_decode (type flag : Nat) : Nat :=
  if type = TWIP_FLAG_NFO then ((flag <<< 6) % 256) >>> 6
  else if type = TWIP_FLAG_TTL then flag >>> 4
  else flag

/-- The copy loop of `rx_add`,
`for (i = 0; i < TWIP_HEADER_SIZE + data[6]; i++) rx_buffer.write(data[i])`,
with `n` iterations left and loop counter `i`.  The results of `write` are
ignored, as in the source.  (The counter is a `uint8_t`; the loop is entered
only when `TWIP_HEADER_SIZE + data[6] + 1 <= available() <= 255`.) -/
def rx_add_copy (data : List Nat) : Nat → Nat → cb → cb
  | 0, _, b => b
  | n + 1, i, b => rx_add_copy data n (i + 1) (b.write (at8 data i)).2

/-- `twiprotocol::rx_add`.  The first operand of the condition is written
`bytes < ( TWIP_HEADER_SIZE + 3 ) & ~0x03`; C parses it as
`(bytes < (TWIP_HEADER_SIZE + 3)) & ~0x03`, the bitwise AND of a truth value
(0 or 1) with the bit pattern of `~0x03` (`0xFFFC` in a 16-bit `int`). -/
def rx_add (self : twiprotocol) (data : List Nat) (bytes : Int) : Bool × twiprotocol :=
  if ((if bytes < ((TWIP_HEADER_SIZE + 3 : Nat) : Int) then 1 else 0) &&& 0xFFFC) ≠ 0
      ∨ TWIP_HEADER_SIZE + at8 data 6 + 1 > self.rx_buffer.available
      ∨ uint16 (int16 (int16 ((at8 data 4 <<< 8 : Nat) : Int) + (at8 data 5 : Int)))
          ≠ checksum (at8 data 0) (at8 data 1) (at8 data 2) (at8 data 3) (at8 data 6)
  then (false, self)
  else
    let b := (self.rx_buffer.write ((TWIP_HEADER_SIZE + at8 data 6) % 256)).2
    let b := rx_add_copy data (TWIP_HEADER_SIZE + at8 data 6) 0 b
    (true, { self with rx_buffer := b })

/-- `twiprotocol::put`, the public wrapper of `rx_add`. -/
def put (self : twiprotocol) (data : List Nat) (bytes : Int) : Bool × twiprotocol :=
  rx_add self data bytes

/-! ### `send` -/

/-- The local variables of `send` that change in its loop, the object's
`pkt_id`, and the frames handed to `twi_writeTo` so far (oldest first). -/
structure sendState where
  bytes : Nat
  t_payload_cur : Nat
  pkt_id : Nat
  ret : Nat
  frames : List (List Nat)
deriving DecidableEq, Repr

/-- The payload copy loop of `send`,
`for (j = TWIP_HEADER_SIZE; j < t_this_pkt_len; j++) { packet[j] = payload[t_payload_cur]; t_payload_cur++; }`,
with `n` iterations left; returns the packet and `t_payload_cur`. -/
def send_copy (payload : List Nat) : Nat → Nat → List Nat → Nat → List Nat × Nat
  | 0, _, packet, cur => (packet, cur)
  | n + 1, j, packet, cur =>
    send_copy payload n (j + 1) (packet.set j (at8 payload cur)) ((cur + 1) % 256)

/-- The fill loop of `send`,
`for (j = TWIP_HEADER_SIZE + t_this_pkt_len; j < t_this_pkt_aligned; j++) packet[TWIP_HEADER_SIZE + j] = 0x00;`,
with `n` iterations left.  `List.set` leaves the block as it is when the index
is outside of it. -/
def send_fill : Nat → Nat → List Nat → List Nat
  | 0, _, packet => packet
  | n + 1, j, packet => send_fill n (j + 1) (packet.set (TWIP_HEADER_SIZE + j) 0x00)

/-- The local `t_this_pkt_len` of `send` when `bytes` payload bytes remain:
`bytes`, capped at `TWI_BUFFER_LENGTH - TWIP_HEADER_SIZE`. -/
def t_this_pkt_len (bytes : Nat) : Nat :=
  if bytes > TWI_BUFFER_LENGTH - TWIP_HEADER_SIZE then TWI_BUFFER_LENGTH - TWIP_HEADER_SIZE
  else bytes

/-- The local `t_this_pkt_aligned` of `send`,
`( (TWIP_HEADER_SIZE + t_this_pkt_len) + 3 ) & ~0x03` stored in a `uint8_t`. -/
def t_this_pkt_aligned (len : Nat) : Nat :=
  (((TWIP_HEADER_SIZE + len) + 3) &&& 0xFFFC) % 256

/-- The first part of one iteration of the `for` loop of `send`, for loop
counter `i`: the block `packet` as it is when it is handed to `twi_writeTo`,
and `t_payload_cur` afterwards.  `mem i j` is the content that byte `j` of the
block returned by the `i`-th `malloc` has before the first store. -/
def send_packet (twi_address opcode packets : Nat) (payload : List Nat)
    (mem : Nat → Nat → Nat) (i : Nat) (s : sendState) : List Nat × Nat :=
  let len := t_this_pkt_len s.bytes
  let aligned := t_this_pkt_aligned len
  let packet := (List.range aligned).map (fun j => mem i j % 256)
  let packet := packet.set 0 twi_address
  let packet := packet.set 1 (if packets < 2 then TWIP_NOF else TWIP_SOF)
  let packet := packet.set 2 opcode
  let packet := packet.set 3 s.pkt_id
  let packet := packet.set 6 len
  let packet := if packets > 1 ∧ i = packets - 1 then packet.set 1 TWIP_EOF else packet
  let packet := packet.set 4
    ((checksum (at8 packet 0) (at8 packet 1) (at8 packet 2) (at8 packet 3) (at8 packet 6) >>> 8) % 256)
  let packet := packet.set 5
    (checksum (at8 packet 0) (at8 packet 1) (at8 packet 2) (at8 packet 3) (at8 packet 6) % 256)
  let copied := send_copy payload (len - TWIP_HEADER_SIZE) TWIP_HEADER_SIZE packet
    s.t_payload_cur
  let packet := send_fill (aligned - (TWIP_HEADER_SIZE + len)) (TWIP_HEADER_SIZE + len) copied.1
  (packet, copied.2)

/-- One iteration of the `for` loop of `send`, for loop counter `i`.  `bus i`
is the value returned by the `i`-th call of `twi_writeTo`; `info2` tells
whether the build defines `__INFO2____` (then a returned 0 is turned into
`true`). -/
def send_body (info2 : Bool) (twi_address opcode packets : Nat) (payload : List Nat)
    (mem : Nat → Nat → Nat) (bus : Nat → Nat) (i : Nat) (s : sendState) : sendState :=
  let built := send_packet twi_address opcode packets payload mem i s
  let pkt_id := if packets < 2 then (s.pkt_id + 1) % 256 else s.pkt_id
  let ret := bus i % 256
  let ret := if info2 ∧ ret = 0 then 1 else ret
  { bytes := s.bytes - t_this_pkt_len s.bytes
    t_payload_cur := built.2
    pkt_id := pkt_id
    ret := ret
    frames := s.frames ++ [built.1] }

/-- The `for (i = 0; i < packets; i++)` loop of `send`, with `n` iterations
left and loop counter `i`. -/
def send_loop (info2 : Bool) (twi_address opcode packets : Nat) (payload : List Nat)
    (mem : Nat → Nat → Nat) (bus : Nat → Nat) : Nat → Nat → sendState → sendState
  | 0, _, s => s
  | n + 1, i, s =>
    send_loop info2 twi_address opcode packets payload mem bus n (i + 1)
      (send_body info2 twi_address opcode packets payload mem bus i s)

/-- The number of packets computed at the head of `send`. -/
def send_packets (bytes : Nat) : Nat :=
  let packets := (bytes / (TWI_BUFFER_LENGTH - TWIP_HEADER_SIZE) + 1) % 256
  let packets :=
    if bytes % (TWI_BUFFER_LENGTH - TWIP_HEADER_SIZE) = 0 then (packets + 255) % 256 else packets
  if packets = 0 then (packets + 1) % 256 else packets

/-- What a call of `send` produces: the returned value, the frames handed to
`twi_writeTo` in order, and the object afterwards. -/
structure sendResult where
  ret : Nat
  frames : List (List Nat)
  self : twiprotocol
deriving DecidableEq, Repr

/-- `twiprotocol::send(addr, opcode, bytes, payload)`.  The destination address
is only passed on to `twi_writeTo` and is not part of the model. -/
def send (info2 : Bool) (self : twiprotocol) (opcode bytes : Nat) (payload : List Nat)
    (mem : Nat → Nat → Nat) (bus : Nat → Nat) : sendResult :=
  let packets := send_packets bytes
  let s := send_loop info2 self.twi_address opcode packets payload mem bus packets 0
    { bytes := bytes, t_payload_cur := 0, pkt_id := self.pkt_id, ret := 0, frames := [] }
  let pkt_id := if packets > 1 then (s.pkt_id + 1) % 256 else s.pkt_id
  { ret := s.ret, frames := s.frames, self := { self with pkt_id := pkt_id } }

/-! ### `receive` -/

/-- The local variables of `receive` together with the receive buffer. -/
structure rxState where
  ret : twippacket
  t_count : Nat
  t_total_bytes : Nat
  rx_buffer : cb
deriving DecidableEq, Repr

/-- `realloc(block, n)`: the first `min n (size of block)` bytes are kept; new
bytes are modelled as zero. -/
def realloc (block : List Nat) (n : Nat) : List Nat :=
  block.take n ++ List.replicate (n - block.length) 0

/-- The loop `for (i = 0; i < TWIP_HEADER_SIZE; i++) rx_buffer.read();` and its
unrolled form for the first record, with `n` reads left. -/
def rx_skip : Nat → cb → cb
  | 0, b => b
  | n + 1, b => rx_skip n b.read.2

/-- The payload copy loop of `receive`,
`for (i = 0; i < t_size; i++) ret.payload[(t_total_bytes - t_size) + i] = rx_buffer.read();`,
with `n` iterations left.  The index is computed in `int`; a store at a
negative index or past the block is not recorded in the block. -/
def rx_copy (t_total_bytes t_size : Nat) : Nat → Nat → List Nat → cb → List Nat × cb
  | 0, _, payload, b => (payload, b)
  | n + 1, i, payload, b =>
    let idx : Int := ((t_total_bytes : Int) - (t_size : Int)) + (i : Int)
    let r := b.read
    rx_copy t_total_bytes t_size n (i + 1)
      (if 0 ≤ idx then payload.set idx.toNat r.1 else payload) r.2

/-- The body of the `while` loop of `receive`, up to and including the
`switch`. -/
def receive_body (s : rxState) : rxState :=
  let t_flag := flag_decode TWIP_FLAG_NFO (s.rx_buffer.peek 2)
  let r := s.rx_buffer.read
  let t_size := uint8 ((r.1 : Int) - (TWIP_HEADER_SIZE : Int))
  let b := r.2
  let t_total_bytes := (s.t_total_bytes + t_size) % 256
  let t_count := (s.t_count + 1) % 256
  let hdr : twippacket × cb :=
    if t_count = 1 then
      let r1 := b.read
      let r2 := r1.2.read
      let r3 := r2.2.read
      let r4 := r3.2.read
      let r5 := r4.2.read
      let r6 := r5.2.read
      let r7 := r6.2.read
      ({ s.ret with sender := r1.1, flag := r2.1, opcode := r3.1, id := r4.1, size := r7.1 }, r7.2)
    else (s.ret, rx_skip TWIP_HEADER_SIZE b)
  let np := realloc hdr.1.payload t_total_bytes
  let copied := rx_copy t_total_bytes t_size t_size 0 np hdr.2
  let ret := { hdr.1 with payload := copied.1 }
  let ret :=
    if t_flag = TWIP_NOF then { ret with complete := true }
    else if t_flag = TWIP_EOF then { ret with flag := TWIP_EOF, complete := true }
    else ret
  { ret := ret, t_count := t_count, t_total_bytes := t_total_bytes, rx_buffer := copied.2 }

/-- The loop `while (!ret.complete) { body; if (rx_buffer.empty()) break; }` of
`receive`.  The loop is entered with `ret.complete = false`; it has no bound in
the source, so the model takes fuel and returns `none` when it runs out. -/
def receive_loop : Nat → rxState → Option rxState
  | 0, _ => none
  | fuel + 1, s =>
    let s := receive_body s
    if s.rx_buffer.empty then some s
    else if s.ret.complete then some s
    else receive_loop fuel s

/-- The loop `for (i = 0; i < ret.size; i++) rx_buffer.write(ret.payload[i]);`
of the requeue branch, with `n` iterations left. -/
def rx_requeue_copy (payload : List Nat) : Nat → Nat → cb → cb
  | 0, _, b => b
  | n + 1, i, b => rx_requeue_copy payload n (i + 1) (b.write (at8 payload i)).2

/-- The part of `receive` after the loop. -/
def receive_finish (s : rxState) : twippacket × cb :=
  let ret := { s.ret with size := s.t_total_bytes }
  let ret := { ret with checksum := checksum ret.sender ret.flag ret.opcode ret.id ret.size }
  if ret.complete then (ret, s.rx_buffer)
  else
    let b :=
      if ret.size + TWIP_HEADER_SIZE < s.rx_buffer.available
          ∧ flag_decode TWIP_FLAG_TTL ret.flag < TWIP_MAX_TTL then
        let t_flag := (flag_decode TWIP_FLAG_TTL ret.flag + 1) % 256
        let b := (s.rx_buffer.write ((ret.size + TWIP_HEADER_SIZE) % 256)).2
        let b := (b.write ret.sender).2
        let b := (b.write (((t_flag <<< 4) + flag_decode TWIP_FLAG_NFO ret.flag) % 256)).2
        let b := (b.write ret.opcode).2
        let b := (b.write ret.id).2
        let b := (b.write ((ret.checksum >>> 8) % 256)).2
        let b := (b.write (ret.checksum % 256)).2
        let b := (b.write ret.size).2
        rx_requeue_copy ret.payload ret.size 0 b
      else s.rx_buffer
    ({ ret with payload := realloc ret.payload 1 }, b)

/-- The record `receive` starts from: `complete = false`; the other fields are
not initialised by the source and are modelled as zero, `payload` as empty. -/
def twippacket.blank : twippacket :=
  { sender := 0, flag := 0, opcode := 0, id := 0, checksum := 0, size := 0,
    complete := false, payload := [] }

/-- `twiprotocol::receive`.  Returns `none` when the fuel does not suffice for
the `while` loop.  `malloc(sizeof(uint8_t))` gives a block of one byte,
modelled as zero. -/
def receive (fuel : Nat) (self : twiprotocol) : Option (twippacket × twiprotocol) :=
  if self.rx_buffer.empty then some (twippacket.blank, self)
  else
    match receive_loop fuel
      { ret := { twippacket.blank with payload := [0] }, t_count := 0, t_total_bytes := 0,
        rx_buffer := self.rx_buffer } with
    | none => none
    | some s =>
      let r := receive_finish s
      some (r.1, { self with rx_buffer := r.2 })

/-- `twiprotocol::available`. -/
def available (self : twiprotocol) : Bool := !self.rx_buffer.empty

/-! ## Call sequences and observations used in the statements -/

/-- The bytes stored in the buffer, oldest first: what successive `read` calls
return until `empty` holds, at most `fuel` of them. -/
def cb.contents : Nat → cb → List Nat
  | 0, _ => []
  | fuel + 1, b => if b.empty then [] else b.read.1 :: cb.contents fuel b.read.2

/-- `rx_add` applied to the frames of a list in order, each with its length as
byte count; the engine afterwards and the list of returned values. -/
def rx_add_all : twiprotocol → List (List Nat) → twiprotocol × List Bool
  | self, [] => (self, [])
  | self, data :: rest =>
    let r := rx_add self data (data.length : Int)
    let q := rx_add_all r.2 rest
    (q.1, r.1 :: q.2)

/-- The engine after a call of `receive` (the engine itself when the fuel does
not suffice). -/
def receive_engine (fuel : Nat) (self : twiprotocol) : twiprotocol :=
  match receive fuel self with
  | some r => r.2
  | none => self

/-- A reachable engine state with a full, wrapped buffer: a fresh engine
accepts an 8-byte frame, `receive` consumes it (both cursors at 8), then seven
frames with 25 payload bytes and one with 15 payload bytes are handed to
`rx_add`. -/
def engine_full_wrapped : twiprotocol :=
  (rx_add_all (receive_engine 1 (rx_add (twiprotocol.new 1) [5, 0, 2, 0, 250, 253, 0, 0] 8).2)
    (List.replicate 7 ([5, 0, 2, 1, 225, 252, 25] ++ List.replicate 25 0xAA)
      ++ [[5, 0, 2, 1, 235, 252, 15] ++ List.replicate 15 0xAA ++ [0, 0]])).1

/-! ## Notions used in the proofs -/

/-- The flag byte `send` gives to frame `i` of `packets`: the initial choice
between `TWIP_NOF` and `TWIP_SOF`, overwritten by `TWIP_EOF` in the last frame
of several. -/
def send_flag (packets i : Nat) : Nat :=
  if packets > 1 ∧ i = packets - 1 then TWIP_EOF
  else if packets < 2 then TWIP_NOF else TWIP_SOF

/-- Representation relation of the circular buffer: `b` holds the bytes `q`,
oldest first.  The storage has `cb_size` slots, the read cursor is inside it,
fewer than `cb_size` bytes are stored, the write cursor is `|q|` slots after
the read cursor (cyclically) and the slots in between carry `q`. -/
def cb.Holds (b : cb) (q : List Nat) : Prop :=
  b.cb_buffer.length = b.cb_size ∧ b.cb_start < b.cb_size ∧ q.length < b.cb_size
  ∧ b.cb_end = (b.cb_start + q.length) % b.cb_size
  ∧ ∀ k, k < q.length → at8 b.cb_buffer ((b.cb_start + k) % b.cb_size) = at8 q k

/-- The bytes `rx_add` writes into the buffer for an accepted fragment: the
accounting byte, then `data[0 .. TWIP_HEADER_SIZE + data[6] - 1]`. -/
def stored_record (data : List Nat) : List Nat :=
  ((TWIP_HEADER_SIZE + at8 data 6) % 256)
    :: (List.range (TWIP_HEADER_SIZE + at8 data 6)).map (fun k => at8 data k)

/-- The payload bytes `data[TWIP_HEADER_SIZE .. TWIP_HEADER_SIZE + data[6] - 1]`
of a fragment. -/
def fragment_payload (data : List Nat) : List Nat :=
  (List.range (at8 data 6)).map (fun k => at8 data (TWIP_HEADER_SIZE + k))

/-! ## Sequences of buffer operations -/

/-- The bytes of a list written one by one with `write`: the returned values
in order and the buffer afterwards. -/
def cb.write_all : cb → List Nat → List Bool × cb
  | b, [] => ([], b)
  | b, x :: xs =>
    let r := b.write x
    let q := cb.write_all r.2 xs
    (r.1 :: q.1, q.2)

/-- The results of `n` successive `read` calls, and the buffer afterwards. -/
def cb.read_n : Nat → cb → List Nat × cb
  | 0, b => ([], b)
  | n + 1, b =>
    let r := b.read
    let q := cb.read_n n r.2
    (r.1 :: q.1, q.2)

/-- A call of `peek` as a step on the buffer: the returned byte and the buffer
afterwards (the body of `cb::peek` is a single `return` of an indexed load). -/
def cb.peek_call (b : cb) (offset : Nat) : Nat × cb := (b.peek offset, b)

/-- The states of a buffer reachable from `init(c)` by successful writes and by
reads of stored bytes, together with the bytes written and not yet read,
oldest first. -/
inductive cb.Reach (c : Nat) : cb → List Nat → Prop
  | init : cb.Reach c (cb.init c) []
  | write (b : cb) (q : List Nat) (x : Nat) :
      cb.Reach c b q → (b.write x).1 = true → cb.Reach c (b.write x).2 (q ++ [x])
  | read (b : cb) (q : List Nat) :
      cb.Reach c b q → q ≠ [] → cb.Reach c b.read.2 q.tail

/-- A reachable state with wrapped cursors: after `init(3)` the bytes 1, 2, 3
are written, three bytes are read, and 4 and 5 are written.  The read cursor
is 3, the write cursor 1, and the bytes 4 and 5 are stored in slots 3 and 0. -/
def cb.example_wrapped : cb :=
  (cb.write_all (cb.read_n 3 (cb.write_all (cb.init 3) [1, 2, 3]).2).2 [4, 5]).2

/-- The fragment that the requeue branch of `receive` writes back for an
incomplete aggregate: the header fields of the result with the TTL of the flag
increased by one, the recomputed checksum, the total size, and the payload. -/
def requeue_frame (sender flag opcode id size : Nat) (payload : List Nat) : List Nat :=
  [sender,
    ((((flag_decode TWIP_FLAG_TTL flag + 1) % 256) <<< 4)
      + flag_decode TWIP_FLAG_NFO flag) % 256,
    opcode, id,
    (checksum sender flag opcode id size >>> 8) % 256,
    checksum sender flag opcode id size % 256,
    size] ++ payload

/-- The buffer of the engine holds exactly one record, of a fragment with
sender `s`, opcode `o`, id `i`, payload `P` of `la` bytes, and flag
`16 * k + TWIP_SOF` (TTL `k`, fragmentation bits `TWIP_SOF`). -/
def holds_aged (s o i la : Nat) (P : List Nat) (k : Nat) (e : twiprotocol) : Prop :=
  ∃ X : List Nat, e.rx_buffer.Holds (stored_record X) ∧ e.rx_buffer.cb_size = 255
    ∧ at8 X 0 = s ∧ at8 X 1 = 16 * k + TWIP_SOF ∧ at8 X 2 = o ∧ at8 X 3 = i ∧ at8 X 6 = la
    ∧ fragment_payload X = P

/-! ## The example of the specification -/

/-- A well-formed fragment of the example: sender 5, opcode 2, the given flag
and id, the matching checksum, and 25 payload bytes `0xAA`. -/
def example_fragment (flag id : Nat) : List Nat :=
  [5, flag, 2, id, (checksum 5 flag 2 id 25 >>> 8) % 256, checksum 5 flag 2 id 25 % 256, 25]
    ++ List.replicate 25 0xAA

/-- The ten fragments of the example: nine flagged `TWIP_SOF`, the last
flagged `TWIP_EOF`, all with the same id. -/
def example_fragments (id : Nat) : List (List Nat) :=
  List.replicate 9 (example_fragment TWIP_SOF id) ++ [example_fragment TWIP_EOF id]

/-- A reachable engine state with a full, wrapped buffer after a requeue: a
fresh engine accepts a `TWIP_SOF` fragment with 246 payload bytes, and one
`receive` call reads it and writes it back with TTL 1. -/
def engine_requeued_full : twiprotocol :=
  receive_engine 1
    (rx_add (twiprotocol.new 1) ([5, 1, 2, 9, 3, 244, 246] ++ List.replicate 246 0xAA) 253).2

/-! ## Arbitrary sequences of buffer calls -/

/-- A call of one of the member functions of `cb` other than `init`, with its
argument. -/
inductive cb.call where
  | write (byte : Nat)
  | read
  | peek (offset : Nat)
  | empty
  | available
deriving DecidableEq, Repr

/-- The buffer after one call; the result of the call is dropped.  `read`
moves the read cursor whether or not a byte is stored, `write` returns the
buffer as it is when it refuses, and the bodies of `peek`, `empty` and
`available` store nothing. -/
def cb.step (b : cb) : cb.call → cb
  | .write byte => (b.write byte).2
  | .read => b.read.2
  | .peek offset => (b.peek_call offset).2
  | .empty => b
  | .available => b

/-- The buffer after a sequence of calls, first call first. -/
def cb.run : cb → List cb.call → cb
  | b, [] => b
  | b, op :: ops => cb.run (b.step op) ops

/-! ## Machine-integer lemmas -/

theorem int16_emod (x : Int) : int16 x % 65536 = x % 65536 := by
  unfold int16; omega

theorem not_emod (x : Int) : (~~~ x) % 65536 = (65535 - x % 65536) % 65536 := by
  have h : ~~~ x = -x - 1 := by
    cases x with
    | ofNat n => show Int.negSucc n = -(n : Int) - 1; rw [Int.negSucc_eq]; omega
    | negSucc n => show (n : Int) = -(Int.negSucc n) - 1; rw [Int.negSucc_eq]; omega
  rw [h]; omega

/-- The arithmetic form of `checksum`. -/
theorem checksum_eq (sender flag opcode id len : Nat) :
    checksum sender flag opcode id len
      = 65535 - ((sender * 256 + opcode) + ((flag + len) * 256 + id)) % 65536 := by
  unfold checksum uint16
  rw [not_emod]
  simp only [Nat.shiftLeft_eq]
  unfold int16
  push_cast
  omega

theorem xor_ffff (x : Nat) (h : x < 65536) : x ^^^ 0xFFFF = 65535 - x := by
  apply Nat.eq_of_testBit_eq
  intro i
  have h2 : x < 2 ^ 16 := by simpa using h
  have e : (65535 : Nat) - x = 2 ^ 16 - (x + 1) := by omega
  have f : (0xFFFF : Nat) = 2 ^ 16 - 1 := by norm_num
  rw [e, Nat.testBit_two_pow_sub_succ h2, Nat.testBit_xor, f, Nat.testBit_two_pow_sub_one]
  by_cases hi : i < 16
  · simp [hi]
  · have : x.testBit i = false := by
      apply Nat.testBit_lt_two_pow
      calc x < 2 ^ 16 := h2
        _ ≤ 2 ^ i := Nat.pow_le_pow_right (by decide) (by omega)
    simp [hi, this]

theorem at8_set (l : List Nat) (i v k : Nat) :
    at8 (l.set i v) k = if i = k ∧ i < l.length then v else at8 l k := by
  unfold at8
  rw [List.getD_eq_getElem?_getD, List.getD_eq_getElem?_getD, List.getElem?_set]
  by_cases h : i = k
  · subst h
    by_cases hl : i < l.length
    · simp [hl]
    · simp [hl, List.getElem?_eq_none (Nat.le_of_not_lt hl)]
  · simp [h]

/-- The value `(uint16_t) ((data[4] << 8) + data[5])` that `rx_add` compares
with the checksum. -/
theorem wire_checksum_eq (hi lo : Nat) :
    uint16 (int16 (int16 ((hi <<< 8 : Nat) : Int) + (lo : Int))) = (hi * 256 + lo) % 65536 := by
  unfold uint16
  rw [int16_emod]
  simp only [Nat.shiftLeft_eq]
  unfold int16
  push_cast
  omega

/-- The length test of `rx_add` never fires: the truth value of
`bytes < TWIP_HEADER_SIZE + 3` is ANDed with `~0x03`, which clears it. -/
theorem rx_add_length_test (bytes : Int) :
    ((if bytes < ((TWIP_HEADER_SIZE + 3 : Nat) : Int) then 1 else 0) &&& 0xFFFC) = 0 := by
  split <;> rfl

/-! ## Lemmas on `send` -/

theorem send_copy_length (payload : List Nat) (n j : Nat) (packet : List Nat) (cur : Nat) :
    (send_copy payload n j packet cur).1.length = packet.length := by
  induction n generalizing j packet cur with
  | zero => rfl
  | succ n ih => rw [send_copy, ih, List.length_set]

theorem send_copy_below (payload : List Nat) (n j : Nat) (packet : List Nat) (cur k : Nat)
    (hk : k < j) : at8 (send_copy payload n j packet cur).1 k = at8 packet k := by
  induction n generalizing j packet cur with
  | zero => rfl
  | succ n ih =>
    rw [send_copy, ih (j + 1) _ _ (by omega), at8_set]
    rw [if_neg (by omega)]

theorem send_fill_length (n j : Nat) (packet : List Nat) :
    (send_fill n j packet).length = packet.length := by
  induction n generalizing j packet with
  | zero => rfl
  | succ n ih => rw [send_fill, ih, List.length_set]

theorem send_fill_below (n j : Nat) (packet : List Nat) (k : Nat)
    (hk : k < TWIP_HEADER_SIZE + j) : at8 (send_fill n j packet) k = at8 packet k := by
  induction n generalizing j packet with
  | zero => rfl
  | succ n ih =>
    rw [send_fill, ih (j + 1) _ (by omega), at8_set]
    rw [if_neg (by omega)]

/-- The aligned frame length computed by `send`. -/
theorem send_aligned (len : Nat) (h : len ≤ 25) :
    t_this_pkt_aligned len = (TWIP_HEADER_SIZE + len + 3) / 4 * 4 := by
  unfold t_this_pkt_aligned TWIP_HEADER_SIZE
  interval_cases len <;> rfl

theorem send_len_le (bytes : Nat) : t_this_pkt_len bytes ≤ 25 := by
  unfold t_this_pkt_len TWI_BUFFER_LENGTH TWIP_HEADER_SIZE
  split <;> omega

theorem send_len_eq (bytes : Nat) : t_this_pkt_len bytes = min bytes 25 := by
  unfold t_this_pkt_len TWI_BUFFER_LENGTH TWIP_HEADER_SIZE
  split <;> omega

theorem send_packet_length (twi_address opcode packets : Nat) (payload : List Nat)
    (mem : Nat → Nat → Nat) (i : Nat) (s : sendState) :
    (send_packet twi_address opcode packets payload mem i s).1.length
      = (TWIP_HEADER_SIZE + t_this_pkt_len s.bytes + 3) / 4 * 4 := by
  unfold send_packet
  simp only [send_fill_length, send_copy_length, List.length_set]
  split <;> simp only [List.length_set, List.length_map, List.length_range] <;>
    exact send_aligned _ (send_len_le _)

/-- The header bytes 0..3 and 6 of the frame built by one iteration. -/
theorem send_packet_header (twi_address opcode packets : Nat) (payload : List Nat)
    (mem : Nat → Nat → Nat) (i : Nat) (s : sendState) :
    at8 (send_packet twi_address opcode packets payload mem i s).1 0 = twi_address
    ∧ at8 (send_packet twi_address opcode packets payload mem i s).1 1 = send_flag packets i
    ∧ at8 (send_packet twi_address opcode packets payload mem i s).1 2 = opcode
    ∧ at8 (send_packet twi_address opcode packets payload mem i s).1 3 = s.pkt_id
    ∧ at8 (send_packet twi_address opcode packets payload mem i s).1 6
        = t_this_pkt_len s.bytes := by
  have hl := send_len_le s.bytes
  have ha := send_aligned _ hl
  have h7 : TWIP_HEADER_SIZE = 7 := rfl
  have hlen : 8 ≤ t_this_pkt_aligned (t_this_pkt_len s.bytes) := by
    rw [ha, h7]; omega
  unfold send_packet send_flag
  simp only []
  rw [send_fill_below _ _ _ _ (show 0 < TWIP_HEADER_SIZE + _ by rw [h7]; omega),
    send_fill_below _ _ _ _ (show 1 < TWIP_HEADER_SIZE + _ by rw [h7]; omega),
    send_fill_below _ _ _ _ (show 2 < TWIP_HEADER_SIZE + _ by rw [h7]; omega),
    send_fill_below _ _ _ _ (show 3 < TWIP_HEADER_SIZE + _ by rw [h7]; omega),
    send_fill_below _ _ _ _ (show 6 < TWIP_HEADER_SIZE + _ by rw [h7]; omega),
    send_copy_below _ _ _ _ _ _ (show 0 < TWIP_HEADER_SIZE by decide),
    send_copy_below _ _ _ _ _ _ (show 1 < TWIP_HEADER_SIZE by decide),
    send_copy_below _ _ _ _ _ _ (show 2 < TWIP_HEADER_SIZE by decide),
    send_copy_below _ _ _ _ _ _ (show 3 < TWIP_HEADER_SIZE by decide),
    send_copy_below _ _ _ _ _ _ (show 6 < TWIP_HEADER_SIZE by decide)]
  generalize t_this_pkt_aligned (t_this_pkt_len s.bytes) = al at hlen ⊢
  by_cases hc : packets > 1 ∧ i = packets - 1
  · simp only [if_pos hc, at8_set, List.length_set, List.length_map, List.length_range]
    simp
    omega
  · simp only [if_neg hc, at8_set, List.length_set, List.length_map, List.length_range]
    simp
    omega

/-- The `for` loop of `send`, one more iteration at the end. -/
theorem send_loop_succ (info2 : Bool) (twi_address opcode packets : Nat) (payload : List Nat)
    (mem : Nat → Nat → Nat) (bus : Nat → Nat) (n i : Nat) (s : sendState) :
    send_loop info2 twi_address opcode packets payload mem bus (n + 1) i s
      = send_body info2 twi_address opcode packets payload mem bus (i + n)
          (send_loop info2 twi_address opcode packets payload mem bus n i s) := by
  induction n generalizing i s with
  | zero => rfl
  | succ n ih =>
    rw [send_loop, ih (i + 1) _]
    have e : i + 1 + n = i + (n + 1) := by omega
    rw [e]
    rfl

/-- The frames handed to the bus by `n` iterations: frame `m` is built by
`send_packet` from the state after `m` iterations. -/
theorem send_loop_frames (info2 : Bool) (twi_address opcode packets : Nat) (payload : List Nat)
    (mem : Nat → Nat → Nat) (bus : Nat → Nat) (n i : Nat) (s : sendState) :
    (send_loop info2 twi_address opcode packets payload mem bus n i s).frames
      = s.frames ++ (List.range n).map (fun m =>
          (send_packet twi_address opcode packets payload mem (i + m)
            (send_loop info2 twi_address opcode packets payload mem bus m i s)).1) := by
  induction n with
  | zero => simp [send_loop]
  | succ n ih =>
    rw [send_loop_succ, List.range_succ, List.map_append, ← List.append_assoc, ← ih]
    rfl

theorem send_loop_pkt_id (info2 : Bool) (twi_address opcode packets : Nat) (payload : List Nat)
    (mem : Nat → Nat → Nat) (bus : Nat → Nat) (n i : Nat) (s : sendState) (h : ¬ packets < 2) :
    (send_loop info2 twi_address opcode packets payload mem bus n i s).pkt_id = s.pkt_id := by
  induction n with
  | zero => rfl
  | succ n ih =>
    rw [send_loop_succ]
    unfold send_body
    simp only [if_neg h]
    exact ih

/-- The value `send` returns after at least one iteration is the (debug-build
adjusted) status of the last transmission. -/
theorem send_loop_ret (info2 : Bool) (twi_address opcode packets : Nat) (payload : List Nat)
    (mem : Nat → Nat → Nat) (bus : Nat → Nat) (n i : Nat) (s : sendState) :
    (send_loop info2 twi_address opcode packets payload mem bus (n + 1) i s).ret
      = if info2 = true ∧ bus (i + n) % 256 = 0 then 1 else bus (i + n) % 256 := by
  rw [send_loop_succ]
  rfl

theorem send_packets_pos (bytes : Nat) : 1 ≤ send_packets bytes := by
  unfold send_packets TWI_BUFFER_LENGTH TWIP_HEADER_SIZE
  simp only []
  split_ifs <;> omega

theorem send_packets_eq (bytes : Nat) (h : bytes ≤ 255) :
    send_packets bytes = if bytes = 0 then 1 else (bytes + 24) / 25 := by
  unfold send_packets TWI_BUFFER_LENGTH TWIP_HEADER_SIZE
  simp only []
  split <;> split <;> split <;> omega

theorem send_frames_eq (info2 : Bool) (self : twiprotocol) (opcode bytes : Nat)
    (payload : List Nat) (mem : Nat → Nat → Nat) (bus : Nat → Nat) :
    (send info2 self opcode bytes payload mem bus).frames
      = (List.range (send_packets bytes)).map (fun m =>
          (send_packet self.twi_address opcode (send_packets bytes) payload mem m
            (send_loop info2 self.twi_address opcode (send_packets bytes) payload mem bus m 0
              { bytes := bytes, t_payload_cur := 0, pkt_id := self.pkt_id, ret := 0,
                frames := [] })).1) := by
  unfold send
  simp only [send_loop_frames, List.nil_append, Nat.zero_add]

theorem send_frames_length (info2 : Bool) (self : twiprotocol) (opcode bytes : Nat)
    (payload : List Nat) (mem : Nat → Nat → Nat) (bus : Nat → Nat) :
    (send info2 self opcode bytes payload mem bus).frames.length = send_packets bytes := by
  rw [send_frames_eq, List.length_map, List.length_range]

/-- Frame `m` of a `send` call. -/
theorem send_frames_getD (info2 : Bool) (self : twiprotocol) (opcode bytes : Nat)
    (payload : List Nat) (mem : Nat → Nat → Nat) (bus : Nat → Nat) (m : Nat)
    (hm : m < send_packets bytes) :
    (send info2 self opcode bytes payload mem bus).frames.getD m []
      = (send_packet self.twi_address opcode (send_packets bytes) payload mem m
            (send_loop info2 self.twi_address opcode (send_packets bytes) payload mem bus m 0
              { bytes := bytes, t_payload_cur := 0, pkt_id := self.pkt_id, ret := 0,
                frames := [] })).1 := by
  rw [send_frames_eq, List.getD_eq_getElem?_getD, List.getElem?_map,
    List.getElem?_range hm]
  rfl

/-! ## The circular buffer as a FIFO -/

theorem mod_lt_two (x n : Nat) (h : x < 2 * n) : x % n = if x < n then x else x - n := by
  split
  · rename_i h1; exact Nat.mod_eq_of_lt h1
  · rename_i h1
    rw [Nat.mod_eq_sub_mod (by omega)]
    exact Nat.mod_eq_of_lt (by omega)

theorem at8_cons_zero (x : Nat) (q : List Nat) : at8 (x :: q) 0 = x := rfl

theorem at8_cons_succ (x : Nat) (q : List Nat) (k : Nat) : at8 (x :: q) (k + 1) = at8 q k := rfl

theorem at8_append_left (q r : List Nat) (k : Nat) (h : k < q.length) :
    at8 (q ++ r) k = at8 q k := by
  unfold at8
  exact List.getD_append q r 0 k h

theorem at8_append_right (q r : List Nat) (k : Nat) (h : q.length ≤ k) :
    at8 (q ++ r) k = at8 r (k - q.length) := by
  unfold at8
  exact List.getD_append_right q r 0 k h

/-- Two blocks of the same size with the same bytes are equal. -/
theorem ext_at8 (l r : List Nat) (hl : l.length = r.length)
    (h : ∀ k, k < l.length → at8 l k = at8 r k) : l = r := by
  apply List.ext_getElem hl
  intro n h1 h2
  have := h n h1
  unfold at8 at this
  rw [List.getD_eq_getElem _ _ h1, List.getD_eq_getElem _ _ h2] at this
  exact this

theorem cb.holds_init (c : Nat) : (cb.init c).Holds [] := by
  unfold cb.Holds cb.init
  simp

theorem cb.holds_empty (b : cb) (q : List Nat) (h : b.Holds q) :
    b.empty = true ↔ q = [] := by
  obtain ⟨_, hs, hq, he, _⟩ := h
  unfold cb.empty
  rw [he, mod_lt_two _ _ (by omega)]
  constructor
  · intro h1
    apply List.length_eq_zero.mp
    split_ifs at h1 <;> omega
  · intro h1
    subst h1
    simp [hs]

theorem cb.holds_read (b : cb) (x : Nat) (q : List Nat) (h : b.Holds (x :: q)) :
    b.read.1 = x ∧ b.read.2.Holds q ∧ b.read.2.cb_size = b.cb_size := by
  obtain ⟨hl, hs, hq, he, hc⟩ := h
  simp only [List.length_cons] at hq he hc
  refine ⟨?_, ⟨hl, ?_, (show q.length < b.cb_size by omega), ?_, ?_⟩, rfl⟩
  · have := hc 0 (by omega)
    rw [Nat.add_zero, Nat.mod_eq_of_lt hs] at this
    exact this
  · exact Nat.mod_lt _ (by omega)
  · show b.cb_end = ((b.cb_start + 1) % b.cb_size + q.length) % b.cb_size
    rw [he, Nat.mod_add_mod]
    congr 1
    omega
  · intro k hk
    show at8 b.cb_buffer (((b.cb_start + 1) % b.cb_size + k) % b.cb_size) = at8 q k
    rw [Nat.mod_add_mod, Nat.add_assoc, Nat.add_comm 1 k, hc (k + 1) (by omega)]
    rfl

theorem cb.holds_write (b : cb) (q : List Nat) (x : Nat) (h : b.Holds q)
    (hfree : q.length + 1 < b.cb_size) :
    (b.write x).1 = true ∧ (b.write x).2.Holds (q ++ [x])
      ∧ (b.write x).2.cb_start = b.cb_start ∧ (b.write x).2.cb_size = b.cb_size := by
  obtain ⟨hl, hs, hq, he, hc⟩ := h
  have hne : ¬ (b.cb_end + 1) % b.cb_size = b.cb_start := by
    rw [he, Nat.mod_add_mod, mod_lt_two _ _ (by omega)]
    split_ifs <;> omega
  unfold cb.write
  rw [if_neg hne]
  refine ⟨rfl, ⟨?_, hs, ?_, ?_, ?_⟩, rfl, rfl⟩
  · show (b.cb_buffer.set b.cb_end x).length = b.cb_size
    rw [List.length_set, hl]
  · rw [List.length_append]; simpa using hfree
  · show (b.cb_end + 1) % b.cb_size = (b.cb_start + (q ++ [x]).length) % b.cb_size
    rw [he, Nat.mod_add_mod, List.length_append]
    rfl
  · intro k hk
    show at8 (b.cb_buffer.set b.cb_end x) ((b.cb_start + k) % b.cb_size) = at8 (q ++ [x]) k
    rw [List.length_append] at hk
    simp only [List.length_singleton] at hk
    rw [at8_set]
    by_cases hkq : k < q.length
    · rw [if_neg, hc k hkq, at8_append_left _ _ _ hkq]
      rw [he, mod_lt_two _ _ (show b.cb_start + q.length < 2 * b.cb_size by omega),
        mod_lt_two _ _ (show b.cb_start + k < 2 * b.cb_size by omega)]
      split_ifs <;> omega
    · have hk' : k = q.length := by omega
      subst hk'
      rw [if_pos, at8_append_right _ _ _ (Nat.le_refl _), Nat.sub_self]
      · rfl
      · refine ⟨he, ?_⟩
        rw [hl, he]
        exact Nat.mod_lt _ (by omega)

theorem cb.holds_peek (b : cb) (q : List Nat) (k : Nat) (h : b.Holds q) (hk : k < q.length) :
    b.peek k = at8 q k := h.2.2.2.2 k hk

/-- While the stored bytes do not reach past the end of storage, `available`
is the number of free bytes. -/
theorem cb.holds_available (b : cb) (q : List Nat) (h : b.Holds q) (hsz : b.cb_size ≤ 256)
    (hlin : b.cb_start + q.length < b.cb_size) :
    b.available = b.cb_size - 1 - q.length := by
  obtain ⟨_, hs, hq, he, _⟩ := h
  unfold cb.available uint8
  rw [he, Nat.mod_eq_of_lt hlin]
  omega

/-! ## Lemmas on `rx_add` -/

theorem rx_add_copy_holds (data : List Nat) (n i : Nat) (b : cb) (q : List Nat)
    (h : b.Holds q) (hfree : q.length + n < b.cb_size) :
    (rx_add_copy data n i b).Holds (q ++ (List.range n).map (fun k => at8 data (i + k)))
    ∧ (rx_add_copy data n i b).cb_start = b.cb_start
    ∧ (rx_add_copy data n i b).cb_size = b.cb_size := by
  induction n generalizing i b q with
  | zero => simpa [rx_add_copy] using h
  | succ n ih =>
    obtain ⟨_, hw, hst, hsz⟩ := cb.holds_write b q (at8 data i) h (by omega)
    have := ih (i + 1) (b.write (at8 data i)).2 (q ++ [at8 data i]) hw
      (by rw [hsz, List.length_append]; simp; omega)
    rw [rx_add_copy]
    refine ⟨?_, by rw [this.2.1, hst], by rw [this.2.2, hsz]⟩
    have e : q ++ (List.range (n + 1)).map (fun k => at8 data (i + k))
        = (q ++ [at8 data i]) ++ (List.range n).map (fun k => at8 data (i + 1 + k)) := by
      rw [List.range_succ_eq_map, List.map_cons, List.map_map, List.append_assoc]
      congr 2
      apply List.map_congr_left
      intro k _
      show at8 data (i + (k + 1)) = at8 data (i + 1 + k)
      congr 1
      omega
    rw [e]
    exact this.1

/-- `rx_add` without its length test, which never fires. -/
theorem rx_add_eq (self : twiprotocol) (data : List Nat) (bytes : Int) :
    rx_add self data bytes
      = if TWIP_HEADER_SIZE + at8 data 6 + 1 > self.rx_buffer.available
          ∨ uint16 (int16 (int16 ((at8 data 4 <<< 8 : Nat) : Int) + (at8 data 5 : Int)))
              ≠ checksum (at8 data 0) (at8 data 1) (at8 data 2) (at8 data 3) (at8 data 6)
        then (false, self)
        else (true, { self with rx_buffer :=
            (rx_add_copy data (TWIP_HEADER_SIZE + at8 data 6) 0
              (self.rx_buffer.write ((TWIP_HEADER_SIZE + at8 data 6) % 256)).2) }) := by
  unfold rx_add
  rw [rx_add_length_test]
  simp only [ne_eq, not_true_eq_false, false_or]

/-- An accepted fragment, on a buffer of 255 slots whose content does not reach
past the end of storage: the record is appended, and it fitted. -/
theorem rx_add_holds (self : twiprotocol) (data : List Nat) (bytes : Int) (q : List Nat)
    (h : self.rx_buffer.Holds q) (hsz : self.rx_buffer.cb_size = 255)
    (hlin : self.rx_buffer.cb_start + q.length < 255)
    (hacc : (rx_add self data bytes).1 = true) :
    (rx_add self data bytes).2.rx_buffer.Holds (q ++ stored_record data)
    ∧ (rx_add self data bytes).2.rx_buffer.cb_start = self.rx_buffer.cb_start
    ∧ (rx_add self data bytes).2.rx_buffer.cb_size = 255
    ∧ q.length + 8 + at8 data 6 ≤ 254
    ∧ (rx_add self data bytes).2.pkt_id = self.pkt_id
    ∧ (rx_add self data bytes).2.twi_address = self.twi_address := by
  have hav := cb.holds_available _ _ h (by omega) (by omega)
  rw [hsz] at hav
  rw [rx_add_eq] at hacc ⊢
  by_cases hc : TWIP_HEADER_SIZE + at8 data 6 + 1 > self.rx_buffer.available
          ∨ uint16 (int16 (int16 ((at8 data 4 <<< 8 : Nat) : Int) + (at8 data 5 : Int)))
              ≠ checksum (at8 data 0) (at8 data 1) (at8 data 2) (at8 data 3) (at8 data 6)
  · rw [if_pos hc] at hacc
    exact absurd hacc (by simp)
  · rw [if_neg hc]
    rw [not_or] at hc
    have h7 : TWIP_HEADER_SIZE = 7 := rfl
    have hfit : 7 + at8 data 6 + 1 ≤ 254 - q.length := by
      have := hc.1
      rw [h7] at this
      omega
    obtain ⟨_, hw, hst, hsz'⟩ := cb.holds_write _ q ((TWIP_HEADER_SIZE + at8 data 6) % 256) h
      (by omega)
    have hcp := rx_add_copy_holds data (TWIP_HEADER_SIZE + at8 data 6) 0 _ _ hw
      (by rw [hsz', hsz, List.length_append, h7]; simp; omega)
    refine ⟨?_, ?_, ?_, by omega, rfl, rfl⟩
    · have e : q ++ stored_record data
          = (q ++ [(TWIP_HEADER_SIZE + at8 data 6) % 256])
            ++ (List.range (TWIP_HEADER_SIZE + at8 data 6)).map (fun k => at8 data (0 + k)) := by
        unfold stored_record
        simp
      rw [e]
      exact hcp.1
    · show (rx_add_copy _ _ _ _).cb_start = _
      rw [hcp.2.1, hst]
    · show (rx_add_copy _ _ _ _).cb_size = _
      rw [hcp.2.2, hsz', hsz]

/-- A sequence of fragments, all accepted by a fresh engine: the buffer holds
their records in arrival order. -/
theorem rx_add_all_holds (fs : List (List Nat)) (self : twiprotocol) (q : List Nat)
    (h : self.rx_buffer.Holds q) (hsz : self.rx_buffer.cb_size = 255)
    (hst : self.rx_buffer.cb_start = 0)
    (hacc : ∀ r, r ∈ (rx_add_all self fs).2 → r = true) :
    (rx_add_all self fs).1.rx_buffer.Holds (q ++ fs.flatMap stored_record)
    ∧ (rx_add_all self fs).1.rx_buffer.cb_size = 255
    ∧ (rx_add_all self fs).1.rx_buffer.cb_start = 0
    ∧ (rx_add_all self fs).1.pkt_id = self.pkt_id
    ∧ (rx_add_all self fs).1.twi_address = self.twi_address := by
  induction fs generalizing self q with
  | nil => simpa [rx_add_all] using ⟨h, hsz, hst⟩
  | cons f fs ih =>
    have hq := h.2.2.1
    rw [hsz] at hq
    rw [rx_add_all] at hacc ⊢
    simp only [List.mem_cons, forall_eq_or_imp] at hacc
    obtain ⟨h1, h2, h3, _, h5, h6⟩ := rx_add_holds self f _ q h hsz (by omega) hacc.1
    have := ih (rx_add self f (f.length : Int)).2 (q ++ stored_record f) h1 h3
      (by rw [h2, hst]) hacc.2
    simp only [List.flatMap_cons, ← List.append_assoc]
    refine ⟨this.1, this.2.1, this.2.2.1, ?_, ?_⟩
    · rw [this.2.2.2.1, h5]
    · rw [this.2.2.2.2, h6]

/-! ## Lemmas on `receive` -/

theorem realloc_length (block : List Nat) (n : Nat) : (realloc block n).length = n := by
  unfold realloc
  simp
  omega

theorem realloc_take (block : List Nat) (n t : Nat) (ht : t ≤ n) (hb : t ≤ block.length) :
    (realloc block n).take t = block.take t := by
  unfold realloc
  rw [List.take_append_of_le_length (by simp; omega), List.take_take]
  congr 1
  omega

theorem rx_skip_holds (n : Nat) (b : cb) (l q : List Nat) (h : b.Holds (l ++ q))
    (hl : l.length = n) :
    (rx_skip n b).Holds q ∧ (rx_skip n b).cb_size = b.cb_size := by
  induction n generalizing b l with
  | zero =>
    have : l = [] := List.length_eq_zero.mp hl
    subst this
    exact ⟨h, rfl⟩
  | succ n ih =>
    cases l with
    | nil => simp at hl
    | cons x l =>
      obtain ⟨_, hr, hs⟩ := cb.holds_read b x (l ++ q) h
      have := ih b.read.2 l hr (by simpa using hl)
      rw [rx_skip]
      exact ⟨this.1, by rw [this.2, hs]⟩

theorem set_take_drop (payload l : List Nat) (j n x : Nat) (hj : j < payload.length) :
    (payload.set j x).take (j + 1) ++ l ++ (payload.set j x).drop (j + 1 + n)
      = payload.take j ++ (x :: l) ++ payload.drop (j + (n + 1)) := by
  rw [List.drop_set_of_lt x payload (by omega : j < j + 1 + n), List.take_succ,
    List.getElem?_set_self hj]
  have : (payload.set j x).take j = payload.take j := by
    rw [List.set_eq_take_cons_drop x hj, List.take_left' (by simp; omega)]
  rw [this, show j + 1 + n = j + (n + 1) by omega]
  simp

/-- The payload copy loop of `receive` moves the next `n` stored bytes into the
block, at offset `t_total_bytes - t_size + i`. -/
theorem rx_copy_holds (T S : Nat) (hST : S ≤ T) (n i : Nat) (payload : List Nat) (b : cb)
    (l q : List Nat) (h : b.Holds (l ++ q)) (hl : l.length = n)
    (hfit : T - S + i + n ≤ payload.length) :
    (rx_copy T S n i payload b).1
        = payload.take (T - S + i) ++ l ++ payload.drop (T - S + i + n)
    ∧ (rx_copy T S n i payload b).2.Holds q
    ∧ (rx_copy T S n i payload b).2.cb_size = b.cb_size := by
  induction n generalizing i payload b l with
  | zero =>
    have : l = [] := List.length_eq_zero.mp hl
    subst this
    refine ⟨?_, h, rfl⟩
    simp [rx_copy]
  | succ n ih =>
    cases l with
    | nil => simp at hl
    | cons x l =>
      obtain ⟨hx, hr, hs⟩ := cb.holds_read b x (l ++ q) h
      have hidx : ((T : Int) - (S : Int)) + (i : Int) = ((T - S + i : Nat) : Int) := by omega
      have := ih (i + 1) (payload.set (T - S + i) x) b.read.2 l hr (by simpa using hl)
        (by rw [List.length_set]; omega)
      rw [rx_copy]
      simp only [hidx, Int.ofNat_nonneg, if_true, Int.toNat_ofNat, hx]
      refine ⟨?_, this.2.1, by rw [this.2.2, hs]⟩
      rw [this.1, show T - S + (i + 1) = (T - S + i) + 1 by omega,
        set_take_drop _ _ _ _ _ (by omega)]

/-- One iteration of the loop of `receive` on a buffer whose oldest record has
payload `pl`: the record is consumed, its payload is appended to the
aggregate, the header fields are taken from it in the first iteration only,
and the fragmentation bits of its flag decide completeness. -/
theorem receive_body_holds (s : rxState) (s0 f o i c1 c2 sz : Nat) (pl q : List Nat)
    (h : s.rx_buffer.Holds
      ((TWIP_HEADER_SIZE + pl.length) :: s0 :: f :: o :: i :: c1 :: c2 :: sz :: (pl ++ q)))
    (hpl : s.t_total_bytes + pl.length < 256)
    (hacc : s.t_total_bytes ≤ s.ret.payload.length) :
    (receive_body s).rx_buffer.Holds q
    ∧ (receive_body s).rx_buffer.cb_size = s.rx_buffer.cb_size
    ∧ (receive_body s).t_count = (s.t_count + 1) % 256
    ∧ (receive_body s).t_total_bytes = s.t_total_bytes + pl.length
    ∧ (receive_body s).ret.payload = s.ret.payload.take s.t_total_bytes ++ pl
    ∧ (receive_body s).ret.sender = (if (s.t_count + 1) % 256 = 1 then s0 else s.ret.sender)
    ∧ (receive_body s).ret.opcode = (if (s.t_count + 1) % 256 = 1 then o else s.ret.opcode)
    ∧ (receive_body s).ret.id = (if (s.t_count + 1) % 256 = 1 then i else s.ret.id)
    ∧ (receive_body s).ret.flag
        = (if flag_decode TWIP_FLAG_NFO f = TWIP_EOF then TWIP_EOF
           else if (s.t_count + 1) % 256 = 1 then f else s.ret.flag)
    ∧ (receive_body s).ret.complete
        = (if flag_decode TWIP_FLAG_NFO f = TWIP_NOF ∨ flag_decode TWIP_FLAG_NFO f = TWIP_EOF
           then true else s.ret.complete) := by
  have hp : s.rx_buffer.peek 2 = f := cb.holds_peek _ _ 2 h (by simp)
  obtain ⟨e0, k0, z0⟩ := cb.holds_read _ _ _ h
  obtain ⟨e1, k1, z1⟩ := cb.holds_read _ _ _ k0
  obtain ⟨e2, k2, z2⟩ := cb.holds_read _ _ _ k1
  obtain ⟨e3, k3, z3⟩ := cb.holds_read _ _ _ k2
  obtain ⟨e4, k4, z4⟩ := cb.holds_read _ _ _ k3
  obtain ⟨e5, k5, z5⟩ := cb.holds_read _ _ _ k4
  obtain ⟨e6, k6, z6⟩ := cb.holds_read _ _ _ k5
  obtain ⟨e7, k7, z7⟩ := cb.holds_read _ _ _ k6
  have hts : uint8 ((s.rx_buffer.read.1 : Int) - (TWIP_HEADER_SIZE : Int)) = pl.length := by
    rw [e0]
    unfold uint8 TWIP_HEADER_SIZE
    push_cast
    omega
  have hT : (s.t_total_bytes + pl.length) % 256 = s.t_total_bytes + pl.length :=
    Nat.mod_eq_of_lt hpl
  have hskip : rx_skip TWIP_HEADER_SIZE s.rx_buffer.read.2
      = s.rx_buffer.read.2.read.2.read.2.read.2.read.2.read.2.read.2.read.2 := rfl
  obtain ⟨hc1, hc2, hc3⟩ := rx_copy_holds (s.t_total_bytes + pl.length) pl.length (by omega)
    pl.length 0 (realloc s.ret.payload (s.t_total_bytes + pl.length)) _ pl q k7 rfl
    (by rw [realloc_length]; omega)
  have hpay : (rx_copy (s.t_total_bytes + pl.length) pl.length pl.length 0
      (realloc s.ret.payload (s.t_total_bytes + pl.length))
      s.rx_buffer.read.2.read.2.read.2.read.2.read.2.read.2.read.2.read.2).1
      = s.ret.payload.take s.t_total_bytes ++ pl := by
    rw [hc1, show s.t_total_bytes + pl.length - pl.length + 0 = s.t_total_bytes by omega,
      realloc_take _ _ _ (by omega) hacc,
      List.drop_eq_nil_of_le (by rw [realloc_length]), List.append_nil]
  have hsz : (rx_copy (s.t_total_bytes + pl.length) pl.length pl.length 0
      (realloc s.ret.payload (s.t_total_bytes + pl.length))
      s.rx_buffer.read.2.read.2.read.2.read.2.read.2.read.2.read.2.read.2).2.cb_size
      = s.rx_buffer.cb_size := by
    rw [hc3, z7, z6, z5, z4, z3, z2, z1, z0]
  have hNE : (TWIP_EOF = TWIP_NOF) = False := eq_false (by decide)
  have hNE2 : (TWIP_NOF = TWIP_EOF) = False := eq_false (by decide)
  have hflag : (flag_decode TWIP_FLAG_NFO f = TWIP_NOF
        ∧ (flag_decode TWIP_FLAG_NFO f = TWIP_EOF) = False)
      ∨ (flag_decode TWIP_FLAG_NFO f = TWIP_EOF
        ∧ (flag_decode TWIP_FLAG_NFO f = TWIP_NOF) = False)
      ∨ ((flag_decode TWIP_FLAG_NFO f = TWIP_NOF) = False
        ∧ (flag_decode TWIP_FLAG_NFO f = TWIP_EOF) = False) := by
    by_cases hN : flag_decode TWIP_FLAG_NFO f = TWIP_NOF
    · left; exact ⟨hN, by rw [hN, hNE2]⟩
    · by_cases hE : flag_decode TWIP_FLAG_NFO f = TWIP_EOF
      · right; left; exact ⟨hE, by rw [hE, hNE]⟩
      · right; right; exact ⟨eq_false hN, eq_false hE⟩
  have hcnt : (s.t_count + 1) % 256 = 1 ∨ ((s.t_count + 1) % 256 = 1) = False := by
    by_cases hc : (s.t_count + 1) % 256 = 1
    · left; exact hc
    · right; exact eq_false hc
  unfold receive_body
  rcases hcnt with hcnt | hcnt <;> rcases hflag with ⟨hN, hE⟩ | ⟨hN, hE⟩ | ⟨hN, hE⟩ <;>
    simp only [hp, hts, hT, hcnt, hskip, hN, hE, hNE, hNE2, hc2, hsz, hpay, e1, e2, e3, e4,
      if_true, if_false, or_true, true_or, or_self, true_and, and_true, and_self]

theorem stored_record_length (data : List Nat) :
    (stored_record data).length = 8 + at8 data 6 := by
  unfold stored_record TWIP_HEADER_SIZE
  simp
  omega

/-- The record of a fragment, split into accounting byte, header and payload. -/
theorem stored_record_eq (data : List Nat) (h : at8 data 6 ≤ 248) :
    stored_record data
      = (TWIP_HEADER_SIZE + (fragment_payload data).length) :: at8 data 0 :: at8 data 1
          :: at8 data 2 :: at8 data 3 :: at8 data 4 :: at8 data 5 :: at8 data 6
          :: fragment_payload data := by
  unfold stored_record fragment_payload
  have h7 : TWIP_HEADER_SIZE = 7 := rfl
  rw [h7, Nat.mod_eq_of_lt (by omega), List.range_add]
  simp [List.range_succ]

theorem at8_map_range (f : Nat → Nat) (n k : Nat) (hk : k < n) :
    at8 ((List.range n).map f) k = f k := by
  unfold at8
  simp [List.getElem?_range hk]

theorem at8_drop_take (data : List Nat) (a n k : Nat) (hk : k < n) :
    at8 ((data.drop a).take n) k = at8 data (a + k) := by
  unfold at8
  simp [List.getElem?_take, hk]

/-- When the array holds header and payload, the payload is the slice after
the header. -/
theorem fragment_payload_eq (data : List Nat) (h : TWIP_HEADER_SIZE + at8 data 6 ≤ data.length) :
    fragment_payload data = (data.drop TWIP_HEADER_SIZE).take (at8 data 6) := by
  apply ext_at8
  · unfold fragment_payload
    simp
    omega
  · intro k hk
    unfold fragment_payload at hk ⊢
    simp only [List.length_map, List.length_range] at hk
    rw [at8_map_range _ _ _ hk, at8_drop_take _ _ _ _ hk]

theorem receive_loop_holds (mids : List (List Nat)) (last : List Nat) (s : rxState) (fuel : Nat)
    (hfuel : mids.length + 1 ≤ fuel)
    (h : s.rx_buffer.Holds ((mids ++ [last]).flatMap stored_record))
    (hT : s.t_total_bytes + ((mids ++ [last]).flatMap stored_record).length < 256)
    (hC : s.t_count + ((mids ++ [last]).flatMap stored_record).length < 256)
    (hacc : s.t_total_bytes ≤ s.ret.payload.length)
    (hcomp : s.ret.complete = false)
    (hmid : ∀ f, f ∈ mids → flag_decode TWIP_FLAG_NFO (at8 f 1) = TWIP_SOF)
    (hlast : flag_decode TWIP_FLAG_NFO (at8 last 1) = TWIP_NOF
      ∨ flag_decode TWIP_FLAG_NFO (at8 last 1) = TWIP_EOF) :
    ∃ s', receive_loop fuel s = some s'
      ∧ s'.rx_buffer.Holds []
      ∧ s'.rx_buffer.cb_size = s.rx_buffer.cb_size
      ∧ s'.ret.complete = true
      ∧ s'.t_total_bytes = s.t_total_bytes + ((mids ++ [last]).map (fun f => at8 f 6)).sum
      ∧ s'.ret.payload
          = s.ret.payload.take s.t_total_bytes ++ (mids ++ [last]).flatMap fragment_payload
      ∧ s'.ret.sender = (if s.t_count = 0 then at8 ((mids ++ [last]).headD []) 0 else s.ret.sender)
      ∧ s'.ret.opcode = (if s.t_count = 0 then at8 ((mids ++ [last]).headD []) 2 else s.ret.opcode)
      ∧ s'.ret.id = (if s.t_count = 0 then at8 ((mids ++ [last]).headD []) 3 else s.ret.id)
      ∧ s'.ret.flag
          = (if flag_decode TWIP_FLAG_NFO (at8 last 1) = TWIP_EOF then TWIP_EOF
             else if s.t_count = 0 then at8 ((mids ++ [last]).headD []) 1 else s.ret.flag) := by
  induction mids generalizing s fuel with
  | nil =>
    obtain ⟨fuel, rfl⟩ : ∃ n, fuel = n + 1 := ⟨fuel - 1, by simp at hfuel; omega⟩
    simp only [List.nil_append, List.flatMap_cons, List.flatMap_nil, List.append_nil,
      stored_record_length] at h hT hC ⊢
    have hl : at8 last 6 ≤ 248 := by omega
    have hpl : (fragment_payload last).length = at8 last 6 := by
      unfold fragment_payload; simp
    rw [stored_record_eq last hl] at h
    have h' : s.rx_buffer.Holds ((TWIP_HEADER_SIZE + (fragment_payload last).length)
        :: at8 last 0 :: at8 last 1 :: at8 last 2 :: at8 last 3 :: at8 last 4 :: at8 last 5
        :: at8 last 6 :: (fragment_payload last ++ [])) := by
      rw [List.append_nil]; exact h
    obtain ⟨b1, b2, b3, b4, b5, b6, b7, b8, b9, b10⟩ :=
      receive_body_holds s _ _ _ _ _ _ _ _ [] h' (by rw [hpl]; omega) hacc
    have hcz : (s.t_count + 1) % 256 = 1 ↔ s.t_count = 0 := by omega
    simp only [hcz] at b6 b7 b8 b9
    refine ⟨receive_body s, ?_, b1, b2, ?_, ?_, ?_, b6, b7, b8, ?_⟩
    · rw [receive_loop]
      rw [if_pos ((cb.holds_empty _ _ b1).mpr rfl)]
    · rw [b10, if_pos hlast]
    · rw [b4, hpl]; simp
    · exact b5
    · rw [b9]; rfl
  | cons m ms ih =>
    obtain ⟨fuel, rfl⟩ : ∃ n, fuel = n + 1 := ⟨fuel - 1, by simp at hfuel; omega⟩
    simp only [List.cons_append, List.flatMap_cons, List.length_append,
      stored_record_length] at h hT hC
    have hl : at8 m 6 ≤ 248 := by omega
    have hpl : (fragment_payload m).length = at8 m 6 := by
      unfold fragment_payload; simp
    have hm := hmid m (List.mem_cons_self _ _)
    rw [stored_record_eq m hl] at h
    simp only [List.cons_append] at h
    obtain ⟨b1, b2, b3, b4, b5, b6, b7, b8, b9, b10⟩ :=
      receive_body_holds s _ _ _ _ _ _ _ _ _ h (by rw [hpl]; omega) hacc
    have hcz : (s.t_count + 1) % 256 = 1 ↔ s.t_count = 0 := by omega
    simp only [hcz] at b6 b7 b8 b9
    have hSN : ¬ (TWIP_SOF = TWIP_NOF ∨ TWIP_SOF = TWIP_EOF) := by decide
    have hSE : ¬ TWIP_SOF = TWIP_EOF := by decide
    rw [hm, if_neg hSN, hcomp] at b10
    rw [hm, if_neg hSE] at b9
    have hne : (ms ++ [last]).flatMap stored_record ≠ [] := by
      intro he
      have := congrArg List.length he
      simp [stored_record_length] at this
    have hemp : (receive_body s).rx_buffer.empty = false := by
      cases hx : (receive_body s).rx_buffer.empty with
      | false => rfl
      | true => exact absurd ((cb.holds_empty _ _ b1).mp hx) hne
    obtain ⟨s', r1, r2, r3, r4, r5, r6, r7, r8, r9, r10⟩ :=
      ih (receive_body s) fuel (by simp at hfuel; omega) b1
        (by rw [b4, hpl]; omega) (by rw [b3]; omega)
        (by rw [b5, b4, List.length_append, hpl]; simp; omega) b10
        (fun f hf => hmid f (List.mem_cons_of_mem _ hf))
    have hc1 : ¬ (receive_body s).t_count = 0 := by rw [b3]; omega
    simp only [if_neg hc1] at r7 r8 r9 r10
    refine ⟨s', ?_, r2, by rw [r3, b2], r4, ?_, ?_, ?_, ?_, ?_, ?_⟩
    · rw [receive_loop]
      rw [hemp, b10]
      simpa using r1
    · rw [r5, b4, hpl]; simp; omega
    · rw [r6, b5, b4]
      rw [List.take_of_length_le (by rw [List.length_append, List.length_take]; omega)]
      simp only [List.cons_append, List.flatMap_cons, List.append_assoc]
    · rw [r7, b6]; simp
    · rw [r8, b7]; simp
    · rw [r9, b8]; simp
    · rw [r10, b9]; simp

theorem flatMap_payload_eq (fs : List (List Nat))
    (hwf : ∀ f, f ∈ fs → TWIP_HEADER_SIZE + at8 f 6 ≤ f.length) :
    fs.flatMap fragment_payload
      = fs.flatMap (fun f => (f.drop TWIP_HEADER_SIZE).take (at8 f 6)) := by
  induction fs with
  | nil => rfl
  | cons f fs ih =>
    rw [List.flatMap_cons, List.flatMap_cons, ih (fun g hg => hwf g (List.mem_cons_of_mem _ hg)),
      fragment_payload_eq f (hwf f (List.mem_cons_self _ _))]

theorem receive_finish_complete (s : rxState) (h : s.ret.complete = true) :
    receive_finish s
      = ({ s.ret with
            size := s.t_total_bytes
            checksum := checksum s.ret.sender s.ret.flag s.ret.opcode s.ret.id s.t_total_bytes },
          s.rx_buffer) := by
  unfold receive_finish
  exact if_pos h

/-- Reassembly of a stored fragment sequence: when the buffer holds the records
of `mids ++ [last]`, every fragment of `mids` has fragmentation bits
`TWIP_SOF` and `last` has `TWIP_NOF` or `TWIP_EOF`, `receive` with enough fuel
returns the complete message and empties the buffer. -/
theorem receive_holds (self : twiprotocol) (mids : List (List Nat)) (last : List Nat)
    (fuel : Nat) (hfuel : mids.length + 1 ≤ fuel)
    (h : self.rx_buffer.Holds ((mids ++ [last]).flatMap stored_record))
    (hsz : self.rx_buffer.cb_size ≤ 256)
    (hmid : ∀ f, f ∈ mids → flag_decode TWIP_FLAG_NFO (at8 f 1) = TWIP_SOF)
    (hlast : flag_decode TWIP_FLAG_NFO (at8 last 1) = TWIP_NOF
      ∨ flag_decode TWIP_FLAG_NFO (at8 last 1) = TWIP_EOF) :
    ∃ p e, receive fuel self = some (p, e)
      ∧ e.rx_buffer.Holds []
      ∧ e.rx_buffer.cb_size = self.rx_buffer.cb_size
      ∧ e.pkt_id = self.pkt_id ∧ e.twi_address = self.twi_address
      ∧ p.complete = true
      ∧ p.sender = at8 ((mids ++ [last]).headD []) 0
      ∧ p.opcode = at8 ((mids ++ [last]).headD []) 2
      ∧ p.id = at8 ((mids ++ [last]).headD []) 3
      ∧ p.flag = (if flag_decode TWIP_FLAG_NFO (at8 last 1) = TWIP_EOF then TWIP_EOF
          else at8 ((mids ++ [last]).headD []) 1)
      ∧ p.size = ((mids ++ [last]).map (fun f => at8 f 6)).sum
      ∧ p.checksum = checksum p.sender p.flag p.opcode p.id p.size
      ∧ p.payload = (mids ++ [last]).flatMap fragment_payload := by
  have hq := h.2.2.1
  have hne : (mids ++ [last]).flatMap stored_record ≠ [] := by
    intro he
    have := congrArg List.length he
    simp [stored_record_length] at this
  have hemp : ¬ self.rx_buffer.empty = true := fun hx => hne ((cb.holds_empty _ _ h).mp hx)
  obtain ⟨s', r1, r2, r3, r4, r5, r6, r7, r8, r9, r10⟩ :=
    receive_loop_holds mids last
      { ret := { twippacket.blank with payload := [0] }, t_count := 0, t_total_bytes := 0,
        rx_buffer := self.rx_buffer } fuel hfuel h
      (by show 0 + _ < 256; omega) (by show 0 + _ < 256; omega) (Nat.zero_le _) rfl hmid hlast
  simp only [if_true, Nat.zero_add, List.take_zero, List.nil_append] at r5 r6 r7 r8 r9 r10
  refine ⟨(receive_finish s').1, { self with rx_buffer := (receive_finish s').2 }, ?_, ?_⟩
  · unfold receive
    rw [if_neg hemp, r1]
  · rw [receive_finish_complete s' r4]
    refine ⟨r2, r3, rfl, rfl, r4, r7, r8, r9, r10, r5, ?_, r6⟩
    dsimp only

/-! ## Content of the frames built by `send` -/

theorem send_copy_cur (payload : List Nat) (n j : Nat) (packet : List Nat) (cur : Nat)
    (hcur : cur < 256) : (send_copy payload n j packet cur).2 = (cur + n) % 256 := by
  induction n generalizing j packet cur with
  | zero => exact (Nat.mod_eq_of_lt hcur).symm
  | succ n ih =>
    rw [send_copy, ih _ _ _ (Nat.mod_lt _ (by decide))]
    omega

/-- The bytes stored by the payload copy loop of `send`: position `j + k`
receives `payload[t_payload_cur + k]`. -/
theorem send_copy_at (payload : List Nat) (n j : Nat) (packet : List Nat) (cur k : Nat)
    (hcur : cur < 256) (hk : k < n) (hlen : j + n ≤ packet.length) :
    at8 (send_copy payload n j packet cur).1 (j + k) = at8 payload ((cur + k) % 256) := by
  induction n generalizing j packet cur k with
  | zero => omega
  | succ n ih =>
    rw [send_copy]
    cases k with
    | zero =>
      rw [send_copy_below _ _ _ _ _ _ (by omega), at8_set, if_pos ⟨rfl, by omega⟩,
        Nat.add_zero, Nat.mod_eq_of_lt hcur]
    | succ k =>
      have := ih (j + 1) (packet.set j (at8 payload cur)) ((cur + 1) % 256) k
        (Nat.mod_lt _ (by decide)) (by omega) (by rw [List.length_set]; omega)
      rw [show j + (k + 1) = j + 1 + k by omega, this]
      congr 1
      omega

/-- The checksum bytes 4 and 5 of the frame built by one iteration. -/
theorem send_packet_checksum (twi_address opcode packets : Nat) (payload : List Nat)
    (mem : Nat → Nat → Nat) (i : Nat) (s : sendState) :
    at8 (send_packet twi_address opcode packets payload mem i s).1 4
        = (checksum twi_address (send_flag packets i) opcode s.pkt_id (t_this_pkt_len s.bytes)
            >>> 8) % 256
    ∧ at8 (send_packet twi_address opcode packets payload mem i s).1 5
        = checksum twi_address (send_flag packets i) opcode s.pkt_id (t_this_pkt_len s.bytes)
            % 256 := by
  have hl := send_len_le s.bytes
  have ha := send_aligned _ hl
  have h7 : TWIP_HEADER_SIZE = 7 := rfl
  have hlen : 8 ≤ t_this_pkt_aligned (t_this_pkt_len s.bytes) := by
    rw [ha, h7]; omega
  unfold send_packet send_flag
  simp only []
  rw [send_fill_below _ _ _ _ (show 4 < TWIP_HEADER_SIZE + _ by rw [h7]; omega),
    send_fill_below _ _ _ _ (show 5 < TWIP_HEADER_SIZE + _ by rw [h7]; omega),
    send_copy_below _ _ _ _ _ _ (show 4 < TWIP_HEADER_SIZE by decide),
    send_copy_below _ _ _ _ _ _ (show 5 < TWIP_HEADER_SIZE by decide)]
  generalize t_this_pkt_aligned (t_this_pkt_len s.bytes) = al at hlen ⊢
  have g0 : 0 < al := by omega
  have g1 : 1 < al := by omega
  have g2 : 2 < al := by omega
  have g3 : 3 < al := by omega
  have g4 : 4 < al := by omega
  have g5 : 5 < al := by omega
  have g6 : 6 < al := by omega
  by_cases hc : packets > 1 ∧ i = packets - 1
  · simp only [if_pos hc, at8_set, List.length_set, List.length_map, List.length_range]
    simp [g0, g1, g2, g3, g4, g5, g6]
  · simp only [if_neg hc, at8_set, List.length_set, List.length_map, List.length_range]
    simp [g0, g1, g2, g3, g4, g5, g6]

/-- Payload byte `k` of the frame built by one iteration, for the positions the
copy loop reaches: `packet[TWIP_HEADER_SIZE + k] = payload[t_payload_cur + k]`
for `k < t_this_pkt_len - TWIP_HEADER_SIZE`. -/
theorem send_packet_payload (twi_address opcode packets : Nat) (payload : List Nat)
    (mem : Nat → Nat → Nat) (i : Nat) (s : sendState) (k : Nat)
    (hcur : s.t_payload_cur < 256) (hk : k < t_this_pkt_len s.bytes - TWIP_HEADER_SIZE) :
    at8 (send_packet twi_address opcode packets payload mem i s).1 (TWIP_HEADER_SIZE + k)
      = at8 payload ((s.t_payload_cur + k) % 256) := by
  have hl := send_len_le s.bytes
  have ha := send_aligned _ hl
  have h7 : TWIP_HEADER_SIZE = 7 := rfl
  unfold send_packet
  simp only []
  rw [send_fill_below _ _ _ _ (by omega)]
  apply send_copy_at _ _ _ _ _ _ hcur hk
  split <;> simp only [List.length_set, List.length_map, List.length_range] <;>
    rw [ha, h7] <;> omega

/-- The bytes 4 and 5 of a frame built by `send` pass the comparison of
`rx_add`. -/
theorem wire_checksum_split (c : Nat) (hc : c < 65536) :
    uint16 (int16 (int16 ((((c >>> 8) % 256) <<< 8 : Nat) : Int) + ((c % 256 : Nat) : Int))) = c := by
  rw [wire_checksum_eq, Nat.shiftRight_eq_div_pow]
  omega

theorem checksum_lt (sender flag opcode id len : Nat) :
    checksum sender flag opcode id len < 65536 := by
  rw [checksum_eq]
  omega

/-- A fragment with a matching checksum that fits is accepted, on a buffer of
255 slots whose content does not reach past the end of storage. -/
theorem rx_add_accepts (self : twiprotocol) (data : List Nat) (bytes : Int) (q : List Nat)
    (h : self.rx_buffer.Holds q) (hsz : self.rx_buffer.cb_size = 255)
    (hlin : self.rx_buffer.cb_start + q.length < 255)
    (hfit : q.length + 8 + at8 data 6 ≤ 254)
    (hsum : uint16 (int16 (int16 ((at8 data 4 <<< 8 : Nat) : Int) + (at8 data 5 : Int)))
      = checksum (at8 data 0) (at8 data 1) (at8 data 2) (at8 data 3) (at8 data 6)) :
    (rx_add self data bytes).1 = true := by
  have hav := cb.holds_available _ _ h (by omega) (by omega)
  rw [hsz] at hav
  rw [rx_add_eq, if_neg]
  rw [not_or]
  refine ⟨?_, fun hne => hne hsum⟩
  rw [hav]
  unfold TWIP_HEADER_SIZE
  omega

/-- A frame built by one iteration of `send` carries its own header checksum. -/
theorem send_packet_wire (twi_address opcode packets : Nat) (payload : List Nat)
    (mem : Nat → Nat → Nat) (i : Nat) (s : sendState) :
    uint16 (int16 (int16
        ((at8 (send_packet twi_address opcode packets payload mem i s).1 4 <<< 8 : Nat) : Int)
        + (at8 (send_packet twi_address opcode packets payload mem i s).1 5 : Int)))
      = checksum (at8 (send_packet twi_address opcode packets payload mem i s).1 0)
          (at8 (send_packet twi_address opcode packets payload mem i s).1 1)
          (at8 (send_packet twi_address opcode packets payload mem i s).1 2)
          (at8 (send_packet twi_address opcode packets payload mem i s).1 3)
          (at8 (send_packet twi_address opcode packets payload mem i s).1 6) := by
  obtain ⟨a0, a1, a2, a3, a6⟩ := send_packet_header twi_address opcode packets payload mem i s
  obtain ⟨a4, a5⟩ := send_packet_checksum twi_address opcode packets payload mem i s
  rw [a0, a1, a2, a3, a6, a4, a5]
  exact wire_checksum_split _ (checksum_lt _ _ _ _ _)

theorem send_packet_cur (twi_address opcode packets : Nat) (payload : List Nat)
    (mem : Nat → Nat → Nat) (i : Nat) (s : sendState) (hcur : s.t_payload_cur < 256) :
    (send_packet twi_address opcode packets payload mem i s).2
      = (s.t_payload_cur + (t_this_pkt_len s.bytes - TWIP_HEADER_SIZE)) % 256 := by
  unfold send_packet
  simp only []
  exact send_copy_cur _ _ _ _ _ hcur

theorem rx_add_all_two (self : twiprotocol) (f0 f1 : List Nat) :
    rx_add_all self [f0, f1]
      = ((rx_add (rx_add self f0 (f0.length : Int)).2 f1 (f1.length : Int)).2,
          [(rx_add self f0 (f0.length : Int)).1,
            (rx_add (rx_add self f0 (f0.length : Int)).2 f1 (f1.length : Int)).1]) := rfl

/-- The flag bytes of the frames of a `send` call, in order. -/
theorem send_frames_flags (info2 : Bool) (self : twiprotocol) (opcode bytes : Nat)
    (payload : List Nat) (mem : Nat → Nat → Nat) (bus : Nat → Nat) :
    (send info2 self opcode bytes payload mem bus).frames.map (fun f => at8 f 1)
      = (List.range (send_packets bytes)).map (send_flag (send_packets bytes)) := by
  rw [send_frames_eq, List.map_map]
  apply List.map_congr_left
  intro m _
  exact (send_packet_header _ _ _ _ _ _ _).2.1

/-- The example of the specification: 250 payload bytes give ten frames, nine
flagged `TWIP_SOF` and the last flagged `TWIP_EOF`. -/
theorem frames_flags_250 (info2 : Bool) (self : twiprotocol) (opcode : Nat)
    (payload : List Nat) (mem : Nat → Nat → Nat) (bus : Nat → Nat) :
    (send info2 self opcode 250 payload mem bus).frames.map (fun f => at8 f 1)
      = [TWIP_SOF, TWIP_SOF, TWIP_SOF, TWIP_SOF, TWIP_SOF, TWIP_SOF, TWIP_SOF, TWIP_SOF,
          TWIP_SOF, TWIP_EOF] := by
  rw [send_frames_flags]
  rfl

/-! ## Reachable buffer states -/

theorem cb.holds_write_full (b : cb) (q : List Nat) (x : Nat) (h : b.Holds q)
    (hfull : q.length + 1 = b.cb_size) : b.write x = (false, b) := by
  obtain ⟨hl, hs, hq, he, hc⟩ := h
  have heq : (b.cb_end + 1) % b.cb_size = b.cb_start := by
    rw [he, Nat.mod_add_mod, mod_lt_two _ _ (by omega)]
    split_ifs <;> omega
  unfold cb.write
  rw [if_pos heq]

/-- `write` fails exactly when `cb_size - 1` bytes are stored. -/
theorem cb.holds_write_iff (b : cb) (q : List Nat) (x : Nat) (h : b.Holds q) :
    (b.write x).1 = false ↔ q.length + 1 = b.cb_size := by
  have hq := h.2.2.1
  constructor
  · intro hf
    by_contra hne
    have := (cb.holds_write b q x h (by omega)).1
    rw [hf] at this
    exact absurd this (by decide)
  · intro hfull
    rw [cb.holds_write_full b q x h hfull]

theorem cb.init_size (c : Nat) : (cb.init c).cb_size = min c 254 + 1 := by
  unfold cb.init
  simp only []
  split <;> omega

/-- Every reachable state holds, as a FIFO, the bytes written and not yet
read. -/
theorem cb.reach_holds (c : Nat) (b : cb) (q : List Nat) (h : cb.Reach c b q) :
    b.Holds q ∧ b.cb_size = min c 254 + 1 := by
  induction h with
  | init => exact ⟨cb.holds_init c, cb.init_size c⟩
  | write b q x _ hw ih =>
    have hq := ih.1.2.2.1
    have hne : ¬ q.length + 1 = b.cb_size := by
      intro hfull
      rw [cb.holds_write_full b q x ih.1 hfull] at hw
      exact absurd hw (by simp)
    obtain ⟨_, h2, _, h4⟩ := cb.holds_write b q x ih.1 (by omega)
    exact ⟨h2, by rw [h4, ih.2]⟩
  | read b q _ hne ih =>
    cases q with
    | nil => exact absurd rfl hne
    | cons x q =>
      obtain ⟨_, h2, h3⟩ := cb.holds_read b x q ih.1
      exact ⟨h2, by rw [h3, ih.2]⟩

/-- The bytes a buffer holds come out of successive reads: `contents` with
enough fuel is the held sequence. -/
theorem cb.holds_contents (b : cb) (q : List Nat) (fuel : Nat) (h : b.Holds q)
    (hf : q.length ≤ fuel) : cb.contents fuel b = q := by
  induction fuel generalizing b q with
  | zero =>
    have : q = [] := List.length_eq_zero.mp (by omega)
    subst this
    rfl
  | succ n ih =>
    cases q with
    | nil =>
      rw [cb.contents, if_pos ((cb.holds_empty b [] h).mpr rfl)]
    | cons x q =>
      have hne : ¬ b.empty = true := fun he =>
        absurd ((cb.holds_empty b _ h).mp he) (by simp)
      obtain ⟨h1, h2, _⟩ := cb.holds_read b x q h
      rw [cb.contents, if_neg hne, h1, ih b.read.2 q h2 (by simpa using hf)]

theorem cb.holds_write_all (b : cb) (q bs : List Nat) (h : b.Holds q)
    (hfit : q.length + bs.length < b.cb_size) :
    (b.write_all bs).1 = List.replicate bs.length true
    ∧ (b.write_all bs).2.Holds (q ++ bs)
    ∧ (b.write_all bs).2.cb_size = b.cb_size := by
  induction bs generalizing b q with
  | nil => simpa [cb.write_all] using h
  | cons x xs ih =>
    simp only [List.length_cons] at hfit
    obtain ⟨h1, h2, _, h4⟩ := cb.holds_write b q x h (by omega)
    obtain ⟨i1, i2, i3⟩ := ih (b.write x).2 (q ++ [x]) h2
      (by rw [h4, List.length_append]; simp; omega)
    rw [cb.write_all]
    refine ⟨?_, ?_, by rw [i3, h4]⟩
    · show (b.write x).1 :: ((b.write x).2.write_all xs).1 = _
      rw [h1, i1]
      rfl
    · show ((b.write x).2.write_all xs).2.Holds (q ++ x :: xs)
      have e : q ++ x :: xs = q ++ [x] ++ xs := by simp
      rw [e]
      exact i2

theorem cb.holds_read_n (b : cb) (l q : List Nat) (h : b.Holds (l ++ q)) :
    (cb.read_n l.length b).1 = l ∧ (cb.read_n l.length b).2.Holds q
    ∧ (cb.read_n l.length b).2.cb_size = b.cb_size := by
  induction l generalizing b with
  | nil => exact ⟨rfl, h, rfl⟩
  | cons x l ih =>
    obtain ⟨h1, h2, h3⟩ := cb.holds_read b x (l ++ q) h
    obtain ⟨i1, i2, i3⟩ := ih b.read.2 h2
    refine ⟨?_, i2, by rw [← h3, ← i3]; rfl⟩
    show b.read.1 :: (cb.read_n l.length b.read.2).1 = x :: l
    rw [h1, i1]

theorem cb.reach_example_wrapped : cb.Reach 3 cb.example_wrapped [4, 5] := by
  have r0 : cb.Reach 3 (cb.init 3) [] := cb.Reach.init
  have r1 := cb.Reach.write _ _ 1 r0 (by decide)
  have r2 := cb.Reach.write _ _ 2 r1 (by decide)
  have r3 := cb.Reach.write _ _ 3 r2 (by decide)
  have r4 := cb.Reach.read _ _ r3 (by decide)
  have r5 := cb.Reach.read _ _ r4 (by decide)
  have r6 := cb.Reach.read _ _ r5 (by decide)
  have r7 := cb.Reach.write _ _ 4 r6 (by decide)
  have r8 := cb.Reach.write _ _ 5 r7 (by decide)
  exact r8

/-! ## Bytes of a frame that `send` never stores -/

theorem send_copy_above (payload : List Nat) (n j : Nat) (packet : List Nat) (cur k : Nat)
    (hk : j + n ≤ k) : at8 (send_copy payload n j packet cur).1 k = at8 packet k := by
  induction n generalizing j packet cur with
  | zero => rfl
  | succ n ih =>
    rw [send_copy, ih (j + 1) _ _ (by omega), at8_set]
    rw [if_neg (by omega)]

/-- The fill loop of `send` stores at `TWIP_HEADER_SIZE + j`; when these
positions are outside the block, the block is as before. -/
theorem send_fill_outside (n j : Nat) (packet : List Nat)
    (h : packet.length ≤ TWIP_HEADER_SIZE + j) : send_fill n j packet = packet := by
  induction n generalizing j with
  | zero => rfl
  | succ n ih =>
    rw [send_fill, List.set_eq_of_length_le h]
    exact ih (j + 1) (by omega)

/-- A position of the frame from `TWIP_HEADER_SIZE` on that the copy loop does
not reach keeps the content the block had when `malloc` returned it. -/
theorem send_packet_untouched (twi_address opcode packets : Nat) (payload : List Nat)
    (mem : Nat → Nat → Nat) (i : Nat) (s : sendState) (k : Nat)
    (h7 : TWIP_HEADER_SIZE ≤ k) (hlen : t_this_pkt_len s.bytes ≤ k)
    (hk : k < (send_packet twi_address opcode packets payload mem i s).1.length) :
    at8 (send_packet twi_address opcode packets payload mem i s).1 k = mem i k % 256 := by
  rw [send_packet_length] at hk
  have hl := send_len_le s.bytes
  have ha := send_aligned _ hl
  have e7 : TWIP_HEADER_SIZE = 7 := rfl
  rw [e7] at h7 hk
  unfold send_packet
  simp only []
  rw [send_fill_outside _ _ _ (by
      rw [send_copy_length]
      split <;> simp only [List.length_set, List.length_map, List.length_range] <;>
        rw [ha, e7] <;> omega),
    send_copy_above _ _ _ _ _ _ (by rw [e7]; omega)]
  have hkal : k < t_this_pkt_aligned (t_this_pkt_len s.bytes) := by rw [ha, e7]; exact hk
  by_cases hc : packets > 1 ∧ i = packets - 1
  · simp only [if_pos hc, at8_set]
    iterate 8 rw [if_neg (by omega)]
    exact at8_map_range _ _ _ hkal
  · simp only [if_neg hc, at8_set]
    iterate 7 rw [if_neg (by omega)]
    exact at8_map_range _ _ _ hkal

theorem send_packets_two : send_packets 2 = 1 := by decide

/-! ## The drain loop of `receive` in general -/

/-- The loop of `receive` on a buffer that holds the records of `mids ++ [last]`
followed by `rest`, where every fragment of `mids` has fragmentation bits
`TWIP_SOF`, and either `last` is terminal (`TWIP_NOF` or `TWIP_EOF`) or nothing
follows it: all these records are consumed, `rest` stays, and the result is
complete exactly when `last` is terminal. -/
theorem receive_loop_drain (mids : List (List Nat)) (last : List Nat) (rest : List Nat)
    (s : rxState) (fuel : Nat) (hfuel : mids.length + 1 ≤ fuel)
    (h : s.rx_buffer.Holds ((mids ++ [last]).flatMap stored_record ++ rest))
    (hT : s.t_total_bytes + ((mids ++ [last]).flatMap stored_record).length < 256)
    (hC : s.t_count + ((mids ++ [last]).flatMap stored_record).length < 256)
    (hacc : s.t_total_bytes ≤ s.ret.payload.length)
    (hcomp : s.ret.complete = false)
    (hmid : ∀ f, f ∈ mids → flag_decode TWIP_FLAG_NFO (at8 f 1) = TWIP_SOF)
    (hstop : (flag_decode TWIP_FLAG_NFO (at8 last 1) = TWIP_NOF
      ∨ flag_decode TWIP_FLAG_NFO (at8 last 1) = TWIP_EOF) ∨ rest = []) :
    ∃ s', receive_loop fuel s = some s'
      ∧ s'.rx_buffer.Holds rest
      ∧ s'.rx_buffer.cb_size = s.rx_buffer.cb_size
      ∧ s'.ret.complete
          = (if flag_decode TWIP_FLAG_NFO (at8 last 1) = TWIP_NOF
              ∨ flag_decode TWIP_FLAG_NFO (at8 last 1) = TWIP_EOF then true else false)
      ∧ s'.t_total_bytes = s.t_total_bytes + ((mids ++ [last]).map (fun f => at8 f 6)).sum
      ∧ s'.ret.payload
          = s.ret.payload.take s.t_total_bytes ++ (mids ++ [last]).flatMap fragment_payload
      ∧ s'.ret.sender = (if s.t_count = 0 then at8 ((mids ++ [last]).headD []) 0 else s.ret.sender)
      ∧ s'.ret.opcode = (if s.t_count = 0 then at8 ((mids ++ [last]).headD []) 2 else s.ret.opcode)
      ∧ s'.ret.id = (if s.t_count = 0 then at8 ((mids ++ [last]).headD []) 3 else s.ret.id)
      ∧ s'.ret.flag
          = (if flag_decode TWIP_FLAG_NFO (at8 last 1) = TWIP_EOF then TWIP_EOF
             else if s.t_count = 0 then at8 ((mids ++ [last]).headD []) 1 else s.ret.flag) := by
  induction mids generalizing s fuel with
  | nil =>
    obtain ⟨fuel, rfl⟩ : ∃ n, fuel = n + 1 := ⟨fuel - 1, by simp at hfuel; omega⟩
    simp only [List.nil_append, List.flatMap_cons, List.flatMap_nil, List.append_nil,
      stored_record_length] at h hT hC ⊢
    have hl : at8 last 6 ≤ 248 := by omega
    have hpl : (fragment_payload last).length = at8 last 6 := by
      unfold fragment_payload; simp
    rw [stored_record_eq last hl] at h
    simp only [List.cons_append] at h
    obtain ⟨b1, b2, b3, b4, b5, b6, b7, b8, b9, b10⟩ :=
      receive_body_holds s _ _ _ _ _ _ _ _ rest h (by rw [hpl]; omega) hacc
    have hcz : (s.t_count + 1) % 256 = 1 ↔ s.t_count = 0 := by omega
    simp only [hcz] at b6 b7 b8 b9
    rw [hcomp] at b10
    refine ⟨receive_body s, ?_, b1, b2, b10, ?_, b5, b6, b7, b8, ?_⟩
    · rw [receive_loop]
      rcases hstop with ht | hr
      · rw [b10, if_pos ht]
        simp
      · subst hr
        rw [if_pos ((cb.holds_empty _ _ b1).mpr rfl)]
    · rw [b4, hpl]; simp
    · rw [b9]; rfl
  | cons m ms ih =>
    obtain ⟨fuel, rfl⟩ : ∃ n, fuel = n + 1 := ⟨fuel - 1, by simp at hfuel; omega⟩
    simp only [List.cons_append, List.flatMap_cons, List.length_append,
      stored_record_length, List.append_assoc] at h hT hC
    have hl : at8 m 6 ≤ 248 := by omega
    have hpl : (fragment_payload m).length = at8 m 6 := by
      unfold fragment_payload; simp
    have hm := hmid m (List.mem_cons_self _ _)
    rw [stored_record_eq m hl] at h
    simp only [List.cons_append, List.append_assoc] at h
    obtain ⟨b1, b2, b3, b4, b5, b6, b7, b8, b9, b10⟩ :=
      receive_body_holds s _ _ _ _ _ _ _ _ _ h (by rw [hpl]; omega) hacc
    have hcz : (s.t_count + 1) % 256 = 1 ↔ s.t_count = 0 := by omega
    simp only [hcz] at b6 b7 b8 b9
    have hSN : ¬ (TWIP_SOF = TWIP_NOF ∨ TWIP_SOF = TWIP_EOF) := by decide
    have hSE : ¬ TWIP_SOF = TWIP_EOF := by decide
    rw [hm, if_neg hSN, hcomp] at b10
    rw [hm, if_neg hSE] at b9
    have hne : (ms ++ [last]).flatMap stored_record ++ rest ≠ [] := by
      intro he
      have := congrArg List.length he
      simp [stored_record_length] at this
    have hemp : (receive_body s).rx_buffer.empty = false := by
      cases hx : (receive_body s).rx_buffer.empty with
      | false => rfl
      | true => exact absurd ((cb.holds_empty _ _ b1).mp hx) hne
    obtain ⟨s', r1, r2, r3, r4, r5, r6, r7, r8, r9, r10⟩ :=
      ih (receive_body s) fuel (by simp at hfuel; omega) b1
        (by rw [b4, hpl]; omega) (by rw [b3]; omega)
        (by rw [b5, b4, List.length_append, hpl]; simp; omega) b10
        (fun f hf => hmid f (List.mem_cons_of_mem _ hf))
    have hc1 : ¬ (receive_body s).t_count = 0 := by rw [b3]; omega
    simp only [if_neg hc1] at r7 r8 r9 r10
    refine ⟨s', ?_, r2, by rw [r3, b2], r4, ?_, ?_, ?_, ?_, ?_, ?_⟩
    · rw [receive_loop]
      rw [hemp, b10]
      simpa using r1
    · rw [r5, b4, hpl]; simp; omega
    · rw [r6, b5, b4]
      rw [List.take_of_length_le (by rw [List.length_append, List.length_take]; omega)]
      simp only [List.cons_append, List.flatMap_cons, List.append_assoc]
    · rw [r7, b6]; simp
    · rw [r8, b7]; simp
    · rw [r9, b8]; simp
    · rw [r10, b9]; simp

/-! ## The end of `receive` for an incomplete aggregate -/

theorem rx_requeue_copy_eq (payload : List Nat) (n i : Nat) (b : cb) :
    rx_requeue_copy payload n i b = rx_add_copy payload n i b := by
  induction n generalizing i b with
  | zero => rfl
  | succ n ih => rw [rx_requeue_copy, rx_add_copy, ih]

theorem requeue_frame_payload (sender flag opcode id size : Nat) (payload : List Nat)
    (hlen : payload.length = size) :
    fragment_payload (requeue_frame sender flag opcode id size payload) = payload := by
  apply ext_at8
  · unfold fragment_payload
    simp only [List.length_map, List.length_range]
    rw [hlen]
    rfl
  · intro k hk
    unfold fragment_payload at hk ⊢
    simp only [List.length_map, List.length_range] at hk
    rw [at8_map_range _ _ _ hk]
    unfold requeue_frame
    rw [at8_append_right _ _ _ (by unfold TWIP_HEADER_SIZE; simp)]
    congr 1
    show 7 + k - 7 = k
    omega

/-- The record of a requeued fragment, split into its bytes. -/
theorem requeue_record_eq (sender flag opcode id size : Nat) (payload : List Nat)
    (hlen : payload.length = size) (hsz : size ≤ 248) :
    stored_record (requeue_frame sender flag opcode id size payload)
      = [(size + TWIP_HEADER_SIZE) % 256, sender,
          ((((flag_decode TWIP_FLAG_TTL flag + 1) % 256) <<< 4)
            + flag_decode TWIP_FLAG_NFO flag) % 256,
          opcode, id,
          (checksum sender flag opcode id size >>> 8) % 256,
          checksum sender flag opcode id size % 256,
          size] ++ payload := by
  have h6 : at8 (requeue_frame sender flag opcode id size payload) 6 = size := rfl
  rw [stored_record_eq _ (by rw [h6]; exact hsz), requeue_frame_payload _ _ _ _ _ _ hlen, hlen,
    Nat.mod_eq_of_lt (by unfold TWIP_HEADER_SIZE; omega), Nat.add_comm]
  rfl

/-- The requeue branch: an incomplete aggregate whose TTL is below the maximum
is written back, into the emptied buffer of 255 slots, as one record. -/
theorem receive_finish_requeue (s : rxState) (hcomp : s.ret.complete = false)
    (h : s.rx_buffer.Holds []) (hsz : s.rx_buffer.cb_size = 255)
    (hT : s.t_total_bytes + 7 < 254) (hlen : s.ret.payload.length = s.t_total_bytes)
    (httl : flag_decode TWIP_FLAG_TTL s.ret.flag < TWIP_MAX_TTL) :
    (receive_finish s).1
        = { s.ret with
            size := s.t_total_bytes
            checksum := checksum s.ret.sender s.ret.flag s.ret.opcode s.ret.id s.t_total_bytes
            payload := realloc s.ret.payload 1 }
    ∧ (receive_finish s).2.Holds (stored_record
        (requeue_frame s.ret.sender s.ret.flag s.ret.opcode s.ret.id s.t_total_bytes
          s.ret.payload))
    ∧ (receive_finish s).2.cb_size = 255 := by
  have hav := cb.holds_available _ _ h (by omega) (by have := h.2.1; simp; omega)
  rw [hsz] at hav
  simp only [List.length_nil] at hav
  have hcond : s.t_total_bytes + TWIP_HEADER_SIZE < s.rx_buffer.available
      ∧ flag_decode TWIP_FLAG_TTL s.ret.flag < TWIP_MAX_TTL := by
    refine ⟨?_, httl⟩
    rw [hav]
    unfold TWIP_HEADER_SIZE
    omega
  have hne : ¬ s.ret.complete = true := by rw [hcomp]; simp
  obtain ⟨_, w1, _, z1⟩ := cb.holds_write s.rx_buffer []
    ((s.t_total_bytes + TWIP_HEADER_SIZE) % 256) h (by rw [hsz]; simp)
  obtain ⟨_, w2, _, z2⟩ := cb.holds_write _ _ s.ret.sender w1 (by rw [z1, hsz]; simp)
  obtain ⟨_, w3, _, z3⟩ := cb.holds_write _ _
    (((((flag_decode TWIP_FLAG_TTL s.ret.flag + 1) % 256) <<< 4)
      + flag_decode TWIP_FLAG_NFO s.ret.flag) % 256) w2 (by rw [z2, z1, hsz]; simp)
  obtain ⟨_, w4, _, z4⟩ := cb.holds_write _ _ s.ret.opcode w3 (by rw [z3, z2, z1, hsz]; simp)
  obtain ⟨_, w5, _, z5⟩ := cb.holds_write _ _ s.ret.id w4 (by rw [z4, z3, z2, z1, hsz]; simp)
  obtain ⟨_, w6, _, z6⟩ := cb.holds_write _ _
    ((checksum s.ret.sender s.ret.flag s.ret.opcode s.ret.id s.t_total_bytes >>> 8) % 256) w5
    (by rw [z5, z4, z3, z2, z1, hsz]; simp)
  obtain ⟨_, w7, _, z7⟩ := cb.holds_write _ _
    (checksum s.ret.sender s.ret.flag s.ret.opcode s.ret.id s.t_total_bytes % 256) w6
    (by rw [z6, z5, z4, z3, z2, z1, hsz]; simp)
  obtain ⟨_, w8, _, z8⟩ := cb.holds_write _ _ s.t_total_bytes w7
    (by rw [z7, z6, z5, z4, z3, z2, z1, hsz]; simp)
  obtain ⟨c1, _, c3⟩ := rx_add_copy_holds s.ret.payload s.t_total_bytes 0 _ _ w8
    (by rw [z8, z7, z6, z5, z4, z3, z2, z1, hsz]; simp; omega)
  have hmap : (List.range s.t_total_bytes).map (fun k => at8 s.ret.payload (0 + k))
      = s.ret.payload := by
    apply ext_at8
    · simp [hlen]
    · intro k hk
      simp only [List.length_map, List.length_range] at hk
      rw [at8_map_range _ _ _ hk, Nat.zero_add]
  rw [hmap] at c1
  simp only [List.nil_append, List.cons_append, List.append_assoc] at c1
  have hfin : receive_finish s
      = ({ s.ret with
            size := s.t_total_bytes
            checksum := checksum s.ret.sender s.ret.flag s.ret.opcode s.ret.id s.t_total_bytes
            payload := realloc s.ret.payload 1 },
          rx_requeue_copy s.ret.payload s.t_total_bytes 0
            ((((((((s.rx_buffer.write ((s.t_total_bytes + TWIP_HEADER_SIZE) % 256)).2.write
              s.ret.sender).2.write
              (((((flag_decode TWIP_FLAG_TTL s.ret.flag + 1) % 256) <<< 4)
                + flag_decode TWIP_FLAG_NFO s.ret.flag) % 256)).2.write s.ret.opcode).2.write
              s.ret.id).2.write
              ((checksum s.ret.sender s.ret.flag s.ret.opcode s.ret.id s.t_total_bytes >>> 8)
                % 256)).2.write
              (checksum s.ret.sender s.ret.flag s.ret.opcode s.ret.id s.t_total_bytes
                % 256)).2.write s.t_total_bytes).2) := by
    unfold receive_finish
    exact (if_neg hne).trans (by
      show (_, if _ then _ else _) = _
      rw [if_pos hcond])
  rw [hfin, rx_requeue_copy_eq]
  refine ⟨rfl, ?_, by rw [c3, z8, z7, z6, z5, z4, z3, z2, z1, hsz]⟩
  rw [requeue_record_eq _ _ _ _ _ _ hlen (by omega)]
  exact c1

/-- The drop branch: an incomplete aggregate whose TTL has reached the maximum
is not written back. -/
theorem receive_finish_drop (s : rxState) (hcomp : s.ret.complete = false)
    (httl : ¬ flag_decode TWIP_FLAG_TTL s.ret.flag < TWIP_MAX_TTL) :
    receive_finish s
      = ({ s.ret with
            size := s.t_total_bytes
            checksum := checksum s.ret.sender s.ret.flag s.ret.opcode s.ret.id s.t_total_bytes
            payload := realloc s.ret.payload 1 },
          s.rx_buffer) := by
  have hne : ¬ s.ret.complete = true := by rw [hcomp]; simp
  unfold receive_finish
  exact (if_neg hne).trans (by
    show (_, if _ then _ else _) = _
    rw [if_neg (fun hc => httl hc.2)])

/-! ## `receive` on a buffer of records -/

theorem flatMap_record_length (fs : List (List Nat)) :
    (fs.flatMap stored_record).length = 8 * fs.length + (fs.map (fun f => at8 f 6)).sum := by
  induction fs with
  | nil => rfl
  | cons f fs ih =>
    simp only [List.flatMap_cons, List.length_append, stored_record_length, ih, List.length_cons,
      List.map_cons, List.sum_cons]
    omega

theorem flatMap_payload_length (fs : List (List Nat)) :
    (fs.flatMap fragment_payload).length = (fs.map (fun f => at8 f 6)).sum := by
  induction fs with
  | nil => rfl
  | cons f fs ih =>
    simp only [List.flatMap_cons, List.length_append, ih, List.map_cons, List.sum_cons]
    unfold fragment_payload
    simp

/-- A complete message at the head of the buffer: `receive` returns it and
leaves what follows it. -/
theorem receive_drain (self : twiprotocol) (mids : List (List Nat)) (last : List Nat)
    (rest : List Nat) (fuel : Nat) (hfuel : mids.length + 1 ≤ fuel)
    (h : self.rx_buffer.Holds ((mids ++ [last]).flatMap stored_record ++ rest))
    (hsz : self.rx_buffer.cb_size ≤ 256)
    (hmid : ∀ f, f ∈ mids → flag_decode TWIP_FLAG_NFO (at8 f 1) = TWIP_SOF)
    (hlast : flag_decode TWIP_FLAG_NFO (at8 last 1) = TWIP_NOF
      ∨ flag_decode TWIP_FLAG_NFO (at8 last 1) = TWIP_EOF) :
    ∃ p e, receive fuel self = some (p, e)
      ∧ e.rx_buffer.Holds rest
      ∧ e.rx_buffer.cb_size = self.rx_buffer.cb_size
      ∧ e.pkt_id = self.pkt_id ∧ e.twi_address = self.twi_address
      ∧ p.complete = true
      ∧ p.sender = at8 ((mids ++ [last]).headD []) 0
      ∧ p.opcode = at8 ((mids ++ [last]).headD []) 2
      ∧ p.id = at8 ((mids ++ [last]).headD []) 3
      ∧ p.flag = (if flag_decode TWIP_FLAG_NFO (at8 last 1) = TWIP_EOF then TWIP_EOF
          else at8 ((mids ++ [last]).headD []) 1)
      ∧ p.size = ((mids ++ [last]).map (fun f => at8 f 6)).sum
      ∧ p.checksum = checksum p.sender p.flag p.opcode p.id p.size
      ∧ p.payload = (mids ++ [last]).flatMap fragment_payload := by
  have hq := h.2.2.1
  rw [List.length_append] at hq
  have hne : (mids ++ [last]).flatMap stored_record ++ rest ≠ [] := by
    intro he
    have := congrArg List.length he
    simp [stored_record_length] at this
  have hemp : ¬ self.rx_buffer.empty = true := fun hx => hne ((cb.holds_empty _ _ h).mp hx)
  obtain ⟨s', r1, r2, r3, r4, r5, r6, r7, r8, r9, r10⟩ :=
    receive_loop_drain mids last rest
      { ret := { twippacket.blank with payload := [0] }, t_count := 0, t_total_bytes := 0,
        rx_buffer := self.rx_buffer } fuel hfuel h
      (by show 0 + _ < 256; omega) (by show 0 + _ < 256; omega) (Nat.zero_le _) rfl hmid
      (Or.inl hlast)
  simp only [if_true, Nat.zero_add, List.take_zero, List.nil_append] at r5 r6 r7 r8 r9 r10
  rw [if_pos hlast] at r4
  refine ⟨(receive_finish s').1, { self with rx_buffer := (receive_finish s').2 }, ?_, ?_⟩
  · unfold receive
    rw [if_neg hemp, r1]
  · rw [receive_finish_complete s' r4]
    refine ⟨r2, r3, rfl, rfl, r4, r7, r8, r9, r10, r5, ?_, r6⟩
    dsimp only

/-- An incomplete message: the buffer holds only records with fragmentation
bits `TWIP_SOF`.  `receive` consumes them all, returns `complete = false`, and
writes the aggregate back as one record with the TTL increased by one, or
leaves the buffer empty when the TTL of the first record is at its maximum. -/
theorem receive_incomplete (self : twiprotocol) (mids : List (List Nat)) (last : List Nat)
    (fuel : Nat) (hfuel : mids.length + 1 ≤ fuel)
    (h : self.rx_buffer.Holds ((mids ++ [last]).flatMap stored_record))
    (hsz : self.rx_buffer.cb_size = 255)
    (hmid : ∀ f, f ∈ mids → flag_decode TWIP_FLAG_NFO (at8 f 1) = TWIP_SOF)
    (hlast : flag_decode TWIP_FLAG_NFO (at8 last 1) = TWIP_SOF) :
    ∃ p e, receive fuel self = some (p, e)
      ∧ e.rx_buffer.cb_size = 255
      ∧ e.pkt_id = self.pkt_id ∧ e.twi_address = self.twi_address
      ∧ p.complete = false
      ∧ p.sender = at8 ((mids ++ [last]).headD []) 0
      ∧ p.flag = at8 ((mids ++ [last]).headD []) 1
      ∧ p.opcode = at8 ((mids ++ [last]).headD []) 2
      ∧ p.id = at8 ((mids ++ [last]).headD []) 3
      ∧ p.size = ((mids ++ [last]).map (fun f => at8 f 6)).sum
      ∧ p.checksum = checksum p.sender p.flag p.opcode p.id p.size
      ∧ p.payload = realloc ((mids ++ [last]).flatMap fragment_payload) 1
      ∧ (flag_decode TWIP_FLAG_TTL (at8 ((mids ++ [last]).headD []) 1) < TWIP_MAX_TTL →
          e.rx_buffer.Holds (stored_record
            (requeue_frame (at8 ((mids ++ [last]).headD []) 0)
              (at8 ((mids ++ [last]).headD []) 1) (at8 ((mids ++ [last]).headD []) 2)
              (at8 ((mids ++ [last]).headD []) 3)
              ((mids ++ [last]).map (fun f => at8 f 6)).sum
              ((mids ++ [last]).flatMap fragment_payload))))
      ∧ (¬ flag_decode TWIP_FLAG_TTL (at8 ((mids ++ [last]).headD []) 1) < TWIP_MAX_TTL →
          e.rx_buffer.Holds []) := by
  have hq := h.2.2.1
  have hlenrec := flatMap_record_length (mids ++ [last])
  have hlenpay := flatMap_payload_length (mids ++ [last])
  have hk : 1 ≤ (mids ++ [last]).length := by simp
  have hne : (mids ++ [last]).flatMap stored_record ≠ [] := by
    intro he
    have := congrArg List.length he
    simp [stored_record_length] at this
  have hemp : ¬ self.rx_buffer.empty = true := fun hx => hne ((cb.holds_empty _ _ h).mp hx)
  have h' : self.rx_buffer.Holds ((mids ++ [last]).flatMap stored_record ++ []) := by
    rw [List.append_nil]; exact h
  obtain ⟨s', r1, r2, r3, r4, r5, r6, r7, r8, r9, r10⟩ :=
    receive_loop_drain mids last []
      { ret := { twippacket.blank with payload := [0] }, t_count := 0, t_total_bytes := 0,
        rx_buffer := self.rx_buffer } fuel hfuel h'
      (by show 0 + _ < 256; omega) (by show 0 + _ < 256; omega) (Nat.zero_le _) rfl hmid
      (Or.inr rfl)
  simp only [if_true, Nat.zero_add, List.take_zero, List.nil_append] at r5 r6 r7 r8 r9 r10
  have hSN : ¬ (TWIP_SOF = TWIP_NOF ∨ TWIP_SOF = TWIP_EOF) := by decide
  have hSE : ¬ TWIP_SOF = TWIP_EOF := by decide
  rw [hlast, if_neg hSN] at r4
  rw [hlast, if_neg hSE] at r10
  have hrec : receive fuel self
      = some ((receive_finish s').1, { self with rx_buffer := (receive_finish s').2 }) := by
    unfold receive
    rw [if_neg hemp, r1]
  have r3' : s'.rx_buffer.cb_size = 255 := by rw [r3]; exact hsz
  by_cases httl : flag_decode TWIP_FLAG_TTL (at8 ((mids ++ [last]).headD []) 1) < TWIP_MAX_TTL
  · obtain ⟨f1, f2, f3⟩ := receive_finish_requeue s' r4 r2 r3' (by rw [r5]; omega)
      (by rw [r6, hlenpay, r5]) (by rw [r10]; exact httl)
    refine ⟨_, _, hrec, f3, rfl, rfl, ?_⟩
    rw [f1]
    refine ⟨r4, r7, r10, r8, r9, r5, ?_, by rw [r6], ?_, fun hn => absurd httl hn⟩
    · dsimp only
    · intro _
      rw [r7, r10, r8, r9, r5, r6] at f2
      exact f2
  · have f1 := receive_finish_drop s' r4 (by rw [r10]; exact httl)
    refine ⟨_, _, hrec, by rw [f1]; exact r3', rfl, rfl, ?_⟩
    rw [f1]
    refine ⟨r4, r7, r10, r8, r9, r5, ?_, by rw [r6], fun hy => absurd hy httl, fun _ => r2⟩
    dsimp only

/-- The record of a fragment whose array holds header and payload: the
accounting byte followed by the first `TWIP_HEADER_SIZE + data[6]` bytes. -/
theorem stored_record_take (data : List Nat) (hl : at8 data 6 ≤ 248)
    (hwf : TWIP_HEADER_SIZE + at8 data 6 ≤ data.length) :
    stored_record data
      = (TWIP_HEADER_SIZE + at8 data 6) :: data.take (TWIP_HEADER_SIZE + at8 data 6) := by
  unfold stored_record
  rw [Nat.mod_eq_of_lt (by unfold TWIP_HEADER_SIZE; omega)]
  congr 1
  apply ext_at8
  · simp
    omega
  · intro k hk
    simp only [List.length_map, List.length_range] at hk
    rw [at8_map_range _ _ _ hk]
    have := at8_drop_take data 0 (TWIP_HEADER_SIZE + at8 data 6) k hk
    rw [List.drop_zero, Nat.zero_add] at this
    exact this.symm

/-! ## Ageing of an incomplete message -/

theorem flag_decode_aged (k : Nat) (hk : k ≤ 15) :
    flag_decode TWIP_FLAG_TTL (16 * k + TWIP_SOF) = k
    ∧ flag_decode TWIP_FLAG_NFO (16 * k + TWIP_SOF) = TWIP_SOF := by
  interval_cases k <;> exact ⟨rfl, rfl⟩

theorem receive_engine_eq (fuel : Nat) (self : twiprotocol) (p : twippacket) (e : twiprotocol)
    (h : receive fuel self = some (p, e)) : receive_engine fuel self = e := by
  unfold receive_engine
  rw [h]

/-- One `receive` on a buffer that holds a single `TWIP_SOF` record of TTL
`k < 15`: the result is incomplete and the record is back with TTL `k + 1`. -/
theorem receive_aged_step (s o i la : Nat) (P : List Nat) (k : Nat) (e : twiprotocol)
    (fuel : Nat) (hfuel : 1 ≤ fuel) (hk : k < 15) (hP : P.length = la)
    (h : holds_aged s o i la P k e) :
    ∃ p, receive fuel e = some (p, receive_engine fuel e) ∧ p.complete = false
      ∧ holds_aged s o i la P (k + 1) (receive_engine fuel e) := by
  obtain ⟨X, hX, hsz, x0, x1, x2, x3, x6, xP⟩ := h
  obtain ⟨d1, d2⟩ := flag_decode_aged k (by omega)
  have hX' : e.rx_buffer.Holds (([] ++ [X]).flatMap stored_record) := by simpa using hX
  obtain ⟨p, e', r, z, _, _, pc, _, _, _, _, _, _, _, hre, _⟩ :=
    receive_incomplete e [] X fuel (by simpa using hfuel) hX' hsz
      (by intro f hf; simp at hf) (by rw [x1]; exact d2)
  simp only [List.nil_append, List.headD_cons, List.map_cons, List.map_nil, List.sum_cons,
    List.sum_nil, Nat.add_zero, List.flatMap_cons, List.flatMap_nil, List.append_nil,
    x0, x1, x2, x3, x6, xP, d1] at hre
  have hq := hre (by unfold TWIP_MAX_TTL; omega)
  rw [receive_engine_eq fuel e p e' r]
  refine ⟨p, r, pc, _, hq, z, rfl, ?_, rfl, rfl, rfl, requeue_frame_payload _ _ _ _ _ _ hP⟩
  show ((((flag_decode TWIP_FLAG_TTL (16 * k + TWIP_SOF) + 1) % 256) <<< 4)
      + flag_decode TWIP_FLAG_NFO (16 * k + TWIP_SOF)) % 256 = 16 * (k + 1) + TWIP_SOF
  rw [d1, d2, Nat.shiftLeft_eq]
  unfold TWIP_SOF
  omega

/-- One `receive` on a buffer that holds a single `TWIP_SOF` record of TTL 15:
the result is incomplete and the buffer is empty afterwards. -/
theorem receive_aged_drop (s o i la : Nat) (P : List Nat) (e : twiprotocol)
    (fuel : Nat) (hfuel : 1 ≤ fuel) (h : holds_aged s o i la P 15 e) :
    ∃ p, receive fuel e = some (p, receive_engine fuel e) ∧ p.complete = false
      ∧ (receive_engine fuel e).rx_buffer.empty = true := by
  obtain ⟨X, hX, hsz, x0, x1, x2, x3, x6, xP⟩ := h
  obtain ⟨d1, d2⟩ := flag_decode_aged 15 (by omega)
  have hX' : e.rx_buffer.Holds (([] ++ [X]).flatMap stored_record) := by simpa using hX
  obtain ⟨p, e', r, z, _, _, pc, _, _, _, _, _, _, _, _, hdrop⟩ :=
    receive_incomplete e [] X fuel (by simpa using hfuel) hX' hsz
      (by intro f hf; simp at hf) (by rw [x1]; exact d2)
  simp only [List.nil_append, List.headD_cons, x1, d1] at hdrop
  have hq := hdrop (by decide)
  rw [receive_engine_eq fuel e p e' r]
  exact ⟨p, r, pc, (cb.holds_empty _ _ hq).mpr rfl⟩

/-- `receive` on an empty buffer returns an incomplete result and leaves the
engine as it is. -/
theorem receive_empty (fuel : Nat) (e : twiprotocol) (h : e.rx_buffer.empty = true) :
    receive fuel e = some (twippacket.blank, e) ∧ receive_engine fuel e = e := by
  have hr : receive fuel e = some (twippacket.blank, e) := by
    unfold receive
    rw [if_pos h]
  exact ⟨hr, receive_engine_eq fuel e _ _ hr⟩

/-- The contents of a buffer that holds one aged record. -/
theorem holds_aged_contents (s o i la : Nat) (P : List Nat) (k : Nat) (e : twiprotocol)
    (hla : la ≤ 246) (h : holds_aged s o i la P k e) :
    ∃ hi lo, cb.contents 255 e.rx_buffer
      = [TWIP_HEADER_SIZE + la, s, 16 * k + TWIP_SOF, o, i, hi, lo, la] ++ P := by
  obtain ⟨X, hX, hsz, x0, x1, x2, x3, x6, xP⟩ := h
  refine ⟨at8 X 4, at8 X 5, ?_⟩
  rw [cb.holds_contents _ _ 255 hX (by rw [stored_record_length, x6]; omega),
    stored_record_eq X (by rw [x6]; omega), x0, x1, x2, x3, x6, xP]
  have : P.length = la := by
    rw [← xP]
    unfold fragment_payload
    simp [x6]
  rw [this]
  rfl

/-- The states of the engine after `k ≤ 15` calls of `receive`, when the buffer
held one `TWIP_SOF` record of TTL 0 at the start. -/
theorem receive_aged_iterate (s o i la : Nat) (P : List Nat) (e0 : twiprotocol)
    (fuel : Nat) (hfuel : 1 ≤ fuel) (hP : P.length = la) (h : holds_aged s o i la P 0 e0)
    (k : Nat) (hk : k ≤ 15) : holds_aged s o i la P k ((receive_engine fuel)^[k] e0) := by
  induction k with
  | zero => exact h
  | succ k ih =>
    rw [Function.iterate_succ_apply']
    exact (receive_aged_step s o i la P k _ fuel hfuel (by omega) hP (ih (by omega))).choose_spec.2.2

/-- After the sixteenth call the buffer is empty and stays so. -/
theorem receive_aged_later (s o i la : Nat) (P : List Nat) (e0 : twiprotocol)
    (fuel : Nat) (hfuel : 1 ≤ fuel) (hP : P.length = la) (h : holds_aged s o i la P 0 e0)
    (k : Nat) (hk : 16 ≤ k) : ((receive_engine fuel)^[k] e0).rx_buffer.empty = true := by
  induction k with
  | zero => omega
  | succ k ih =>
    rw [Function.iterate_succ_apply']
    by_cases h15 : k = 15
    · subst h15
      obtain ⟨_, _, _, he⟩ := receive_aged_drop s o i la P _ fuel hfuel
        (receive_aged_iterate s o i la P e0 fuel hfuel hP h 15 (Nat.le_refl 15))
      exact he
    · have := ih (by omega)
      rw [(receive_empty fuel _ this).2]
      exact this

/-! ## Sequences of `rx_add` calls -/

theorem rx_add_all_append (self : twiprotocol) (xs ys : List (List Nat)) :
    rx_add_all self (xs ++ ys)
      = ((rx_add_all (rx_add_all self xs).1 ys).1,
          (rx_add_all self xs).2 ++ (rx_add_all (rx_add_all self xs).1 ys).2) := by
  induction xs generalizing self with
  | nil => rfl
  | cons x xs ih =>
    rw [List.cons_append, rx_add_all, rx_add_all, ih]
    rfl

/-- Fragments with matching checksums that fit together into the free space of
a fresh-cursor buffer are all accepted. -/
theorem rx_add_all_accepts (fs : List (List Nat)) (self : twiprotocol) (q : List Nat)
    (h : self.rx_buffer.Holds q) (hsz : self.rx_buffer.cb_size = 255)
    (hst : self.rx_buffer.cb_start = 0)
    (hfit : q.length + (fs.flatMap stored_record).length ≤ 254)
    (hsum : ∀ f, f ∈ fs →
      uint16 (int16 (int16 ((at8 f 4 <<< 8 : Nat) : Int) + (at8 f 5 : Int)))
        = checksum (at8 f 0) (at8 f 1) (at8 f 2) (at8 f 3) (at8 f 6)) :
    (rx_add_all self fs).2 = List.replicate fs.length true := by
  induction fs generalizing self q with
  | nil => rfl
  | cons f fs ih =>
    simp only [List.flatMap_cons, List.length_append, stored_record_length] at hfit
    have hacc := rx_add_accepts self f (f.length : Int) q h hsz (by omega) (by omega)
      (hsum f (List.mem_cons_self _ _))
    obtain ⟨h1, h2, h3, _⟩ := rx_add_holds self f _ q h hsz (by omega) hacc
    have := ih (rx_add self f (f.length : Int)).2 (q ++ stored_record f) h1 h3
      (by rw [h2, hst]) (by rw [List.length_append, stored_record_length]; omega)
      (fun g hg => hsum g (List.mem_cons_of_mem _ hg))
    rw [rx_add_all]
    show (rx_add self f (f.length : Int)).1 :: _ = _
    rw [hacc, this]
    rfl

/-- A fragment that needs more than the free space is rejected and the engine
stays as it is. -/
theorem rx_add_rejects (self : twiprotocol) (data : List Nat) (bytes : Int) (q : List Nat)
    (h : self.rx_buffer.Holds q) (hsz : self.rx_buffer.cb_size = 255)
    (hlin : self.rx_buffer.cb_start + q.length < 255)
    (hbig : 254 < q.length + 8 + at8 data 6) :
    rx_add self data bytes = (false, self) := by
  have hav := cb.holds_available _ _ h (by omega) (by omega)
  rw [hsz] at hav
  rw [rx_add_eq, if_pos]
  left
  rw [hav]
  unfold TWIP_HEADER_SIZE
  omega

theorem rx_add_all_rejects (fs : List (List Nat)) (self : twiprotocol) (q : List Nat)
    (h : self.rx_buffer.Holds q) (hsz : self.rx_buffer.cb_size = 255)
    (hlin : self.rx_buffer.cb_start + q.length < 255)
    (hbig : ∀ f, f ∈ fs → 254 < q.length + 8 + at8 f 6) :
    rx_add_all self fs = (self, List.replicate fs.length false) := by
  induction fs with
  | nil => rfl
  | cons f fs ih =>
    rw [rx_add_all, rx_add_rejects self f _ q h hsz hlin (hbig f (List.mem_cons_self _ _)),
      ih (fun g hg => hbig g (List.mem_cons_of_mem _ hg))]
    rfl

/-! ## The example of the specification on the code -/

set_option maxRecDepth 100000

theorem flag_decode_nfo_sof : flag_decode TWIP_FLAG_NFO TWIP_SOF = TWIP_SOF := by decide

theorem example_fragment_wire (flag id : Nat) :
    uint16 (int16 (int16 ((at8 (example_fragment flag id) 4 <<< 8 : Nat) : Int)
        + (at8 (example_fragment flag id) 5 : Int)))
      = checksum (at8 (example_fragment flag id) 0) (at8 (example_fragment flag id) 1)
          (at8 (example_fragment flag id) 2) (at8 (example_fragment flag id) 3)
          (at8 (example_fragment flag id) 6) :=
  wire_checksum_split _ (checksum_lt _ _ _ _ _)

theorem example_fragment_payload (flag id : Nat) :
    fragment_payload (example_fragment flag id) = List.replicate 25 0xAA := rfl

theorem example_fragments_split (id : Nat) :
    example_fragments id
      = (List.replicate 6 (example_fragment TWIP_SOF id) ++ [example_fragment TWIP_SOF id])
        ++ [example_fragment TWIP_SOF id, example_fragment TWIP_SOF id,
            example_fragment TWIP_EOF id] := rfl

/-! ## Continuing a requeued message -/

/-- With the write cursor wrapped below the read cursor and at most 253 bytes
stored, `available` of a buffer of 255 slots is one less than the free space. -/
theorem cb.holds_available_wrapped (b : cb) (q : List Nat) (h : b.Holds q)
    (hsz : b.cb_size = 255) (hwrap : 255 ≤ b.cb_start + q.length) (hq : q.length ≤ 253) :
    b.available = 253 - q.length := by
  obtain ⟨_, hs, _, he, _⟩ := h
  rw [hsz] at hs he
  rw [mod_lt_two _ _ (by omega), if_neg (by omega)] at he
  unfold cb.available uint8
  rw [he, hsz]
  omega

/-- An accepted fragment is appended as a record also when the cursors have
wrapped, as long as the buffer is not full. -/
theorem rx_add_holds_any (self : twiprotocol) (data : List Nat) (bytes : Int) (q : List Nat)
    (h : self.rx_buffer.Holds q) (hsz : self.rx_buffer.cb_size = 255)
    (hq : q.length ≤ 253) (hacc : (rx_add self data bytes).1 = true) :
    (rx_add self data bytes).2.rx_buffer.Holds (q ++ stored_record data)
    ∧ (rx_add self data bytes).2.rx_buffer.cb_size = 255 := by
  have hav : self.rx_buffer.available ≤ 254 - q.length := by
    by_cases hlin : self.rx_buffer.cb_start + q.length < 255
    · have := cb.holds_available _ _ h (by omega) (by omega)
      rw [hsz] at this
      omega
    · rw [cb.holds_available_wrapped _ _ h hsz (by omega) hq]
      omega
  rw [rx_add_eq] at hacc ⊢
  by_cases hc : TWIP_HEADER_SIZE + at8 data 6 + 1 > self.rx_buffer.available
          ∨ uint16 (int16 (int16 ((at8 data 4 <<< 8 : Nat) : Int) + (at8 data 5 : Int)))
              ≠ checksum (at8 data 0) (at8 data 1) (at8 data 2) (at8 data 3) (at8 data 6)
  · rw [if_pos hc] at hacc
    exact absurd hacc (by simp)
  · rw [if_neg hc]
    rw [not_or] at hc
    have h7 : TWIP_HEADER_SIZE = 7 := rfl
    have hfit : 7 + at8 data 6 + 1 ≤ 254 - q.length := by
      have := hc.1
      rw [h7] at this
      omega
    obtain ⟨_, hw, _, hsz'⟩ := cb.holds_write _ q ((TWIP_HEADER_SIZE + at8 data 6) % 256) h
      (by omega)
    have hcp := rx_add_copy_holds data (TWIP_HEADER_SIZE + at8 data 6) 0 _ _ hw
      (by rw [hsz', hsz, List.length_append, h7]; simp; omega)
    refine ⟨?_, ?_⟩
    · have e : q ++ stored_record data
          = (q ++ [(TWIP_HEADER_SIZE + at8 data 6) % 256])
            ++ (List.range (TWIP_HEADER_SIZE + at8 data 6)).map (fun k => at8 data (0 + k)) := by
        unfold stored_record
        simp
      rw [e]
      exact hcp.1
    · show (rx_add_copy _ _ _ _).cb_size = _
      rw [hcp.2.2, hsz', hsz]

/-- A `TWIP_SOF` fragment `A` with at most 245 payload bytes is accepted by a
fresh engine and requeued by one `receive`; when `rx_add` then accepts a
`TWIP_EOF` fragment `B`, the next `receive` returns the complete message: the
sender, opcode and id of `A`, flag `TWIP_EOF`, the sum of the sizes and the
payload of `A` followed by the payload of `B`. -/
theorem receive_after_requeue (addr : Nat) (A B : List Nat) (fuel : Nat) (hfuel : 2 ≤ fuel)
    (hA : at8 A 1 = TWIP_SOF) (hB : at8 B 1 = TWIP_EOF) (hla : at8 A 6 ≤ 245)
    (haccA : (rx_add (twiprotocol.new addr) A (A.length : Int)).1 = true)
    (haccB : (rx_add (receive_engine fuel (rx_add (twiprotocol.new addr) A (A.length : Int)).2)
      B (B.length : Int)).1 = true) :
    ∃ p e,
      receive fuel
          (rx_add (receive_engine fuel (rx_add (twiprotocol.new addr) A (A.length : Int)).2)
            B (B.length : Int)).2 = some (p, e)
      ∧ p.complete = true
      ∧ p.sender = at8 A 0 ∧ p.opcode = at8 A 2 ∧ p.id = at8 A 3
      ∧ p.flag = TWIP_EOF
      ∧ p.size = at8 A 6 + at8 B 6
      ∧ p.payload = fragment_payload A ++ fragment_payload B := by
  obtain ⟨H, _, hsz, _, _⟩ := rx_add_holds (twiprotocol.new addr) A (A.length : Int) []
    (cb.holds_init _) rfl (by show (0 : Nat) + 0 < 255; decide) haccA
  rw [List.nil_append] at H
  have hP : (fragment_payload A).length = at8 A 6 := by
    unfold fragment_payload; simp
  have h0 : holds_aged (at8 A 0) (at8 A 2) (at8 A 3) (at8 A 6) (fragment_payload A) 0
      (rx_add (twiprotocol.new addr) A (A.length : Int)).2 :=
    ⟨A, H, hsz, rfl, hA.trans (by decide), rfl, rfl, rfl, rfl⟩
  obtain ⟨_, _, _, X, hX, hszX, x0, x1, x2, x3, x6, xP⟩ :=
    receive_aged_step _ _ _ _ _ 0 _ fuel (by omega) (by decide) hP h0
  obtain ⟨K, hszK⟩ := rx_add_holds_any _ B (B.length : Int) _ hX hszX
    (by rw [stored_record_length, x6]; omega) haccB
  have K' : (rx_add (receive_engine fuel (rx_add (twiprotocol.new addr) A (A.length : Int)).2)
      B (B.length : Int)).2.rx_buffer.Holds (([X] ++ [B]).flatMap stored_record ++ []) := by
    simpa using K
  obtain ⟨d1, d2⟩ := flag_decode_aged 1 (by decide)
  have hE : flag_decode TWIP_FLAG_NFO TWIP_EOF = TWIP_EOF := by decide
  obtain ⟨p, e, r, _, _, _, _, pc, ps, po, pi, pf, pz, _, pp⟩ :=
    receive_drain _ [X] B [] fuel (by simpa using hfuel) K' (by omega)
      (by intro f hf; rw [List.mem_singleton.mp hf, x1]; exact d2)
      (Or.inr (by rw [hB]; exact hE))
  simp only [List.singleton_append, List.headD_cons, List.map_cons, List.map_nil, List.sum_cons,
    List.sum_nil, Nat.add_zero, List.flatMap_cons, List.flatMap_nil, List.append_nil,
    x0, x2, x3, x6, xP, hB, hE, if_true] at ps po pi pf pz pp
  exact ⟨p, e, r, pc, ps, po, pi, pf, pz, pp⟩

/-- Frame `m` of a `send` call carries its header checksum and is accepted by a
fresh engine. -/
theorem frame_at_accepted (info2 : Bool) (self : twiprotocol) (opcode bytes : Nat)
    (payload : List Nat) (mem : Nat → Nat → Nat) (bus : Nat → Nat) (addr : Nat) :
    ∀ m, m < (send info2 self opcode bytes payload mem bus).frames.length →
      at8 ((send info2 self opcode bytes payload mem bus).frames.getD m []) 4
        = checksum (at8 ((send info2 self opcode bytes payload mem bus).frames.getD m []) 0)
            (at8 ((send info2 self opcode bytes payload mem bus).frames.getD m []) 1)
            (at8 ((send info2 self opcode bytes payload mem bus).frames.getD m []) 2)
            (at8 ((send info2 self opcode bytes payload mem bus).frames.getD m []) 3)
            (at8 ((send info2 self opcode bytes payload mem bus).frames.getD m []) 6) / 256
      ∧ at8 ((send info2 self opcode bytes payload mem bus).frames.getD m []) 5
        = checksum (at8 ((send info2 self opcode bytes payload mem bus).frames.getD m []) 0)
            (at8 ((send info2 self opcode bytes payload mem bus).frames.getD m []) 1)
            (at8 ((send info2 self opcode bytes payload mem bus).frames.getD m []) 2)
            (at8 ((send info2 self opcode bytes payload mem bus).frames.getD m []) 3)
            (at8 ((send info2 self opcode bytes payload mem bus).frames.getD m []) 6) % 256
      ∧ (rx_add (twiprotocol.new addr)
          ((send info2 self opcode bytes payload mem bus).frames.getD m [])
          (((send info2 self opcode bytes payload mem bus).frames.getD m []).length : Int)).1
          = true := by
  intro m hm
  rw [send_frames_length] at hm
  rw [send_frames_getD _ _ _ _ _ _ _ _ hm]
  obtain ⟨a0, a1, a2, a3, a6⟩ := send_packet_header self.twi_address opcode (send_packets bytes)
    payload mem m (send_loop info2 self.twi_address opcode (send_packets bytes) payload mem bus
      m 0 { bytes := bytes, t_payload_cur := 0, pkt_id := self.pkt_id, ret := 0, frames := [] })
  obtain ⟨a4, a5⟩ := send_packet_checksum self.twi_address opcode (send_packets bytes)
    payload mem m (send_loop info2 self.twi_address opcode (send_packets bytes) payload mem bus
      m 0 { bytes := bytes, t_payload_cur := 0, pkt_id := self.pkt_id, ret := 0, frames := [] })
  have hw := send_packet_wire self.twi_address opcode (send_packets bytes)
    payload mem m (send_loop info2 self.twi_address opcode (send_packets bytes) payload mem bus
      m 0 { bytes := bytes, t_payload_cur := 0, pkt_id := self.pkt_id, ret := 0, frames := [] })
  have hl := send_len_le (send_loop info2 self.twi_address opcode (send_packets bytes) payload
    mem bus m 0
    { bytes := bytes, t_payload_cur := 0, pkt_id := self.pkt_id, ret := 0, frames := [] }).bytes
  refine ⟨?_, ?_, ?_⟩
  · rw [a4, a0, a1, a2, a3, a6, Nat.shiftRight_eq_div_pow]
    have := checksum_lt self.twi_address (send_flag (send_packets bytes) m) opcode
      (send_loop info2 self.twi_address opcode (send_packets bytes) payload mem bus m 0
        { bytes := bytes, t_payload_cur := 0, pkt_id := self.pkt_id, ret := 0,
          frames := [] }).pkt_id
      (t_this_pkt_len (send_loop info2 self.twi_address opcode (send_packets bytes) payload
        mem bus m 0
        { bytes := bytes, t_payload_cur := 0, pkt_id := self.pkt_id, ret := 0,
          frames := [] }).bytes)
    omega
  · rw [a5, a0, a1, a2, a3, a6]
  · exact rx_add_accepts _ _ _ [] (cb.holds_init _) rfl (by show (0 : Nat) + 0 < 255; decide)
      (by rw [a6]; simp only [List.length_nil]; omega) hw

/-! ## Cursors under arbitrary calls -/

/-- One call keeps both cursors below the slot count, and keeps the slot count
and the length of the storage. -/
theorem cb.step_cursors (n : Nat) (b : cb) (op : cb.call)
    (h : b.cb_start < n ∧ b.cb_end < n ∧ b.cb_size = n ∧ b.cb_buffer.length = n) :
    (b.step op).cb_start < n ∧ (b.step op).cb_end < n ∧ (b.step op).cb_size = n
    ∧ (b.step op).cb_buffer.length = n := by
  obtain ⟨h1, h2, h3, h4⟩ := h
  have hn : 0 < n := by omega
  cases op with
  | write byte =>
    show (b.write byte).2.cb_start < n ∧ (b.write byte).2.cb_end < n
      ∧ (b.write byte).2.cb_size = n ∧ (b.write byte).2.cb_buffer.length = n
    unfold cb.write
    split
    · exact ⟨h1, h2, h3, h4⟩
    · refine ⟨h1, ?_, h3, ?_⟩
      · show (b.cb_end + 1) % b.cb_size < n
        rw [h3]
        exact Nat.mod_lt _ hn
      · show (b.cb_buffer.set b.cb_end byte).length = n
        rw [List.length_set]
        exact h4
  | read =>
    refine ⟨?_, h2, h3, h4⟩
    show (b.cb_start + 1) % b.cb_size < n
    rw [h3]
    exact Nat.mod_lt _ hn
  | peek offset => exact ⟨h1, h2, h3, h4⟩
  | empty => exact ⟨h1, h2, h3, h4⟩
  | available => exact ⟨h1, h2, h3, h4⟩

/-- A sequence of calls keeps both cursors below the slot count. -/
theorem cb.run_cursors (n : Nat) (ops : List cb.call) (b : cb)
    (h : b.cb_start < n ∧ b.cb_end < n ∧ b.cb_size = n ∧ b.cb_buffer.length = n) :
    (b.run ops).cb_start < n ∧ (b.run ops).cb_end < n ∧ (b.run ops).cb_size = n
    ∧ (b.run ops).cb_buffer.length = n := by
  induction ops generalizing b with
  | nil => exact h
  | cons op ops ih => exact ih (b.step op) (cb.step_cursors n b op h)

/-- The state after `init(c)`: both cursors are zero and the storage has
`min c 254 + 1` slots. -/
theorem cb.init_cursors (c : Nat) :
    (cb.init c).cb_start < min c 254 + 1 ∧ (cb.init c).cb_end < min c 254 + 1
    ∧ (cb.init c).cb_size = min c 254 + 1
    ∧ (cb.init c).cb_buffer.length = min c 254 + 1 := by
  refine ⟨Nat.succ_pos _, Nat.succ_pos _, cb.init_size c, ?_⟩
  unfold cb.init
  simp only [List.length_replicate]
  split <;> omega

/-! ## What the checksum comparison of `rx_add` sees -/

/-- The checksum is a function of `(sender + flag + len) % 256` and of
`opcode + id`. -/
theorem checksum_sum (sender flag opcode id len : Nat) :
    checksum sender flag opcode id len
      = 65535 - (((sender + flag + len) % 256) * 256 + (opcode + id)) % 65536 := by
  rw [checksum_eq]
  omega

/-- `rx_add` accepts exactly the fragments that fit and carry their header
checksum. -/
theorem rx_add_accepts_iff (self : twiprotocol) (data : List Nat) (bytes : Int) :
    (rx_add self data bytes).1 = true
      ↔ TWIP_HEADER_SIZE + at8 data 6 + 1 ≤ self.rx_buffer.available
        ∧ uint16 (int16 (int16 ((at8 data 4 <<< 8 : Nat) : Int) + (at8 data 5 : Int)))
          = checksum (at8 data 0) (at8 data 1) (at8 data 2) (at8 data 3) (at8 data 6) := by
  rw [rx_add_eq]
  split
  · rename_i h
    constructor
    · intro hf
      exact absurd hf (by simp)
    · rintro ⟨h1, h2⟩
      rcases h with h | h
      · omega
      · exact absurd h2 h
  · rename_i h
    rw [not_or, not_not] at h
    constructor
    · intro _
      exact ⟨by omega, h.2⟩
    · intro _
      rfl

/-! ## Claims -/


set_option maxRecDepth 1000000
set_option maxHeartbeats 4000000

/-- C1: a payload of 50 bytes `0, 1, .., 49` sent with `send` and delivered
unchanged to a fresh engine.  Whatever the initial content of the heap blocks
and the bus statuses, both frames are accepted by `rx_add` and `receive` returns
`complete = true` and `size = 50`, but byte 25 of the returned payload is 18,
the 19th byte of the payload given to `send`: the returned payload is not the
payload sent. -/
theorem send_receive_payload_differs (info2 : Bool) (mem : Nat → Nat → Nat) (bus : Nat → Nat) :
    ∃ p e,
      (rx_add_all (twiprotocol.new 1)
        (send info2 (twiprotocol.new 5) 2 50 (List.range 50) mem bus).frames).2 = [true, true]
      ∧ receive 2 (rx_add_all (twiprotocol.new 1)
          (send info2 (twiprotocol.new 5) 2 50 (List.range 50) mem bus).frames).1 = some (p, e)
      ∧ p.complete = true
      ∧ p.size = 50
      ∧ at8 p.payload 25 = 18
      ∧ p.payload ≠ List.range 50 := by
  have hF : (send info2 (twiprotocol.new 5) 2 50 (List.range 50) mem bus).frames
      = [(send_packet 5 2 2 (List.range 50) mem 0
            { bytes := 50, t_payload_cur := 0, pkt_id := 0, ret := 0, frames := [] }).1,
          (send_packet 5 2 2 (List.range 50) mem 1
            (send_body info2 5 2 2 (List.range 50) mem bus 0
              { bytes := 50, t_payload_cur := 0, pkt_id := 0, ret := 0, frames := [] })).1] := by
    rw [send_frames_eq]
    rfl
  rw [hF]
  generalize hs0 : ({ bytes := 50, t_payload_cur := 0, pkt_id := 0, ret := 0, frames := [] }
    : sendState) = s0
  have hb0 : s0.bytes = 50 := by rw [← hs0]
  have hc0 : s0.t_payload_cur = 0 := by rw [← hs0]
  generalize hs1 : send_body info2 5 2 2 (List.range 50) mem bus 0 s0 = s1
  have hb1 : s1.bytes = 25 := by
    rw [← hs1]
    show s0.bytes - t_this_pkt_len s0.bytes = 25
    rw [hb0]
    rfl
  have hc1 : s1.t_payload_cur = 18 := by
    rw [← hs1]
    show (send_packet 5 2 2 (List.range 50) mem 0 s0).2 = 18
    rw [send_packet_cur _ _ _ _ _ _ _ (by rw [hc0]; decide), hc0, hb0]
    rfl
  obtain ⟨_, a1, _, _, a6⟩ := send_packet_header 5 2 2 (List.range 50) mem 0 s0
  obtain ⟨_, b1, _, _, b6⟩ := send_packet_header 5 2 2 (List.range 50) mem 1 s1
  have aw := send_packet_wire 5 2 2 (List.range 50) mem 0 s0
  have bw := send_packet_wire 5 2 2 (List.range 50) mem 1 s1
  have b7 := send_packet_payload 5 2 2 (List.range 50) mem 1 s1 0 (by rw [hc1]; decide)
    (by rw [hb1]; decide)
  rw [hc1] at b7
  rw [hb0] at a6
  rw [hb1] at b6
  generalize (send_packet 5 2 2 (List.range 50) mem 0 s0).1 = f0 at *
  generalize (send_packet 5 2 2 (List.range 50) mem 1 s1).1 = f1 at *
  have a6' : at8 f0 6 = 25 := a6
  have b6' : at8 f1 6 = 25 := b6
  have a1' : at8 f0 1 = TWIP_SOF := a1
  have b1' : at8 f1 1 = TWIP_EOF := b1
  have b7' : at8 f1 7 = 18 := b7
  have hr0 : (rx_add (twiprotocol.new 1) f0 (f0.length : Int)).1 = true :=
    rx_add_accepts _ f0 _ [] (cb.holds_init _) rfl (by decide) (by rw [a6']; decide) aw
  obtain ⟨k0, k1, k2, _⟩ := rx_add_holds _ f0 _ [] (cb.holds_init _) rfl (by decide) hr0
  rw [List.nil_append] at k0
  have hr1 : (rx_add (rx_add (twiprotocol.new 1) f0 (f0.length : Int)).2 f1 (f1.length : Int)).1
      = true :=
    rx_add_accepts _ f1 _ _ k0 k2 (by rw [k1, stored_record_length, a6']; decide)
      (by rw [stored_record_length, a6', b6']; decide) bw
  have hacc : (rx_add_all (twiprotocol.new 1) [f0, f1]).2 = [true, true] := by
    rw [rx_add_all_two, hr0, hr1]
  obtain ⟨H, hsz, _⟩ := rx_add_all_holds [f0, f1] (twiprotocol.new 1) [] (cb.holds_init _) rfl rfl
    (by rw [hacc]; simp)
  rw [List.nil_append] at H
  obtain ⟨p, e, r, _, _, _, _, p1, _, _, _, _, p6, _, p8⟩ :=
    receive_holds _ [f0] f1 2 (Nat.le_refl 2) H (by omega)
      (by intro f hf; rw [List.mem_singleton.mp hf, a1']; rfl) (Or.inr (by rw [b1']; rfl))
  have hp : at8 p.payload 25 = 18 := by
    rw [p8]
    show at8 (fragment_payload f0 ++ (fragment_payload f1 ++ [])) 25 = 18
    have l0 : (fragment_payload f0).length = 25 := by unfold fragment_payload; simp [a6']
    rw [at8_append_right _ _ _ (by omega), l0, at8_append_left _ _ _ (by
      unfold fragment_payload; simp [b6'])]
    unfold fragment_payload
    rw [at8_map_range _ _ _ (by rw [b6']; decide)]
    exact b7'
  refine ⟨p, e, hacc, r, p1, ?_, hp, ?_⟩
  · rw [p6]
    simp [a6', b6']
  · intro he
    rw [he] at hp
    exact absurd hp (by decide)

/-- C2: a sequence of fragments that is a single `TWIP_NOF` fragment, or some
`TWIP_SOF` fragments followed by one `TWIP_EOF` fragment, handed in order to
`rx_add` of a freshly constructed engine and all accepted: one `receive` call
(with fuel for one loop iteration per fragment) returns `complete = true`, the
sender, opcode and id of the first fragment, `size` equal to the sum of the
payload lengths, flag `TWIP_EOF` when there are several fragments, the checksum
recomputed over the returned header fields, and the concatenation of the
fragments' payloads in arrival order; the ring buffer is empty afterwards. -/
theorem receive_reassembles (addr : Nat) (mids : List (List Nat)) (last : List Nat) (fuel : Nat)
    (hfuel : mids.length + 1 ≤ fuel)
    (hwf : ∀ f, f ∈ mids ++ [last] → TWIP_HEADER_SIZE + at8 f 6 ≤ f.length)
    (hmid : ∀ f, f ∈ mids → at8 f 1 = TWIP_SOF)
    (hlast : (mids = [] ∧ at8 last 1 = TWIP_NOF) ∨ (mids ≠ [] ∧ at8 last 1 = TWIP_EOF))
    (hacc : ∀ r, r ∈ (rx_add_all (twiprotocol.new addr) (mids ++ [last])).2 → r = true) :
    ∃ p e, receive fuel (rx_add_all (twiprotocol.new addr) (mids ++ [last])).1 = some (p, e)
      ∧ p.complete = true
      ∧ p.sender = at8 ((mids ++ [last]).headD []) 0
      ∧ p.opcode = at8 ((mids ++ [last]).headD []) 2
      ∧ p.id = at8 ((mids ++ [last]).headD []) 3
      ∧ p.size = ((mids ++ [last]).map (fun f => at8 f 6)).sum
      ∧ (mids ≠ [] → p.flag = TWIP_EOF)
      ∧ (mids = [] → p.flag = TWIP_NOF)
      ∧ p.checksum = checksum p.sender p.flag p.opcode p.id p.size
      ∧ p.payload = (mids ++ [last]).flatMap (fun f => (f.drop TWIP_HEADER_SIZE).take (at8 f 6))
      ∧ e.rx_buffer.empty = true := by
  obtain ⟨H, hsz, _⟩ := rx_add_all_holds (mids ++ [last]) (twiprotocol.new addr) []
    (cb.holds_init _) rfl rfl hacc
  rw [List.nil_append] at H
  have hmid' : ∀ f, f ∈ mids → flag_decode TWIP_FLAG_NFO (at8 f 1) = TWIP_SOF := by
    intro f hf
    rw [hmid f hf]
    rfl
  have hlast' : flag_decode TWIP_FLAG_NFO (at8 last 1) = TWIP_NOF
      ∨ flag_decode TWIP_FLAG_NFO (at8 last 1) = TWIP_EOF := by
    rcases hlast with ⟨_, h⟩ | ⟨_, h⟩
    · left; rw [h]; rfl
    · right; rw [h]; rfl
  obtain ⟨p, e, r, e1, _, _, _, p1, p2, p3, p4, p5, p6, p7, p8⟩ :=
    receive_holds _ mids last fuel hfuel H (by omega) hmid' hlast'
  refine ⟨p, e, r, p1, p2, p3, p4, p6, ?_, ?_, p7, ?_, (cb.holds_empty _ _ e1).mpr rfl⟩
  · intro hne
    rcases hlast with ⟨h, _⟩ | ⟨_, h⟩
    · exact absurd h hne
    · rw [p5, h]; rfl
  · intro he
    rcases hlast with ⟨_, h⟩ | ⟨h, _⟩
    · subst he
      rw [p5, h]
      exact h
    · exact absurd he h
  · rw [p8, flatMap_payload_eq _ hwf]

theorem receive_reassembles_witness :
    ∃ p e, receive 2 (rx_add_all (twiprotocol.new 1)
        ([[5, 1, 2, 9, 247, 244, 2, 17, 34, 0, 0, 0]] ++ [[5, 3, 2, 9, 246, 244, 1, 51]])).1
          = some (p, e)
      ∧ p.complete = true
      ∧ p.sender = at8 (([[5, 1, 2, 9, 247, 244, 2, 17, 34, 0, 0, 0]]
          ++ [[5, 3, 2, 9, 246, 244, 1, 51]]).headD []) 0
      ∧ p.opcode = at8 (([[5, 1, 2, 9, 247, 244, 2, 17, 34, 0, 0, 0]]
          ++ [[5, 3, 2, 9, 246, 244, 1, 51]]).headD []) 2
      ∧ p.id = at8 (([[5, 1, 2, 9, 247, 244, 2, 17, 34, 0, 0, 0]]
          ++ [[5, 3, 2, 9, 246, 244, 1, 51]]).headD []) 3
      ∧ p.size = (([[5, 1, 2, 9, 247, 244, 2, 17, 34, 0, 0, 0]]
          ++ [[5, 3, 2, 9, 246, 244, 1, 51]]).map (fun f => at8 f 6)).sum
      ∧ ([[5, 1, 2, 9, 247, 244, 2, 17, 34, 0, 0, 0]] ≠ [] → p.flag = TWIP_EOF)
      ∧ ([[5, 1, 2, 9, 247, 244, 2, 17, 34, 0, 0, 0]] = [] → p.flag = TWIP_NOF)
      ∧ p.checksum = checksum p.sender p.flag p.opcode p.id p.size
      ∧ p.payload = ([[5, 1, 2, 9, 247, 244, 2, 17, 34, 0, 0, 0]]
          ++ [[5, 3, 2, 9, 246, 244, 1, 51]]).flatMap
            (fun f => (f.drop TWIP_HEADER_SIZE).take (at8 f 6))
      ∧ e.rx_buffer.empty = true :=
  receive_reassembles 1 [[5, 1, 2, 9, 247, 244, 2, 17, 34, 0, 0, 0]]
    [5, 3, 2, 9, 246, 244, 1, 51] 2 (by decide) (by decide) (by decide) (by decide)
    (by decide)

/-- C3: for all header bytes, `checksum` is the bitwise complement, taken in 16
bits, of `((sender*256 + opcode) + ((flag + len)*256 + id)) mod 2^16`; the
complement is given both as exclusive-or with `0xFFFF` and as `65535 - x`. -/
theorem checksum_complement16 (sender flag opcode id len : Nat) :
    checksum sender flag opcode id len
        = (((sender * 256 + opcode) + ((flag + len) * 256 + id)) % 65536) ^^^ 0xFFFF
    ∧ checksum sender flag opcode id len
        = 65535 - ((sender * 256 + opcode) + ((flag + len) * 256 + id)) % 65536 := by
  refine ⟨?_, checksum_eq sender flag opcode id len⟩
  rw [checksum_eq, xor_ffff _ (Nat.mod_lt _ (by decide))]

/-- C4: when the seven header bytes of a fragment carry a matching checksum,
replacing any one of them by a different byte value makes `rx_add` return false
and leave the engine, hence the ring buffer, as it was. -/
theorem rx_add_corrupt_header (self : twiprotocol) (data : List Nat) (bytes : Int) (i v : Nat)
    (hlen : 7 ≤ data.length) (hbyte : ∀ k, k < 7 → at8 data k < 256)
    (hsum : uint16 (int16 (int16 ((at8 data 4 <<< 8 : Nat) : Int) + (at8 data 5 : Int)))
      = checksum (at8 data 0) (at8 data 1) (at8 data 2) (at8 data 3) (at8 data 6))
    (hi : i < 7) (hv : v < 256) (hne : v ≠ at8 data i) :
    rx_add self (data.set i v) bytes = (false, self) := by
  have h0 := hbyte 0 (by decide)
  have h1 := hbyte 1 (by decide)
  have h2 := hbyte 2 (by decide)
  have h3 := hbyte 3 (by decide)
  have h4 := hbyte 4 (by decide)
  have h5 := hbyte 5 (by decide)
  have h6 := hbyte 6 (by decide)
  rw [wire_checksum_eq, checksum_eq] at hsum
  have hbad : uint16 (int16 (int16 ((at8 (data.set i v) 4 <<< 8 : Nat) : Int)
        + (at8 (data.set i v) 5 : Int)))
      ≠ checksum (at8 (data.set i v) 0) (at8 (data.set i v) 1) (at8 (data.set i v) 2)
          (at8 (data.set i v) 3) (at8 (data.set i v) 6) := by
    rw [wire_checksum_eq, checksum_eq]
    simp only [at8_set]
    have hil : i < data.length := by omega
    interval_cases i <;> simp [hil] <;> omega
  unfold rx_add
  rw [if_pos (Or.inr (Or.inr hbad))]

theorem rx_add_corrupt_header_witness :
    rx_add (twiprotocol.new 1) ([5, 0, 2, 9, 250, 244, 0, 0].set 2 3) 8
      = (false, twiprotocol.new 1) :=
  rx_add_corrupt_header (twiprotocol.new 1) [5, 0, 2, 9, 250, 244, 0, 0] 8 2 3
    (by decide) (by decide) (by decide) (by decide) (by decide) (by decide)

/-- C5: a valid 12-byte fragment handed to `rx_add` of a fresh engine is
accepted and stored whatever byte count comes with it, in particular with a
byte count of 4, below the aligned header size 8: the call returns true and
twelve bytes (length prefix, header, payload) enter the ring buffer. -/
theorem rx_add_short_accepted (bytes : Int) :
    (rx_add (twiprotocol.new 1) [5, 0, 2, 9, 246, 244, 4, 1, 2, 3, 4, 0] bytes).1 = true
    ∧ (rx_add (twiprotocol.new 1) [5, 0, 2, 9, 246, 244, 4, 1, 2, 3, 4, 0] bytes).2.rx_buffer.cb_end
        = 12
    ∧ cb.contents 255
        (rx_add (twiprotocol.new 1) [5, 0, 2, 9, 246, 244, 4, 1, 2, 3, 4, 0] bytes).2.rx_buffer
        = [11, 5, 0, 2, 9, 246, 244, 4, 1, 2, 3, 4]
    ∧ (rx_add (twiprotocol.new 1) [5, 0, 2, 9, 246, 244, 4, 1, 2, 3, 4, 0] 4).2.rx_buffer
        ≠ (twiprotocol.new 1).rx_buffer := by
  rw [rx_add_eq]
  decide

/-- C6: a reachable state in which `rx_add` returns true without storing
anything.  In `engine_full_wrapped` every `rx_add` and the `receive` on the way
succeeded, 254 bytes are stored and the write cursor has wrapped to 7 behind
the read cursor at 8.  There `available()` yields 255 although no slot is free,
`rx_add` of one more valid frame returns true, and the engine, hence the stored
content, is unchanged. -/
theorem rx_add_true_when_full :
    (rx_add (twiprotocol.new 1) [5, 0, 2, 0, 250, 253, 0, 0] 8).1 = true
    ∧ (receive 1 (rx_add (twiprotocol.new 1) [5, 0, 2, 0, 250, 253, 0, 0] 8).2).isSome = true
    ∧ (rx_add_all (receive_engine 1 (rx_add (twiprotocol.new 1) [5, 0, 2, 0, 250, 253, 0, 0] 8).2)
        (List.replicate 7 ([5, 0, 2, 1, 225, 252, 25] ++ List.replicate 25 0xAA)
          ++ [[5, 0, 2, 1, 235, 252, 15] ++ List.replicate 15 0xAA ++ [0, 0]])).2
        = List.replicate 8 true
    ∧ engine_full_wrapped.rx_buffer.cb_start = 8
    ∧ engine_full_wrapped.rx_buffer.cb_end = 7
    ∧ (cb.contents 255 engine_full_wrapped.rx_buffer).length = 254
    ∧ engine_full_wrapped.rx_buffer.available = 255
    ∧ rx_add engine_full_wrapped [5, 0, 2, 2, 250, 251, 0, 0] 8 = (true, engine_full_wrapped)
    ∧ cb.contents 255 (rx_add engine_full_wrapped [5, 0, 2, 2, 250, 251, 0, 0] 8).2.rx_buffer
        = cb.contents 255 engine_full_wrapped.rx_buffer := by
  decide

/-- C7: in the default build (no `__INFO2____`) `send` returns the raw status
of the last `twi_writeTo`, so it returns non-zero exactly when that status is
not 0 (OK): 0 (false) when the transmission succeeds, 2 (true) on an address
NACK; in the debug build a status 1 (length too long) of the last transmission
is returned as 1 (true). -/
theorem send_ret_inverted (self : twiprotocol) (opcode bytes : Nat) (payload : List Nat)
    (mem : Nat → Nat → Nat) (bus : Nat → Nat) :
    (send false self opcode bytes payload mem bus).ret = bus (send_packets bytes - 1) % 256
    ∧ (send false (twiprotocol.new 5) 2 3 [1, 2, 3] (fun _ _ => 0) (fun _ => 0)).ret = 0
    ∧ (send false (twiprotocol.new 5) 2 3 [1, 2, 3] (fun _ _ => 0) (fun _ => 2)).ret = 2
    ∧ (send true (twiprotocol.new 5) 2 3 [1, 2, 3] (fun _ _ => 0) (fun _ => 1)).ret = 1 := by
  refine ⟨?_, by decide, by decide, by decide⟩
  obtain ⟨n, hn⟩ : ∃ n, send_packets bytes = n + 1 :=
    ⟨send_packets bytes - 1, by have := send_packets_pos bytes; omega⟩
  unfold send
  simp only [hn, send_loop_ret]
  simp

/-- C8: for a payload length `n` in 0..255 the number of frames `send` hands to
the bus is `ceil(n / 25)` when `n > 0` (the least `k` with `n <= 25 * k`) and
exactly 1 when `n = 0`. -/
theorem send_frame_count (info2 : Bool) (self : twiprotocol) (opcode n : Nat)
    (payload : List Nat) (mem : Nat → Nat → Nat) (bus : Nat → Nat) (hn : n ≤ 255) :
    TWI_BUFFER_LENGTH - TWIP_HEADER_SIZE = 25
    ∧ (n = 0 → (send info2 self opcode n payload mem bus).frames.length = 1)
    ∧ (0 < n →
        (send info2 self opcode n payload mem bus).frames.length = (n + 24) / 25
        ∧ n ≤ 25 * (send info2 self opcode n payload mem bus).frames.length
        ∧ 25 * ((send info2 self opcode n payload mem bus).frames.length - 1) < n) := by
  rw [send_frames_length, send_packets_eq n hn]
  refine ⟨rfl, ?_, ?_⟩
  · intro h; rw [if_pos h]
  · intro h
    rw [if_neg (by omega)]
    omega

theorem send_frame_count_witness :
    TWI_BUFFER_LENGTH - TWIP_HEADER_SIZE = 25
    ∧ (250 = 0 → (send false (twiprotocol.new 5) 2 250 (List.replicate 250 0xAA)
        (fun _ _ => 0) (fun _ => 0)).frames.length = 1)
    ∧ (0 < 250 →
        (send false (twiprotocol.new 5) 2 250 (List.replicate 250 0xAA)
          (fun _ _ => 0) (fun _ => 0)).frames.length = (250 + 24) / 25
        ∧ 250 ≤ 25 * (send false (twiprotocol.new 5) 2 250 (List.replicate 250 0xAA)
          (fun _ _ => 0) (fun _ => 0)).frames.length
        ∧ 25 * ((send false (twiprotocol.new 5) 2 250 (List.replicate 250 0xAA)
          (fun _ _ => 0) (fun _ => 0)).frames.length - 1) < 250) :=
  send_frame_count false (twiprotocol.new 5) 2 250 (List.replicate 250 0xAA)
    (fun _ _ => 0) (fun _ => 0) (by decide)

/-- C9: a `send` call that emits exactly one frame flags it `TWIP_NOF` (0x00);
a call that emits `k > 1` frames flags frames `0..k-2` `TWIP_SOF` (0x01) and
frame `k-1` `TWIP_EOF` (0x03), and no other frame carries `TWIP_EOF`. -/
theorem send_flags (info2 : Bool) (self : twiprotocol) (opcode bytes : Nat)
    (payload : List Nat) (mem : Nat → Nat → Nat) (bus : Nat → Nat) :
    ((send info2 self opcode bytes payload mem bus).frames.length = 1 →
      at8 ((send info2 self opcode bytes payload mem bus).frames.getD 0 []) 1 = TWIP_NOF)
    ∧ (1 < (send info2 self opcode bytes payload mem bus).frames.length →
      (∀ m, m + 1 < (send info2 self opcode bytes payload mem bus).frames.length →
        at8 ((send info2 self opcode bytes payload mem bus).frames.getD m []) 1 = TWIP_SOF)
      ∧ at8 ((send info2 self opcode bytes payload mem bus).frames.getD
          ((send info2 self opcode bytes payload mem bus).frames.length - 1) []) 1 = TWIP_EOF
      ∧ ∀ m, m < (send info2 self opcode bytes payload mem bus).frames.length →
          at8 ((send info2 self opcode bytes payload mem bus).frames.getD m []) 1 = TWIP_EOF →
          m = (send info2 self opcode bytes payload mem bus).frames.length - 1) := by
  rw [send_frames_length]
  have key : ∀ m, m < send_packets bytes →
      at8 ((send info2 self opcode bytes payload mem bus).frames.getD m []) 1
        = send_flag (send_packets bytes) m := by
    intro m hm
    rw [send_frames_getD _ _ _ _ _ _ _ _ hm]
    exact (send_packet_header _ _ _ _ _ _ _).2.1
  refine ⟨?_, ?_⟩
  · intro h1
    rw [key 0 (by omega), h1]
    rfl
  · intro hk
    refine ⟨?_, ?_, ?_⟩
    · intro m hm
      rw [key m (by omega)]
      unfold send_flag
      rw [if_neg (by omega), if_neg (by omega)]
    · rw [key _ (by omega)]
      unfold send_flag
      rw [if_pos ⟨hk, rfl⟩]
    · intro m hm he
      rw [key m hm] at he
      unfold send_flag at he
      by_contra hne
      rw [if_neg (by omega), if_neg (by omega)] at he
      exact absurd he (by decide)

/-- C10: every frame emitted by a `send` call carries in its id byte the value
`pkt_id` had before the call, and after the call `pkt_id` is that value plus
one modulo 256, whatever the payload length and the bus statuses. -/
theorem send_pkt_id (info2 : Bool) (self : twiprotocol) (opcode bytes : Nat)
    (payload : List Nat) (mem : Nat → Nat → Nat) (bus : Nat → Nat) :
    (∀ m, m < (send info2 self opcode bytes payload mem bus).frames.length →
      at8 ((send info2 self opcode bytes payload mem bus).frames.getD m []) 3 = self.pkt_id)
    ∧ (send info2 self opcode bytes payload mem bus).self.pkt_id = (self.pkt_id + 1) % 256 := by
  have hpos := send_packets_pos bytes
  by_cases h2 : send_packets bytes < 2
  · have h1 : send_packets bytes = 1 := by omega
    refine ⟨?_, ?_⟩
    · intro m hm
      rw [send_frames_length] at hm
      rw [send_frames_getD _ _ _ _ _ _ _ _ hm]
      rw [(send_packet_header _ _ _ _ _ _ _).2.2.2.1]
      have hm0 : m = 0 := by omega
      subst hm0
      rfl
    · unfold send
      simp only [h1]
      rfl
  · refine ⟨?_, ?_⟩
    · intro m hm
      rw [send_frames_length] at hm
      rw [send_frames_getD _ _ _ _ _ _ _ _ hm]
      rw [(send_packet_header _ _ _ _ _ _ _).2.2.2.1, send_loop_pkt_id _ _ _ _ _ _ _ _ _ _ h2]
    · unfold send
      simp only []
      rw [if_pos (by omega), send_loop_pkt_id _ _ _ _ _ _ _ _ _ _ h2]

/-- C11: a fresh engine has accepted one `TWIP_SOF` fragment with TTL 0 and
nothing else arrives.  For `k` in 1..15 the `k`-th `receive` call returns
`complete = false` and leaves in the buffer exactly one record, with the
sender, opcode, id and payload of the fragment and the flag `16 * k + TWIP_SOF`
(TTL `k`, fragmentation bits `TWIP_SOF`); the 16th call returns
`complete = false` and leaves the buffer empty; every later call finds the
buffer empty and returns `complete = false`. -/
theorem receive_ttl_aging (addr : Nat) (A : List Nat) (fuel : Nat) (hfuel : 1 ≤ fuel)
    (hwf : TWIP_HEADER_SIZE + at8 A 6 ≤ A.length)
    (hflag : at8 A 1 = TWIP_SOF)
    (hacc : (rx_add (twiprotocol.new addr) A (A.length : Int)).1 = true) :
    (∀ k, 1 ≤ k → k ≤ 15 →
      ∃ p hi lo,
        receive fuel
            ((receive_engine fuel)^[k - 1] (rx_add (twiprotocol.new addr) A (A.length : Int)).2)
          = some (p,
              (receive_engine fuel)^[k] (rx_add (twiprotocol.new addr) A (A.length : Int)).2)
        ∧ p.complete = false
        ∧ cb.contents 255
            ((receive_engine fuel)^[k]
              (rx_add (twiprotocol.new addr) A (A.length : Int)).2).rx_buffer
            = [TWIP_HEADER_SIZE + at8 A 6, at8 A 0, 16 * k + TWIP_SOF, at8 A 2, at8 A 3,
                hi, lo, at8 A 6] ++ (A.drop TWIP_HEADER_SIZE).take (at8 A 6)
        ∧ flag_decode TWIP_FLAG_TTL (16 * k + TWIP_SOF) = k
        ∧ flag_decode TWIP_FLAG_NFO (16 * k + TWIP_SOF) = TWIP_SOF)
    ∧ (∃ p,
        receive fuel
            ((receive_engine fuel)^[15] (rx_add (twiprotocol.new addr) A (A.length : Int)).2)
          = some (p,
              (receive_engine fuel)^[16] (rx_add (twiprotocol.new addr) A (A.length : Int)).2)
        ∧ p.complete = false
        ∧ ((receive_engine fuel)^[16]
            (rx_add (twiprotocol.new addr) A (A.length : Int)).2).rx_buffer.empty = true)
    ∧ (∀ k, 16 ≤ k →
      ∃ p,
        ((receive_engine fuel)^[k]
          (rx_add (twiprotocol.new addr) A (A.length : Int)).2).rx_buffer.empty = true
        ∧ receive fuel
            ((receive_engine fuel)^[k] (rx_add (twiprotocol.new addr) A (A.length : Int)).2)
          = some (p,
              (receive_engine fuel)^[k + 1]
                (rx_add (twiprotocol.new addr) A (A.length : Int)).2)
        ∧ p.complete = false) := by
  obtain ⟨H, _, hsz, hfit, _⟩ := rx_add_holds (twiprotocol.new addr) A (A.length : Int) []
    (cb.holds_init _) rfl (by show (0 : Nat) + 0 < 255; decide) hacc
  rw [List.nil_append] at H
  simp only [List.length_nil, Nat.zero_add] at hfit
  have hla : at8 A 6 ≤ 246 := by omega
  have hP : (fragment_payload A).length = at8 A 6 := by
    unfold fragment_payload; simp
  have h0 : holds_aged (at8 A 0) (at8 A 2) (at8 A 3) (at8 A 6) (fragment_payload A) 0
      (rx_add (twiprotocol.new addr) A (A.length : Int)).2 :=
    ⟨A, H, hsz, rfl, hflag.trans (by decide), rfl, rfl, rfl, rfl⟩
  generalize (rx_add (twiprotocol.new addr) A (A.length : Int)).2 = e0 at h0 ⊢
  have hit := receive_aged_iterate _ _ _ _ _ e0 fuel hfuel hP h0
  refine ⟨?_, ?_, ?_⟩
  · intro k hk1 hk15
    obtain ⟨j, rfl⟩ : ∃ j, k = j + 1 := ⟨k - 1, by omega⟩
    obtain ⟨p, r, pc, _⟩ := receive_aged_step _ _ _ _ _ j _ fuel hfuel (by omega) hP
      (hit j (by omega))
    obtain ⟨hi, lo, hc⟩ := holds_aged_contents _ _ _ _ _ (j + 1) _ hla (hit (j + 1) hk15)
    obtain ⟨d1, d2⟩ := flag_decode_aged (j + 1) hk15
    refine ⟨p, hi, lo, ?_, pc, ?_, d1, d2⟩
    · have ej : (receive_engine fuel)^[j + 1] e0
          = receive_engine fuel ((receive_engine fuel)^[j] e0) :=
        Function.iterate_succ_apply' _ j _
      rw [Nat.add_sub_cancel, ej]
      exact r
    · rw [hc, fragment_payload_eq A hwf]
  · obtain ⟨p, r, pc, he⟩ := receive_aged_drop _ _ _ _ _ _ fuel hfuel (hit 15 (Nat.le_refl 15))
    have e16 : (receive_engine fuel)^[16] e0
        = receive_engine fuel ((receive_engine fuel)^[15] e0) :=
      Function.iterate_succ_apply' _ 15 _
    rw [e16]
    exact ⟨p, r, pc, he⟩
  · intro k hk
    have he := receive_aged_later _ _ _ _ _ e0 fuel hfuel hP h0 k hk
    obtain ⟨r1, r2⟩ := receive_empty fuel _ he
    have ek : (receive_engine fuel)^[k + 1] e0
        = receive_engine fuel ((receive_engine fuel)^[k] e0) :=
      Function.iterate_succ_apply' _ k _
    rw [ek, r2]
    exact ⟨twippacket.blank, he, r1, rfl⟩

theorem receive_ttl_aging_witness :
    (∀ k, 1 ≤ k → k ≤ 15 →
      ∃ p hi lo,
        receive 1
            ((receive_engine 1)^[k - 1] (rx_add (twiprotocol.new 1)
              [5, 1, 2, 9, 247, 244, 2, 17, 34, 0, 0, 0]
              (([5, 1, 2, 9, 247, 244, 2, 17, 34, 0, 0, 0] : List Nat).length : Int)).2)
          = some (p,
              (receive_engine 1)^[k] (rx_add (twiprotocol.new 1)
                [5, 1, 2, 9, 247, 244, 2, 17, 34, 0, 0, 0]
                (([5, 1, 2, 9, 247, 244, 2, 17, 34, 0, 0, 0] : List Nat).length : Int)).2)
        ∧ p.complete = false
        ∧ cb.contents 255
            ((receive_engine 1)^[k]
              (rx_add (twiprotocol.new 1) [5, 1, 2, 9, 247, 244, 2, 17, 34, 0, 0, 0]
                (([5, 1, 2, 9, 247, 244, 2, 17, 34, 0, 0, 0] : List Nat).length : Int)).2).rx_buffer
            = [TWIP_HEADER_SIZE + at8 [5, 1, 2, 9, 247, 244, 2, 17, 34, 0, 0, 0] 6,
                at8 [5, 1, 2, 9, 247, 244, 2, 17, 34, 0, 0, 0] 0, 16 * k + TWIP_SOF,
                at8 [5, 1, 2, 9, 247, 244, 2, 17, 34, 0, 0, 0] 2,
                at8 [5, 1, 2, 9, 247, 244, 2, 17, 34, 0, 0, 0] 3,
                hi, lo, at8 [5, 1, 2, 9, 247, 244, 2, 17, 34, 0, 0, 0] 6]
              ++ (([5, 1, 2, 9, 247, 244, 2, 17, 34, 0, 0, 0] : List Nat).drop
                TWIP_HEADER_SIZE).take (at8 [5, 1, 2, 9, 247, 244, 2, 17, 34, 0, 0, 0] 6)
        ∧ flag_decode TWIP_FLAG_TTL (16 * k + TWIP_SOF) = k
        ∧ flag_decode TWIP_FLAG_NFO (16 * k + TWIP_SOF) = TWIP_SOF)
    ∧ (∃ p,
        receive 1
            ((receive_engine 1)^[15] (rx_add (twiprotocol.new 1)
              [5, 1, 2, 9, 247, 244, 2, 17, 34, 0, 0, 0]
              (([5, 1, 2, 9, 247, 244, 2, 17, 34, 0, 0, 0] : List Nat).length : Int)).2)
          = some (p,
              (receive_engine 1)^[16] (rx_add (twiprotocol.new 1)
                [5, 1, 2, 9, 247, 244, 2, 17, 34, 0, 0, 0]
                (([5, 1, 2, 9, 247, 244, 2, 17, 34, 0, 0, 0] : List Nat).length : Int)).2)
        ∧ p.complete = false
        ∧ ((receive_engine 1)^[16]
            (rx_add (twiprotocol.new 1) [5, 1, 2, 9, 247, 244, 2, 17, 34, 0, 0, 0]
              (([5, 1, 2, 9, 247, 244, 2, 17, 34, 0, 0, 0] : List Nat).length : Int)).2).rx_buffer.empty
            = true)
    ∧ (∀ k, 16 ≤ k →
      ∃ p,
        ((receive_engine 1)^[k]
          (rx_add (twiprotocol.new 1) [5, 1, 2, 9, 247, 244, 2, 17, 34, 0, 0, 0]
            (([5, 1, 2, 9, 247, 244, 2, 17, 34, 0, 0, 0] : List Nat).length : Int)).2).rx_buffer.empty
          = true
        ∧ receive 1
            ((receive_engine 1)^[k] (rx_add (twiprotocol.new 1)
              [5, 1, 2, 9, 247, 244, 2, 17, 34, 0, 0, 0]
              (([5, 1, 2, 9, 247, 244, 2, 17, 34, 0, 0, 0] : List Nat).length : Int)).2)
          = some (p,
              (receive_engine 1)^[k + 1]
                (rx_add (twiprotocol.new 1) [5, 1, 2, 9, 247, 244, 2, 17, 34, 0, 0, 0]
                  (([5, 1, 2, 9, 247, 244, 2, 17, 34, 0, 0, 0] : List Nat).length : Int)).2)
        ∧ p.complete = false) :=
  receive_ttl_aging 1 [5, 1, 2, 9, 247, 244, 2, 17, 34, 0, 0, 0] 1 (by decide) (by decide)
    (by decide) (by decide)

/-- C12: a `TWIP_SOF` fragment with 246 payload bytes is accepted by a fresh
engine; `receive` returns `complete = false` and writes it back, which fills
the buffer (254 bytes, read cursor 254, write cursor 253); `rx_add` of a valid
`TWIP_EOF` fragment then returns true but leaves the engine unchanged, and the
next `receive` returns `complete = false` with `size = 246`. -/
theorem requeue_then_end_lost :
    (rx_add (twiprotocol.new 1) ([5, 1, 2, 9, 3, 244, 246] ++ List.replicate 246 0xAA) 253).1
        = true
    ∧ (receive 1
        (rx_add (twiprotocol.new 1) ([5, 1, 2, 9, 3, 244, 246] ++ List.replicate 246 0xAA)
          253).2).map (fun r => r.1.complete) = some false
    ∧ engine_requeued_full.rx_buffer.cb_start = 254
    ∧ engine_requeued_full.rx_buffer.cb_end = 253
    ∧ (cb.contents 255 engine_requeued_full.rx_buffer).length = 254
    ∧ engine_requeued_full.rx_buffer.available = 255
    ∧ rx_add engine_requeued_full [5, 3, 2, 9, 247, 244, 0, 0] 8 = (true, engine_requeued_full)
    ∧ (receive 2 engine_requeued_full).map (fun r => (r.1.complete, r.1.size))
        = some (false, 246) := by
  decide

/-- C13 (amended): when the ten fragments of the example (sender 5, opcode 2,
one shared id, 25 payload bytes `0xAA` each, matching checksums, nine flagged
`TWIP_SOF` and the last `TWIP_EOF`) are passed in order to `rx_add` of a
freshly constructed engine, the first seven are accepted and the last three
are rejected (the buffer of 254 bytes has room for seven records of 33 bytes);
the following `receive` call, with fuel for seven loop iterations, returns
sender 5, opcode 2, the shared id, `size = 175`, `complete = false` and a
payload block cut back to one byte, and writes the 175 bytes received so far
back into the buffer as one record with TTL 1. -/
theorem example_partially_ingested (addr id fuel : Nat) (hfuel : 7 ≤ fuel) :
    (rx_add_all (twiprotocol.new addr) (example_fragments id)).2
        = List.replicate 7 true ++ List.replicate 3 false
    ∧ ∃ p e, receive fuel (rx_add_all (twiprotocol.new addr) (example_fragments id)).1
          = some (p, e)
        ∧ p.sender = 5 ∧ p.opcode = 2 ∧ p.id = id ∧ p.size = 175 ∧ p.complete = false
        ∧ p.payload = [0xAA]
        ∧ cb.contents 255 e.rx_buffer
            = [182, 5, 17, 2, id, (checksum 5 TWIP_SOF 2 id 175 >>> 8) % 256,
                checksum 5 TWIP_SOF 2 id 175 % 256, 175] ++ List.replicate 175 0xAA := by
  have hacc := rx_add_all_accepts
    (List.replicate 6 (example_fragment TWIP_SOF id) ++ [example_fragment TWIP_SOF id])
    (twiprotocol.new addr) [] (cb.holds_init _) rfl rfl
    (by rw [flatMap_record_length]; simp [example_fragment, at8])
    (by
      intro f hf
      have : f = example_fragment TWIP_SOF id := by
        rcases List.mem_append.mp hf with h | h
        · exact List.eq_of_mem_replicate h
        · exact List.mem_singleton.mp h
      rw [this]
      exact example_fragment_wire _ _)
  obtain ⟨H, hsz, hst, _⟩ := rx_add_all_holds
    (List.replicate 6 (example_fragment TWIP_SOF id) ++ [example_fragment TWIP_SOF id])
    (twiprotocol.new addr) [] (cb.holds_init _) rfl rfl
    (by rw [hacc]; intro r hr; exact List.eq_of_mem_replicate hr)
  rw [List.nil_append] at H
  have hlen : ((List.replicate 6 (example_fragment TWIP_SOF id)
      ++ [example_fragment TWIP_SOF id]).flatMap stored_record).length = 231 := by
    rw [flatMap_record_length]
    simp [example_fragment, at8]
  have hrej := rx_add_all_rejects
    [example_fragment TWIP_SOF id, example_fragment TWIP_SOF id, example_fragment TWIP_EOF id]
    _ _ H hsz (by rw [hst, hlen]; decide)
    (by
      intro f hf
      rw [hlen]
      have h6 : at8 f 6 = 25 := by
        simp only [List.mem_cons, List.mem_singleton, List.not_mem_nil, or_false] at hf
        rcases hf with h | h | h <;> rw [h] <;> rfl
      rw [h6]
      decide)
  rw [example_fragments_split, rx_add_all_append, hrej, hacc]
  dsimp only
  refine ⟨rfl, ?_⟩
  obtain ⟨p, e, r, _, _, _, pc, ps, pf, po, pi, pz, _, pp, hre, _⟩ :=
    receive_incomplete _ (List.replicate 6 (example_fragment TWIP_SOF id))
      (example_fragment TWIP_SOF id) fuel (by simpa using hfuel) H hsz
      (by
        intro f hf
        rw [List.eq_of_mem_replicate hf]
        exact flag_decode_nfo_sof)
      flag_decode_nfo_sof
  have hT : ((List.replicate 6 (example_fragment TWIP_SOF id)
      ++ [example_fragment TWIP_SOF id]).map (fun f => at8 f 6)).sum = 175 := by
    simp [example_fragment, at8]
  have hPay : (List.replicate 6 (example_fragment TWIP_SOF id)
      ++ [example_fragment TWIP_SOF id]).flatMap fragment_payload
        = List.replicate 175 0xAA := by
    have e6 : List.replicate 6 (example_fragment TWIP_SOF id)
        = [example_fragment TWIP_SOF id, example_fragment TWIP_SOF id,
            example_fragment TWIP_SOF id, example_fragment TWIP_SOF id,
            example_fragment TWIP_SOF id, example_fragment TWIP_SOF id] := rfl
    rw [e6]
    simp only [List.cons_append, List.nil_append, List.flatMap_cons, List.flatMap_nil,
      example_fragment_payload]
    decide
  have hhead : (List.replicate 6 (example_fragment TWIP_SOF id)
      ++ [example_fragment TWIP_SOF id]).headD [] = example_fragment TWIP_SOF id := rfl
  rw [hhead, hT, hPay] at hre
  rw [hhead] at ps po pi
  have hq : e.rx_buffer.Holds (stored_record
      (requeue_frame 5 TWIP_SOF 2 id 175 (List.replicate 175 0xAA))) :=
    hre (show flag_decode TWIP_FLAG_TTL TWIP_SOF < TWIP_MAX_TTL by decide)
  have hpl : (List.replicate 175 0xAA : List Nat).length = 175 := List.length_replicate _ _
  have e1 : (175 + TWIP_HEADER_SIZE) % 256 = 182 := by decide
  have e2 : ((((flag_decode TWIP_FLAG_TTL TWIP_SOF + 1) % 256) <<< 4)
      + flag_decode TWIP_FLAG_NFO TWIP_SOF) % 256 = 17 := by decide
  have ps' : p.sender = 5 := ps
  have po' : p.opcode = 2 := po
  have pi' : p.id = id := pi
  have hr1 : realloc (List.replicate 175 0xAA) 1 = [0xAA] := by
    unfold realloc
    decide
  have pp' : p.payload = [0xAA] := by rw [pp, hPay, hr1]
  refine ⟨p, e, r, ps', po', pi', by rw [pz, hT], pc, pp', ?_⟩
  rw [cb.holds_contents _ _ 255 hq (by rw [stored_record_length]; show 8 + 175 ≤ 255; decide),
    requeue_record_eq _ _ _ _ _ _ hpl (by decide), e1, e2]

theorem example_partially_ingested_witness :
    (rx_add_all (twiprotocol.new 1) (example_fragments 0)).2
        = List.replicate 7 true ++ List.replicate 3 false
    ∧ ∃ p e, receive 7 (rx_add_all (twiprotocol.new 1) (example_fragments 0)).1
          = some (p, e)
        ∧ p.sender = 5 ∧ p.opcode = 2 ∧ p.id = 0 ∧ p.size = 175 ∧ p.complete = false
        ∧ p.payload = [0xAA]
        ∧ cb.contents 255 e.rx_buffer
            = [182, 5, 17, 2, 0, (checksum 5 TWIP_SOF 2 0 175 >>> 8) % 256,
                checksum 5 TWIP_SOF 2 0 175 % 256, 175] ++ List.replicate 175 0xAA :=
  example_partially_ingested 1 0 7 (by decide)

/-- C13 (counterexample): with shared id 0 the ten fragments of the example are
not all accepted by a freshly constructed engine, and the following `receive`
call (fuel for ten loop iterations) returns `size = 175` and
`complete = false`; it does not return `size = 250`, `complete = true` and a
payload of 250 bytes `0xAA`. -/
theorem example_not_reassembled :
    (rx_add_all (twiprotocol.new 1) (example_fragments 0)).2
        = [true, true, true, true, true, true, true, false, false, false]
    ∧ (receive 10 (rx_add_all (twiprotocol.new 1) (example_fragments 0)).1).map
          (fun r => (r.1.sender, r.1.opcode, r.1.size, r.1.complete, r.1.payload))
        = some (5, 2, 175, false, [0xAA])
    ∧ ¬ (∃ p e, receive 10 (rx_add_all (twiprotocol.new 1) (example_fragments 0)).1
          = some (p, e)
        ∧ p.sender = 5 ∧ p.opcode = 2 ∧ p.size = 250 ∧ p.complete = true
        ∧ p.payload = List.replicate 250 0xAA) := by
  have h2 : (receive 10 (rx_add_all (twiprotocol.new 1) (example_fragments 0)).1).map
          (fun r => (r.1.sender, r.1.opcode, r.1.size, r.1.complete, r.1.payload))
        = some (5, 2, 175, false, [0xAA]) := by decide
  refine ⟨by decide, h2, ?_⟩
  rintro ⟨p, e, hr, _, _, hs, _⟩
  rw [hr] at h2
  simp only [Option.map_some', Option.some.injEq, Prod.mk.injEq] at h2
  rw [h2.2.2.1] at hs
  exact absurd hs (by decide)

/-- C14: in the reachable state `example_wrapped` (`init(3)`, four slots; two
bytes written and not yet read; read cursor 3, write cursor 1) `available()`
returns 5, whereas `slot_count - 1 - occupied_bytes` is 1. -/
theorem available_wrong_when_wrapped :
    cb.Reach 3 cb.example_wrapped [4, 5]
    ∧ cb.example_wrapped.cb_size = 4
    ∧ cb.example_wrapped.cb_start = 3
    ∧ cb.example_wrapped.cb_end = 1
    ∧ cb.contents 4 cb.example_wrapped = [4, 5]
    ∧ cb.example_wrapped.available = 5
    ∧ cb.example_wrapped.cb_size - 1 - (cb.contents 4 cb.example_wrapped).length = 1 := by
  refine ⟨cb.reach_example_wrapped, ?_⟩
  decide

/-- C15: the ring buffer is a FIFO wherever its cursors are: in every reachable
state with stored bytes `q`, the bytes of a list `bs` that fits into the free
capacity are all written successfully, and `|q| + |bs|` reads then return `q`
followed by `bs` and leave the buffer empty. -/
theorem fifo_any_cursor (c : Nat) (b : cb) (q bs : List Nat) (hr : cb.Reach c b q)
    (hfit : q.length + bs.length ≤ min c 254) :
    (b.write_all bs).1 = List.replicate bs.length true
    ∧ (cb.read_n (q.length + bs.length) (b.write_all bs).2).1 = q ++ bs
    ∧ (cb.read_n (q.length + bs.length) (b.write_all bs).2).2.empty = true := by
  obtain ⟨h, hsz⟩ := cb.reach_holds c b q hr
  obtain ⟨w1, w2, _⟩ := cb.holds_write_all b q bs h (by omega)
  have w2' : (b.write_all bs).2.Holds ((q ++ bs) ++ []) := by
    rw [List.append_nil]; exact w2
  obtain ⟨r1, r2, _⟩ := cb.holds_read_n _ (q ++ bs) [] w2'
  rw [List.length_append] at r1 r2
  exact ⟨w1, r1, (cb.holds_empty _ _ r2).mpr rfl⟩

theorem fifo_any_cursor_witness :
    (cb.example_wrapped.write_all [6]).1 = List.replicate [6].length true
    ∧ (cb.read_n ([4, 5].length + [6].length) (cb.example_wrapped.write_all [6]).2).1
        = [4, 5] ++ [6]
    ∧ (cb.read_n ([4, 5].length + [6].length) (cb.example_wrapped.write_all [6]).2).2.empty
        = true :=
  fifo_any_cursor 3 cb.example_wrapped [4, 5] [6] cb.reach_example_wrapped (by decide)

/-- C16: after `init(c)` the buffer is empty; `min(c, 254)` consecutive writes
all succeed and the next write returns false and leaves the buffer as it is;
in every reachable state `write` returns false exactly when `min(c, 254)`
bytes are stored; and after a read of a stored byte of a full buffer a write
succeeds again. -/
theorem write_fails_iff_full (c : Nat) :
    (cb.init c).empty = true
    ∧ (∀ bs : List Nat, bs.length = min c 254 →
        ((cb.init c).write_all bs).1 = List.replicate (min c 254) true
        ∧ ∀ x, ((cb.init c).write_all bs).2.write x = (false, ((cb.init c).write_all bs).2))
    ∧ (∀ b q x, cb.Reach c b q → ((b.write x).1 = false ↔ q.length = min c 254))
    ∧ (∀ b q x, cb.Reach c b q → q.length = min c 254 → q ≠ [] →
        (b.read.2.write x).1 = true) := by
  have hsz := cb.init_size c
  refine ⟨rfl, ?_, ?_, ?_⟩
  · intro bs hbs
    obtain ⟨w1, w2, w3⟩ := cb.holds_write_all (cb.init c) [] bs (cb.holds_init c)
      (by rw [hsz, hbs]; simp)
    rw [List.nil_append] at w2
    refine ⟨by rw [w1, hbs], fun x => cb.holds_write_full _ bs x w2 (by rw [w3, hsz, hbs])⟩
  · intro b q x hr
    obtain ⟨h, hs⟩ := cb.reach_holds c b q hr
    rw [cb.holds_write_iff b q x h, hs]
    omega
  · intro b q x hr hfull hne
    obtain ⟨h, hs⟩ := cb.reach_holds c b q hr
    cases q with
    | nil => exact absurd rfl hne
    | cons y q =>
      obtain ⟨_, h2, h3⟩ := cb.holds_read b y q h
      simp only [List.length_cons] at hfull
      exact (cb.holds_write _ q x h2 (by rw [h3, hs]; omega)).1

/-- C17: in every reachable state a `peek` call leaves the buffer (cursors and
stored bytes) as it is, and for an offset `k` below the number of stored bytes
it returns the byte that the `(k+1)`-th subsequent `read` returns, which is the
`k`-th stored byte. -/
theorem peek_is_lookahead (c : Nat) (b : cb) (q : List Nat) (k : Nat) (hr : cb.Reach c b q) :
    (b.peek_call k).2 = b
    ∧ (k < q.length →
        (b.peek_call k).1 = at8 (cb.read_n (k + 1) b).1 k ∧ (b.peek_call k).1 = at8 q k) := by
  refine ⟨rfl, ?_⟩
  intro hk
  obtain ⟨h, _⟩ := cb.reach_holds c b q hr
  have hp : b.peek k = at8 q k := cb.holds_peek b q k h hk
  have hsplit : b.Holds (q.take (k + 1) ++ q.drop (k + 1)) := by
    rw [List.take_append_drop]; exact h
  obtain ⟨r1, _, _⟩ := cb.holds_read_n b (q.take (k + 1)) (q.drop (k + 1)) hsplit
  have hl : (q.take (k + 1)).length = k + 1 := by
    rw [List.length_take]; omega
  rw [hl] at r1
  refine ⟨?_, hp⟩
  show b.peek k = _
  rw [hp, r1]
  unfold at8
  simp [List.getElem?_take]

theorem peek_is_lookahead_witness :
    (cb.example_wrapped.peek_call 1).2 = cb.example_wrapped
    ∧ (1 < [4, 5].length →
        (cb.example_wrapped.peek_call 1).1 = at8 (cb.read_n (1 + 1) cb.example_wrapped).1 1
        ∧ (cb.example_wrapped.peek_call 1).1 = at8 [4, 5] 1) :=
  peek_is_lookahead 3 cb.example_wrapped [4, 5] 1 cb.reach_example_wrapped

/-- C18: a `send` call with two payload bytes emits one frame of 12 bytes with
payload-length byte 2; its bytes 9, 10 and 11, the padding after header and
payload, are what the heap block held when `malloc` returned it, for every
heap content; with a block filled with `0xEE` they are `0xEE`, not `0x00`. -/
theorem send_padding_not_cleared (info2 : Bool) (self : twiprotocol) (opcode : Nat)
    (payload : List Nat) (mem : Nat → Nat → Nat) (bus : Nat → Nat) :
    (send info2 self opcode 2 payload mem bus).frames.length = 1
    ∧ ((send info2 self opcode 2 payload mem bus).frames.getD 0 []).length = 12
    ∧ at8 ((send info2 self opcode 2 payload mem bus).frames.getD 0 []) 6 = 2
    ∧ (∀ k, 9 ≤ k → k < 12 →
        at8 ((send info2 self opcode 2 payload mem bus).frames.getD 0 []) k = mem 0 k % 256)
    ∧ (send false (twiprotocol.new 5) 2 2 [1, 2] (fun _ _ => 0xEE) (fun _ => 0)).frames
        = [[5, 0, 2, 0, 248, 253, 2, 0xEE, 0xEE, 0xEE, 0xEE, 0xEE]] := by
  have hg := send_frames_getD info2 self opcode 2 payload mem bus 0 (by decide)
  have hlen : ((send info2 self opcode 2 payload mem bus).frames.getD 0 []).length = 12 := by
    rw [hg, send_packet_length]
    simp only [send_loop]
    decide
  refine ⟨by rw [send_frames_length]; rfl, hlen, ?_, ?_, by decide⟩
  · rw [hg, (send_packet_header _ _ _ _ _ _ _).2.2.2.2]
    simp only [send_loop]
    decide
  · intro k h9 h12
    rw [hg] at hlen ⊢
    exact send_packet_untouched _ _ _ _ _ _ _ k (by unfold TWIP_HEADER_SIZE; omega)
      (by show t_this_pkt_len 2 ≤ k; rw [send_len_eq]; omega) (by rw [hlen]; exact h12)

/-- C19: every frame emitted by `send` carries in bytes 4 and 5 the high and the
low byte of `checksum` of its own bytes 0, 1, 2, 3 and 6, and `rx_add` applied
to the frame, with the frame length as byte count, on a freshly constructed
engine returns true. -/
theorem send_frames_accepted (info2 : Bool) (self : twiprotocol) (opcode bytes : Nat)
    (payload : List Nat) (mem : Nat → Nat → Nat) (bus : Nat → Nat) (addr : Nat)
    (fr : List Nat) (hfr : fr ∈ (send info2 self opcode bytes payload mem bus).frames) :
    at8 fr 4 = checksum (at8 fr 0) (at8 fr 1) (at8 fr 2) (at8 fr 3) (at8 fr 6) / 256
    ∧ at8 fr 5 = checksum (at8 fr 0) (at8 fr 1) (at8 fr 2) (at8 fr 3) (at8 fr 6) % 256
    ∧ (rx_add (twiprotocol.new addr) fr (fr.length : Int)).1 = true := by
  obtain ⟨m, hm, he⟩ := List.getElem_of_mem hfr
  have hg : (send info2 self opcode bytes payload mem bus).frames.getD m [] = fr := by
    rw [List.getD_eq_getElem _ _ hm]
    exact he
  have := frame_at_accepted info2 self opcode bytes payload mem bus addr m hm
  rw [hg] at this
  exact this

theorem send_frames_accepted_witness :
    at8 [5, 0, 2, 0, 247, 253, 3, 238, 238, 238, 238, 238] 4
        = checksum (at8 [5, 0, 2, 0, 247, 253, 3, 238, 238, 238, 238, 238] 0)
            (at8 [5, 0, 2, 0, 247, 253, 3, 238, 238, 238, 238, 238] 1)
            (at8 [5, 0, 2, 0, 247, 253, 3, 238, 238, 238, 238, 238] 2)
            (at8 [5, 0, 2, 0, 247, 253, 3, 238, 238, 238, 238, 238] 3)
            (at8 [5, 0, 2, 0, 247, 253, 3, 238, 238, 238, 238, 238] 6) / 256
    ∧ at8 [5, 0, 2, 0, 247, 253, 3, 238, 238, 238, 238, 238] 5
        = checksum (at8 [5, 0, 2, 0, 247, 253, 3, 238, 238, 238, 238, 238] 0)
            (at8 [5, 0, 2, 0, 247, 253, 3, 238, 238, 238, 238, 238] 1)
            (at8 [5, 0, 2, 0, 247, 253, 3, 238, 238, 238, 238, 238] 2)
            (at8 [5, 0, 2, 0, 247, 253, 3, 238, 238, 238, 238, 238] 3)
            (at8 [5, 0, 2, 0, 247, 253, 3, 238, 238, 238, 238, 238] 6) % 256
    ∧ (rx_add (twiprotocol.new 1) [5, 0, 2, 0, 247, 253, 3, 238, 238, 238, 238, 238]
        (([5, 0, 2, 0, 247, 253, 3, 238, 238, 238, 238, 238] : List Nat).length : Int)).1
        = true :=
  send_frames_accepted false (twiprotocol.new 5) 2 3 [1, 2, 3] (fun _ _ => 0xEE) (fun _ => 0) 1
    [5, 0, 2, 0, 247, 253, 3, 238, 238, 238, 238, 238] (by decide)

/-- C20: two `TWIP_NOF` fragments accepted in this order by a freshly
constructed engine: the first `receive` returns the header fields and the
payload of the first fragment with `complete = true` and leaves exactly the
stored record of the second fragment in the buffer; the second `receive`
returns the header fields and the payload of the second fragment with
`complete = true` and leaves the buffer empty. -/
theorem receive_in_arrival_order (addr : Nat) (M1 M2 : List Nat) (fuel : Nat)
    (hfuel : 1 ≤ fuel)
    (hwf1 : TWIP_HEADER_SIZE + at8 M1 6 ≤ M1.length)
    (hwf2 : TWIP_HEADER_SIZE + at8 M2 6 ≤ M2.length)
    (h1 : at8 M1 1 = TWIP_NOF) (h2 : at8 M2 1 = TWIP_NOF)
    (hacc : (rx_add_all (twiprotocol.new addr) [M1, M2]).2 = [true, true]) :
    ∃ p1 e1 p2 e2,
      receive fuel (rx_add_all (twiprotocol.new addr) [M1, M2]).1 = some (p1, e1)
      ∧ p1.complete = true
      ∧ p1.sender = at8 M1 0 ∧ p1.flag = at8 M1 1 ∧ p1.opcode = at8 M1 2 ∧ p1.id = at8 M1 3
      ∧ p1.size = at8 M1 6
      ∧ p1.checksum = checksum (at8 M1 0) (at8 M1 1) (at8 M1 2) (at8 M1 3) (at8 M1 6)
      ∧ p1.payload = (M1.drop TWIP_HEADER_SIZE).take (at8 M1 6)
      ∧ cb.contents 255 e1.rx_buffer
          = (TWIP_HEADER_SIZE + at8 M2 6) :: M2.take (TWIP_HEADER_SIZE + at8 M2 6)
      ∧ receive fuel e1 = some (p2, e2)
      ∧ p2.complete = true
      ∧ p2.sender = at8 M2 0 ∧ p2.flag = at8 M2 1 ∧ p2.opcode = at8 M2 2 ∧ p2.id = at8 M2 3
      ∧ p2.size = at8 M2 6
      ∧ p2.checksum = checksum (at8 M2 0) (at8 M2 1) (at8 M2 2) (at8 M2 3) (at8 M2 6)
      ∧ p2.payload = (M2.drop TWIP_HEADER_SIZE).take (at8 M2 6)
      ∧ e2.rx_buffer.empty = true := by
  obtain ⟨H, hsz, _⟩ := rx_add_all_holds [M1, M2] (twiprotocol.new addr) []
    (cb.holds_init _) rfl rfl (by rw [hacc]; simp)
  have hq := H.2.2.1
  rw [hsz] at hq
  simp only [List.nil_append, List.flatMap_cons, List.flatMap_nil, List.append_nil,
    List.length_append, stored_record_length] at H hq
  have hN : flag_decode TWIP_FLAG_NFO TWIP_NOF = TWIP_NOF := rfl
  have hNE : ¬ TWIP_NOF = TWIP_EOF := by decide
  have H1 : (rx_add_all (twiprotocol.new addr) [M1, M2]).1.rx_buffer.Holds
      (([] ++ [M1]).flatMap stored_record ++ stored_record M2) := by
    simpa using H
  obtain ⟨p1, e1, r1, k1, z1, _, _, a1, a2, a3, a4, a5, a6, a7, a8⟩ :=
    receive_drain _ [] M1 (stored_record M2) fuel (by simpa using hfuel) H1 (by omega)
      (by intro f hf; simp at hf) (Or.inl (by rw [h1]; exact hN))
  have H2 : e1.rx_buffer.Holds (([] ++ [M2]).flatMap stored_record ++ []) := by
    simpa using k1
  obtain ⟨p2, e2, r2, k2, _, _, _, b1, b2, b3, b4, b5, b6, b7, b8⟩ :=
    receive_drain e1 [] M2 [] fuel (by simpa using hfuel) H2 (by rw [z1]; omega)
      (by intro f hf; simp at hf) (Or.inl (by rw [h2]; exact hN))
  simp only [List.nil_append, List.headD_cons, List.map_cons, List.map_nil, List.sum_cons,
    List.sum_nil, Nat.add_zero, List.flatMap_cons, List.flatMap_nil, List.append_nil,
    h1, h2, hN, if_neg hNE] at a2 a3 a4 a5 a6 a7 a8 b2 b3 b4 b5 b6 b7 b8
  refine ⟨p1, e1, p2, e2, r1, a1, a2, by rw [a5, h1], a3, a4, a6, ?_, ?_, ?_, r2, b1, b2,
    by rw [b5, h2], b3, b4, b6, ?_, ?_, (cb.holds_empty _ _ k2).mpr rfl⟩
  · rw [a7, a2, a5, a3, a4, a6, h1]
  · rw [a8, fragment_payload_eq M1 hwf1]
  · rw [cb.holds_contents _ _ 255 k1 (by rw [stored_record_length]; omega),
      stored_record_take M2 (by omega) hwf2]
  · rw [b7, b2, b5, b3, b4, b6, h2]
  · rw [b8, fragment_payload_eq M2 hwf2]

theorem receive_in_arrival_order_witness :
    ∃ p1 e1 p2 e2,
      receive 1 (rx_add_all (twiprotocol.new 1)
        [[5, 0, 2, 9, 248, 244, 2, 17, 34, 0, 0, 0], [6, 0, 3, 10, 248, 242, 1, 51]]).1
          = some (p1, e1)
      ∧ p1.complete = true
      ∧ p1.sender = at8 [5, 0, 2, 9, 248, 244, 2, 17, 34, 0, 0, 0] 0
      ∧ p1.flag = at8 [5, 0, 2, 9, 248, 244, 2, 17, 34, 0, 0, 0] 1
      ∧ p1.opcode = at8 [5, 0, 2, 9, 248, 244, 2, 17, 34, 0, 0, 0] 2
      ∧ p1.id = at8 [5, 0, 2, 9, 248, 244, 2, 17, 34, 0, 0, 0] 3
      ∧ p1.size = at8 [5, 0, 2, 9, 248, 244, 2, 17, 34, 0, 0, 0] 6
      ∧ p1.checksum = checksum (at8 [5, 0, 2, 9, 248, 244, 2, 17, 34, 0, 0, 0] 0)
          (at8 [5, 0, 2, 9, 248, 244, 2, 17, 34, 0, 0, 0] 1)
          (at8 [5, 0, 2, 9, 248, 244, 2, 17, 34, 0, 0, 0] 2)
          (at8 [5, 0, 2, 9, 248, 244, 2, 17, 34, 0, 0, 0] 3)
          (at8 [5, 0, 2, 9, 248, 244, 2, 17, 34, 0, 0, 0] 6)
      ∧ p1.payload = (([5, 0, 2, 9, 248, 244, 2, 17, 34, 0, 0, 0] : List Nat).drop
          TWIP_HEADER_SIZE).take (at8 [5, 0, 2, 9, 248, 244, 2, 17, 34, 0, 0, 0] 6)
      ∧ cb.contents 255 e1.rx_buffer
          = (TWIP_HEADER_SIZE + at8 [6, 0, 3, 10, 248, 242, 1, 51] 6)
            :: ([6, 0, 3, 10, 248, 242, 1, 51] : List Nat).take
              (TWIP_HEADER_SIZE + at8 [6, 0, 3, 10, 248, 242, 1, 51] 6)
      ∧ receive 1 e1 = some (p2, e2)
      ∧ p2.complete = true
      ∧ p2.sender = at8 [6, 0, 3, 10, 248, 242, 1, 51] 0
      ∧ p2.flag = at8 [6, 0, 3, 10, 248, 242, 1, 51] 1
      ∧ p2.opcode = at8 [6, 0, 3, 10, 248, 242, 1, 51] 2
      ∧ p2.id = at8 [6, 0, 3, 10, 248, 242, 1, 51] 3
      ∧ p2.size = at8 [6, 0, 3, 10, 248, 242, 1, 51] 6
      ∧ p2.checksum = checksum (at8 [6, 0, 3, 10, 248, 242, 1, 51] 0)
          (at8 [6, 0, 3, 10, 248, 242, 1, 51] 1) (at8 [6, 0, 3, 10, 248, 242, 1, 51] 2)
          (at8 [6, 0, 3, 10, 248, 242, 1, 51] 3) (at8 [6, 0, 3, 10, 248, 242, 1, 51] 6)
      ∧ p2.payload = (([6, 0, 3, 10, 248, 242, 1, 51] : List Nat).drop TWIP_HEADER_SIZE).take
          (at8 [6, 0, 3, 10, 248, 242, 1, 51] 6)
      ∧ e2.rx_buffer.empty = true :=
  receive_in_arrival_order 1 [5, 0, 2, 9, 248, 244, 2, 17, 34, 0, 0, 0]
    [6, 0, 3, 10, 248, 242, 1, 51] 1 (by decide) (by decide) (by decide) (by decide)
    (by decide) (by decide)

/-- C21: after `init(c)`, every sequence of `write`, `read`, `peek`, `empty` and
`available` calls leaves the read cursor and the write cursor below
`min c 254 + 1`, which is the slot count and the length of the storage, so the
index `cb_start` of the next `read`, the index `cb_end` of the next `write` and
the index `(cb_start + offset) % cb_size` of the next `peek` are inside the
storage. -/
theorem cursors_in_storage (c : Nat) (ops : List cb.call) :
    ((cb.init c).run ops).cb_start < min c 254 + 1
    ∧ ((cb.init c).run ops).cb_end < min c 254 + 1
    ∧ ((cb.init c).run ops).cb_size = min c 254 + 1
    ∧ ((cb.init c).run ops).cb_buffer.length = min c 254 + 1
    ∧ ((cb.init c).run ops).cb_start < ((cb.init c).run ops).cb_buffer.length
    ∧ ((cb.init c).run ops).cb_end < ((cb.init c).run ops).cb_buffer.length
    ∧ ∀ offset : Nat,
        (((cb.init c).run ops).cb_start + offset) % ((cb.init c).run ops).cb_size
          < ((cb.init c).run ops).cb_buffer.length := by
  obtain ⟨h1, h2, h3, h4⟩ := cb.run_cursors (min c 254 + 1) ops (cb.init c) (cb.init_cursors c)
  refine ⟨h1, h2, h3, h4, by omega, by omega, fun offset => ?_⟩
  rw [h3, h4]
  exact Nat.mod_lt _ (Nat.succ_pos _)

/-- C22: two headers with the same `(sender + flag + len) % 256` and the same
`opcode + id` have the same checksum; the checksum is unchanged when flag and
len, sender and flag, or opcode and id are exchanged; and when `rx_add` accepts
a fragment it accepts the fragment with sender and flag exchanged and the one
with opcode and id exchanged, and accepts the one with flag and len exchanged
exactly when the record of the new length fits. -/
theorem checksum_blind_spot (s f o i l s' f' o' i' l' hi lo : Nat) (payload : List Nat)
    (self : twiprotocol) (bytes : Int)
    (hsum : (s + f + l) % 256 = (s' + f' + l') % 256) (hoi : o + i = o' + i')
    (hacc : (rx_add self (s :: f :: o :: i :: hi :: lo :: l :: payload) bytes).1 = true) :
    checksum s f o i l = checksum s' f' o' i' l'
    ∧ checksum s f o i l = checksum s l o i f
    ∧ checksum s f o i l = checksum f s o i l
    ∧ checksum s f o i l = checksum s f i o l
    ∧ (rx_add self (f :: s :: o :: i :: hi :: lo :: l :: payload) bytes).1 = true
    ∧ (rx_add self (s :: f :: i :: o :: hi :: lo :: l :: payload) bytes).1 = true
    ∧ ((rx_add self (s :: l :: o :: i :: hi :: lo :: f :: payload) bytes).1 = true
        ↔ TWIP_HEADER_SIZE + f + 1 ≤ self.rx_buffer.available) := by
  have e1 : checksum s f o i l = checksum s l o i f := by
    rw [checksum_sum, checksum_sum, show s + l + f = s + f + l by omega]
  have e2 : checksum s f o i l = checksum f s o i l := by
    rw [checksum_sum, checksum_sum, show f + s + l = s + f + l by omega]
  have e3 : checksum s f o i l = checksum s f i o l := by
    rw [checksum_sum, checksum_sum, show i + o = o + i by omega]
  rw [rx_add_accepts_iff] at hacc
  obtain ⟨hfit, hw⟩ := hacc
  refine ⟨by rw [checksum_sum, checksum_sum, hsum, hoi], e1, e2, e3, ?_, ?_, ?_⟩
  · rw [rx_add_accepts_iff]
    exact ⟨hfit, hw.trans e2⟩
  · rw [rx_add_accepts_iff]
    exact ⟨hfit, hw.trans e3⟩
  · rw [rx_add_accepts_iff]
    constructor
    · intro h
      exact h.1
    · intro h
      exact ⟨h, hw.trans e1⟩

theorem checksum_blind_spot_witness :
    checksum 1 2 3 4 5 = checksum 250 10 0 7 4
    ∧ checksum 1 2 3 4 5 = checksum 1 5 3 4 2
    ∧ checksum 1 2 3 4 5 = checksum 2 1 3 4 5
    ∧ checksum 1 2 3 4 5 = checksum 1 2 4 3 5
    ∧ (rx_add (twiprotocol.new 9) [2, 1, 3, 4, 247, 248, 5, 11, 12, 13, 14, 15] 12).1 = true
    ∧ (rx_add (twiprotocol.new 9) [1, 2, 4, 3, 247, 248, 5, 11, 12, 13, 14, 15] 12).1 = true
    ∧ ((rx_add (twiprotocol.new 9) [1, 5, 3, 4, 247, 248, 2, 11, 12, 13, 14, 15] 12).1 = true
        ↔ TWIP_HEADER_SIZE + 2 + 1 ≤ (twiprotocol.new 9).rx_buffer.available) :=
  checksum_blind_spot 1 2 3 4 5 250 10 0 7 4 247 248 [11, 12, 13, 14, 15] (twiprotocol.new 9) 12
    (by decide) (by decide) (by decide)

end Twip
